import Mathlib

set_option maxHeartbeats 1000000
set_option maxRecDepth 4000

/-!
Verification of the cell-update core of the 3-D cellular automata
repository (`TanTanDev/3d_celluar_automata`).

The canonical engine is the chunked, atomic-boundary implementation
`src/cells/leddoo/atomic.rs`, cross-checked against the sequential
engine `src/cells/leddoo/single_threaded.rs` and the chunk-parallel,
serial-boundary engine `src/cells/leddoo/multi_threaded.rs`
(with the shared chunk structure of `src/cells/leddoo/mod.rs`),
over the rule data of `src/rule.rs` and `src/neighbours.rs`.

Modelling conventions:
* `u8` cell data (`value`, `neighbor_count`) is modelled as `Nat`;
  wrapping `u8` arithmetic is explicit `% 256` (a `u8` decrement is
  `+ 255` mod 256).  `i32` coordinates are `Int` (all coordinate
  arithmetic in the code stays far below `i32` overflow).
* Dense arrays are modelled as index functions `Nat → Nat`.
* Rust panics (the out-of-bounds bitset index in `Value::in_range`)
  are modelled by `Option`: `none` is a panic.
* Parallel task batches are sequentialized in their spawn/join
  order: the code joins every Phase-A task before Phase B starts, and
  the Phase-B writes are commutative wrapping increments/decrements,
  so the sequentialization is observationally faithful.
-/

/-- `bevy::math::IVec3`: a 3-component `i32` vector. -/
structure IVec3 where
  x : Int
  y : Int
  z : Int
deriving DecidableEq, Repr

/-- `bevy::math::ivec3`. -/
def ivec3 (x y z : Int) : IVec3 := ⟨x, y, z⟩

instance : Add IVec3 := ⟨fun a b => ⟨a.x + b.x, a.y + b.y, a.z + b.z⟩⟩

instance : Neg IVec3 := ⟨fun a => ⟨-a.x, -a.y, -a.z⟩⟩

instance : Sub IVec3 := ⟨fun a b => ⟨a.x - b.x, a.y - b.y, a.z - b.z⟩⟩

/-- Scalar multiplication `i32 * IVec3`. -/
instance : HMul Int IVec3 IVec3 := ⟨fun c v => ⟨c * v.x, c * v.y, c * v.z⟩⟩

/-- Componentwise `pos % k` (Rust `IVec3 % i32`).  Rust `%` truncates
toward zero; every call site in the verified code applies it to
nonnegative coordinates, where truncated and Euclidean remainder agree,
so the Euclidean `Int.emod` is used. -/
def IVec3.smod (v : IVec3) (k : Int) : IVec3 := ⟨v.x.emod k, v.y.emod k, v.z.emod k⟩

/-- Componentwise `pos / k` (Rust `IVec3 / i32`, truncated division;
nonnegative at every call site, where it agrees with `Int.ediv`). -/
def IVec3.sdiv (v : IVec3) (k : Int) : IVec3 := ⟨v.x.ediv k, v.y.ediv k, v.z.ediv k⟩

@[simp] theorem IVec3.add_x (a b : IVec3) : (a + b).x = a.x + b.x := rfl

@[simp] theorem IVec3.add_y (a b : IVec3) : (a + b).y = a.y + b.y := rfl

@[simp] theorem IVec3.add_z (a b : IVec3) : (a + b).z = a.z + b.z := rfl

@[simp] theorem IVec3.neg_x (a : IVec3) : (-a).x = -a.x := rfl

@[simp] theorem IVec3.neg_y (a : IVec3) : (-a).y = -a.y := rfl

@[simp] theorem IVec3.neg_z (a : IVec3) : (-a).z = -a.z := rfl

/-! ## `src/utils.rs` helpers used by the leddoo engines

The snapshot's `src/utils.rs` retains only the older hashmap-era helpers
(`keep_in_bounds`, the hashmap `spawn_noise`, color lerp); the flat-grid
helpers `utils::wrap`, `utils::index_to_pos`, `utils::pos_to_index` and
`utils::make_some_noise_default` that the leddoo engines call are not in
the snapshot and are modelled from the spec below. -/

/-- Modelled from the spec: `utils::index_to_pos(index, bounds)` is absent
from the snapshot.  §4.1 fixes the `x + y*bound + z*bound²` layout, matching
the in-tree `LeddooSingleThreaded::index_to_vec`. -/
def utils.index_to_pos (index : Nat) (bounds : Int) : IVec3 :=
  ivec3 (index % bounds.toNat : Nat) (index / bounds.toNat % bounds.toNat : Nat)
        (index / bounds.toNat / bounds.toNat : Nat)

/-- Modelled from the spec: `utils::pos_to_index(pos, bounds)` is absent from
the snapshot.  §4.1 fixes the `x + y*bound + z*bound²` layout, matching the
in-tree `LeddooSingleThreaded::vec_to_index`; the `as usize` casts are
`Int.toNat` (every call site passes nonnegative coordinates, established by
the wrap/border lemmas below). -/
def utils.pos_to_index (pos : IVec3) (bounds : Int) : Nat :=
  pos.x.toNat + pos.y.toNat * bounds.toNat + pos.z.toNat * bounds.toNat * bounds.toNat

/-- Modelled from the spec: `utils::wrap(pos, bounds)` is absent from the
snapshot.  §4.1: "maps any integer coordinate into `[0, bound)` per axis
using true modulo (never negative)" — the Euclidean remainder, per axis. -/
def utils.wrap (pos : IVec3) (bounds : Int) : IVec3 :=
  ivec3 (pos.x.emod bounds) (pos.y.emod bounds) (pos.z.emod bounds)

/-- Modelled from the spec: `utils::make_some_noise_default(center, f)` is
absent from the snapshot.  §4.3: it invokes the callback on up to `12³`
pseudo-random positions inside the cube of half-width 6 around `center`.
The pseudo-random draws are the explicit parameter `offsets` (theorems
hypothesise that each offset's coordinates lie in `[-6, 6]`); the stateful
callback threads the mutated simulation state explicitly. -/
def utils.make_some_noise_default {σ : Type} (offsets : List IVec3) (center : IVec3)
    (f : σ → IVec3 → σ) (s : σ) : σ :=
  offsets.foldl (fun s o => f s (center + o)) s

/-! ## `src/neighbours.rs` -/

/-- `neighbours::NeighbourMethod`. -/
inductive NeighbourMethod where
  | Moore
  | VonNeuman
deriving DecidableEq, Repr

/-- `neighbours::VONNEUMAN_NEIGHBOURS`. -/
def VONNEUMAN_NEIGHBOURS : List IVec3 :=
  [ivec3 1 0 0, ivec3 (-1) 0 0, ivec3 0 1 0,
   ivec3 0 (-1) 0, ivec3 0 0 (-1), ivec3 0 0 1]

/-- `neighbours::MOOSE_NEIGHBOURS` (the 26 Moore directions). -/
def MOOSE_NEIGHBOURS : List IVec3 :=
  [ivec3 (-1) (-1) (-1), ivec3 0 (-1) (-1), ivec3 1 (-1) (-1),
   ivec3 (-1) 0 (-1), ivec3 0 0 (-1), ivec3 1 0 (-1),
   ivec3 (-1) 1 (-1), ivec3 0 1 (-1), ivec3 1 1 (-1),
   ivec3 (-1) (-1) 0, ivec3 0 (-1) 0, ivec3 1 (-1) 0,
   ivec3 (-1) 0 0, ivec3 1 0 0,
   ivec3 (-1) 1 0, ivec3 0 1 0, ivec3 1 1 0,
   ivec3 (-1) (-1) 1, ivec3 0 (-1) 1, ivec3 1 (-1) 1,
   ivec3 (-1) 0 1, ivec3 0 0 1, ivec3 1 0 1,
   ivec3 (-1) 1 1, ivec3 0 1 1, ivec3 1 1 1]

/-- `NeighbourMethod::get_neighbour_iter`. -/
def NeighbourMethod.get_neighbour_iter : NeighbourMethod → List IVec3
  | .Moore => MOOSE_NEIGHBOURS
  | .VonNeuman => VONNEUMAN_NEIGHBOURS

/-! ## `src/rule.rs` -/

/-- `rule::Value`: a fixed-size membership bitset `[bool; 27]`. -/
structure Value where
  bits : Fin 27 → Bool

/-- `Value::in_range`: `self.0[value as usize]`.  This is a panicking array
index — out-of-range input is modelled as `none`. -/
def Value.in_range (v : Value) (value : Nat) : Option Bool :=
  if h : value < 27 then some (v.bits ⟨value, h⟩) else none

/-- `Value::in_range_incorrect`: `self.0.get(value as usize).unwrap_or(&false)`
— total, `false` out of range. -/
def Value.in_range_incorrect (v : Value) (value : Nat) : Bool :=
  if h : value < 27 then v.bits ⟨value, h⟩ else false

/-- `rule::Rule`.  The `color_method : ColorMethod` field feeds only the
renderer (out of scope here) and is omitted; `u8`/`i32` fields are
`Nat`/`Int`. -/
structure Rule where
  survival_rule : Value
  birth_rule : Value
  states : Nat
  neighbour_method : NeighbourMethod
  bounding_size : Int

/-- `Rule::center`. -/
def Rule.center (rule : Rule) : IVec3 :=
  let center := rule.bounding_size.ediv 2
  ivec3 center center center

/-! ## Chunk constants (`src/cells/leddoo/atomic.rs`, `src/cells/leddoo/mod.rs`) -/

/-- `CHUNK_SIZE` (declared identically in `leddoo/atomic.rs` and
`leddoo/mod.rs`). -/
def CHUNK_SIZE : Nat := 32

/-- `CHUNK_CELL_COUNT`. -/
def CHUNK_CELL_COUNT : Nat := CHUNK_SIZE * CHUNK_SIZE * CHUNK_SIZE

/-- `atomic.rs`: `bounds_to_chunk_radius`. -/
def bounds_to_chunk_radius (bounds : Int) : Nat :=
  (bounds.toNat + CHUNK_SIZE - 1) / CHUNK_SIZE

/-- `atomic.rs`: `chunk_offset_to_pos`. -/
def chunk_offset_to_pos (offset : Nat) : IVec3 :=
  utils.index_to_pos offset (CHUNK_SIZE : Int)

/-- `atomic.rs`: `chunk_is_border_pos` (`Chunk::is_border_pos` in
`leddoo/mod.rs` is the same formula). -/
def chunk_is_border_pos (pos : IVec3) (offset : Int) : Bool :=
  decide (pos.x - offset ≤ 0) || decide (pos.x + offset ≥ (CHUNK_SIZE : Int) - 1) ||
  decide (pos.y - offset ≤ 0) || decide (pos.y + offset ≥ (CHUNK_SIZE : Int) - 1) ||
  decide (pos.z - offset ≤ 0) || decide (pos.z + offset ≥ (CHUNK_SIZE : Int) - 1)

/-- `atomic.rs`: `cell_is_dead` (`Cell::is_dead` in the other engines). -/
def cell_is_dead (value : Nat) : Bool := value == 0

/-! ## Geometry lemmas -/

theorem IVec3.ext_xyz {a b : IVec3} (hx : a.x = b.x) (hy : a.y = b.y) (hz : a.z = b.z) :
    a = b := by
  cases a; cases b; simp_all

theorem IVec3.add_neg_cancel_right (a d : IVec3) : a + d + -d = a := by
  refine IVec3.ext_xyz ?_ ?_ ?_ <;> simp

theorem IVec3.neg_neg_vec (d : IVec3) : - -d = d := by
  refine IVec3.ext_xyz ?_ ?_ ?_ <;> simp

theorem utils.index_to_pos_x (i : Nat) (b : Int) :
    (utils.index_to_pos i b).x = ((i % b.toNat : Nat) : Int) := rfl

theorem utils.index_to_pos_y (i : Nat) (b : Int) :
    (utils.index_to_pos i b).y = ((i / b.toNat % b.toNat : Nat) : Int) := rfl

theorem utils.index_to_pos_z (i : Nat) (b : Int) :
    (utils.index_to_pos i b).z = ((i / b.toNat / b.toNat : Nat) : Int) := rfl

theorem utils.pos_to_index_index_to_pos (i : Nat) (b : Int) :
    utils.pos_to_index (utils.index_to_pos i b) b = i := by
  have hc : ∀ m : Nat, ((m : Int)).toNat = m := fun _ => rfl
  show ((i % b.toNat : Nat) : Int).toNat + ((i / b.toNat % b.toNat : Nat) : Int).toNat * b.toNat
      + ((i / b.toNat / b.toNat : Nat) : Int).toNat * b.toNat * b.toNat = i
  rw [hc, hc, hc]
  have h1 : i % b.toNat + b.toNat * (i / b.toNat) = i := Nat.mod_add_div i b.toNat
  have h2 : i / b.toNat % b.toNat + b.toNat * (i / b.toNat / b.toNat) = i / b.toNat :=
    Nat.mod_add_div (i / b.toNat) b.toNat
  calc i % b.toNat + i / b.toNat % b.toNat * b.toNat + i / b.toNat / b.toNat * b.toNat * b.toNat
      = i % b.toNat + b.toNat * (i / b.toNat % b.toNat + b.toNat * (i / b.toNat / b.toNat)) := by
        ring
    _ = i % b.toNat + b.toNat * (i / b.toNat) := by rw [h2]
    _ = i := h1

theorem utils.index_to_pos_pos_to_index {p : IVec3} {b : Int}
    (hx0 : 0 ≤ p.x) (hx1 : p.x < b) (hy0 : 0 ≤ p.y) (hy1 : p.y < b)
    (hz0 : 0 ≤ p.z) (hz1 : p.z < b) :
    utils.index_to_pos (utils.pos_to_index p b) b = p := by
  have hxn : p.x.toNat < b.toNat := by omega
  have hyn : p.y.toNat < b.toNat := by omega
  have hzn : p.z.toNat < b.toNat := by omega
  have hnpos : 0 < b.toNat := by omega
  have hsplit : utils.pos_to_index p b = p.x.toNat + b.toNat * (p.y.toNat + b.toNat * p.z.toNat) := by
    show p.x.toNat + p.y.toNat * b.toNat + p.z.toNat * b.toNat * b.toNat = _
    ring
  have hmod : utils.pos_to_index p b % b.toNat = p.x.toNat := by
    rw [hsplit, Nat.add_mul_mod_self_left, Nat.mod_eq_of_lt hxn]
  have hdiv : utils.pos_to_index p b / b.toNat = p.y.toNat + b.toNat * p.z.toNat := by
    rw [hsplit, Nat.add_mul_div_left _ _ hnpos, Nat.div_eq_of_lt hxn, Nat.zero_add]
  have hdm : utils.pos_to_index p b / b.toNat % b.toNat = p.y.toNat := by
    rw [hdiv, Nat.add_mul_mod_self_left, Nat.mod_eq_of_lt hyn]
  have hdd : utils.pos_to_index p b / b.toNat / b.toNat = p.z.toNat := by
    rw [hdiv, Nat.add_mul_div_left _ _ hnpos, Nat.div_eq_of_lt hyn, Nat.zero_add]
  refine IVec3.ext_xyz ?_ ?_ ?_
  · rw [utils.index_to_pos_x, hmod]; omega
  · rw [utils.index_to_pos_y, hdm]; omega
  · rw [utils.index_to_pos_z, hdd]; omega

theorem utils.index_to_pos_x_mem (i : Nat) (b : Int) (hb : 0 < b) :
    0 ≤ (utils.index_to_pos i b).x ∧ (utils.index_to_pos i b).x < b := by
  have hn : 0 < b.toNat := by omega
  have h := Nat.mod_lt i hn
  rw [utils.index_to_pos_x]
  omega

theorem utils.index_to_pos_y_mem (i : Nat) (b : Int) (hb : 0 < b) :
    0 ≤ (utils.index_to_pos i b).y ∧ (utils.index_to_pos i b).y < b := by
  have hn : 0 < b.toNat := by omega
  have h := Nat.mod_lt (i / b.toNat) hn
  rw [utils.index_to_pos_y]
  omega

theorem utils.index_to_pos_z_mem (i : Nat) (b : Int) (hb : 0 < b)
    (hi : i < b.toNat * b.toNat * b.toNat) :
    0 ≤ (utils.index_to_pos i b).z ∧ (utils.index_to_pos i b).z < b := by
  have hn : 0 < b.toNat := by omega
  have h1 : i / b.toNat / b.toNat < b.toNat := by
    rw [Nat.div_div_eq_div_mul]
    exact Nat.div_lt_of_lt_mul (by rw [Nat.mul_comm (b.toNat * b.toNat) b.toNat] at hi ⊢; omega)
  have hbb : ((b.toNat : Nat) : Int) = b := Int.toNat_of_nonneg (le_of_lt hb)
  rw [utils.index_to_pos_z]
  refine ⟨Int.natCast_nonneg _, ?_⟩
  calc ((i / b.toNat / b.toNat : Nat) : Int) < ((b.toNat : Nat) : Int) := by exact_mod_cast h1
    _ = b := hbb

theorem utils.pos_to_index_lt {p : IVec3} {b : Int}
    (hx0 : 0 ≤ p.x) (hx1 : p.x < b) (hy0 : 0 ≤ p.y) (hy1 : p.y < b)
    (hz0 : 0 ≤ p.z) (hz1 : p.z < b) :
    utils.pos_to_index p b < b.toNat * b.toNat * b.toNat := by
  have hxn : p.x.toNat < b.toNat := by omega
  have hyn : p.y.toNat < b.toNat := by omega
  have hzn : p.z.toNat < b.toNat := by omega
  show p.x.toNat + p.y.toNat * b.toNat + p.z.toNat * b.toNat * b.toNat < _
  calc p.x.toNat + p.y.toNat * b.toNat + p.z.toNat * b.toNat * b.toNat
      < (1 + p.y.toNat) * b.toNat + p.z.toNat * b.toNat * b.toNat := by
        have := Nat.one_mul b.toNat
        ring_nf
        omega
    _ ≤ b.toNat * b.toNat + p.z.toNat * b.toNat * b.toNat := by
        have h := Nat.mul_le_mul_right b.toNat (show 1 + p.y.toNat ≤ b.toNat by omega)
        omega
    _ = (1 + p.z.toNat) * (b.toNat * b.toNat) := by ring
    _ ≤ b.toNat * (b.toNat * b.toNat) :=
        Nat.mul_le_mul_right _ (by omega)
    _ = b.toNat * b.toNat * b.toNat := by ring

theorem utils.wrap_x (p : IVec3) (b : Int) : (utils.wrap p b).x = p.x.emod b := rfl

theorem utils.wrap_y (p : IVec3) (b : Int) : (utils.wrap p b).y = p.y.emod b := rfl

theorem utils.wrap_z (p : IVec3) (b : Int) : (utils.wrap p b).z = p.z.emod b := rfl

/-- Wrap correctness, per axis: result in `[0, bound)` and congruent to the
input modulo `bound`. -/
theorem utils.wrap_mem {p : IVec3} {b : Int} (hb : 0 < b) :
    (0 ≤ (utils.wrap p b).x ∧ (utils.wrap p b).x < b) ∧
    (0 ≤ (utils.wrap p b).y ∧ (utils.wrap p b).y < b) ∧
    (0 ≤ (utils.wrap p b).z ∧ (utils.wrap p b).z < b) := by
  have hb' : b ≠ 0 := by omega
  exact ⟨⟨Int.emod_nonneg _ hb', Int.emod_lt_of_pos _ hb⟩,
         ⟨Int.emod_nonneg _ hb', Int.emod_lt_of_pos _ hb⟩,
         ⟨Int.emod_nonneg _ hb', Int.emod_lt_of_pos _ hb⟩⟩

theorem utils.wrap_eq_self {p : IVec3} {b : Int}
    (hx0 : 0 ≤ p.x) (hx1 : p.x < b) (hy0 : 0 ≤ p.y) (hy1 : p.y < b)
    (hz0 : 0 ≤ p.z) (hz1 : p.z < b) :
    utils.wrap p b = p := by
  refine IVec3.ext_xyz ?_ ?_ ?_
  · rw [utils.wrap_x]; exact Int.emod_eq_of_lt hx0 hx1
  · rw [utils.wrap_y]; exact Int.emod_eq_of_lt hy0 hy1
  · rw [utils.wrap_z]; exact Int.emod_eq_of_lt hz0 hz1

theorem utils.wrap_add_wrap (p d : IVec3) (b : Int) :
    utils.wrap (utils.wrap p b + d) b = utils.wrap (p + d) b := by
  refine IVec3.ext_xyz ?_ ?_ ?_ <;>
    simp only [utils.wrap_x, utils.wrap_y, utils.wrap_z, IVec3.add_x, IVec3.add_y, IVec3.add_z] <;>
    exact Int.emod_add_emod _ _ _

/-- The index of the (wrapped) neighbor of cell `i` in direction `d` — the
common target expression of every neighbor-patch loop. -/
def nbrIdx (b : Int) (i : Nat) (d : IVec3) : Nat :=
  utils.pos_to_index (utils.wrap (utils.index_to_pos i b + d) b) b

theorem nbrIdx_lt {b : Int} (hb : 0 < b) (i : Nat) (d : IVec3) :
    nbrIdx b i d < b.toNat * b.toNat * b.toNat := by
  have h := utils.wrap_mem (p := utils.index_to_pos i b + d) hb
  exact utils.pos_to_index_lt h.1.1 h.1.2 h.2.1.1 h.2.1.2 h.2.2.1 h.2.2.2

theorem utils.pos_to_index_wrap_eq_iff {q : IVec3} {b : Int} {j : Nat} (hb : 0 < b) :
    utils.pos_to_index (utils.wrap q b) b = j ↔ utils.wrap q b = utils.index_to_pos j b := by
  constructor
  · intro h
    have hw := utils.wrap_mem (p := q) hb
    have h2 := utils.index_to_pos_pos_to_index (b := b)
      hw.1.1 hw.1.2 hw.2.1.1 hw.2.1.2 hw.2.2.1 hw.2.2.2
    rw [h] at h2
    exact h2.symm
  · intro h
    rw [h]
    exact utils.pos_to_index_index_to_pos j b

/-- Neighbor symmetry: `j` is `i`'s `d`-neighbor exactly when `i` is `j`'s
`(-d)`-neighbor (toroidal wrap). -/
theorem nbrIdx_symm {b : Int} {i j : Nat} (hb : 0 < b)
    (hi : i < b.toNat * b.toNat * b.toNat) (hj : j < b.toNat * b.toNat * b.toNat)
    (d : IVec3) :
    nbrIdx b i d = j ↔ nbrIdx b j (-d) = i := by
  have key : ∀ (k l : Nat), k < b.toNat * b.toNat * b.toNat → (e : IVec3) →
      nbrIdx b k e = l → nbrIdx b l (-e) = k := by
    intro k l hk e h
    unfold nbrIdx at h ⊢
    rw [utils.pos_to_index_wrap_eq_iff hb] at h
    rw [utils.pos_to_index_wrap_eq_iff hb, ← h, utils.wrap_add_wrap,
        IVec3.add_neg_cancel_right]
    have hkx := utils.index_to_pos_x_mem k b hb
    have hky := utils.index_to_pos_y_mem k b hb
    have hkz := utils.index_to_pos_z_mem k b hb hk
    exact utils.wrap_eq_self hkx.1 hkx.2 hky.1 hky.2 hkz.1 hkz.2
  constructor
  · exact key i j hi d
  · intro h
    have h2 := key j i hj (-d) h
    rwa [IVec3.neg_neg_vec] at h2

/-! ## The shared per-cell Phase-A transition -/

/-- One cell's Phase-A decision: the loop body shared verbatim by
`LeddooSingleThreaded::update`, `LeddooMultiThreaded::update_values_chunk`
and `LeddooAtomic::update_values`.  Given the cell's current value and its
(frozen) neighbor count it yields the new value, whether the cell's index is
pushed to `spawns`, and whether it is pushed to `deaths`.  `none` is the
`Value::in_range` panic (count `≥ 27`); Rust's short-circuiting
`*value < rule.states || !rule.survival_rule.in_range(..)` becomes the
nested `if` (the survival test is not evaluated when `value < states`). -/
def cellStep (rule : Rule) (value neighbors : Nat) : Option (Nat × Bool × Bool) :=
  if cell_is_dead value then
    match rule.birth_rule.in_range neighbors with
    | none => none
    | some b =>
      if b then some (rule.states, true, false) else some (value, false, false)
  else if value < rule.states then
    some (value - 1, false, decide (value = rule.states))
  else
    match rule.survival_rule.in_range neighbors with
    | none => none
    | some sv =>
      if sv then some (value, false, false)
      else some (value - 1, false, decide (value = rule.states))

/-- Whether the cell's Phase-A decision is panic-free. -/
def cellOk (rule : Rule) (value neighbors : Nat) : Bool :=
  (cellStep rule value neighbors).isSome

/-- The cell's new value (total reading: the old value on panic). -/
def cellValue (rule : Rule) (value neighbors : Nat) : Nat :=
  ((cellStep rule value neighbors).map Prod.fst).getD value

/-- Whether the cell is pushed to `spawns` (total reading). -/
def cellSpawnB (rule : Rule) (value neighbors : Nat) : Bool :=
  ((cellStep rule value neighbors).map (fun r => r.2.1)).getD false

/-- Whether the cell is pushed to `deaths` (total reading). -/
def cellDeathB (rule : Rule) (value neighbors : Nat) : Bool :=
  ((cellStep rule value neighbors).map (fun r => r.2.2)).getD false

theorem Value.in_range_eq_some {v : Value} {n : Nat} (h : n < 27) :
    v.in_range n = some (v.in_range_incorrect n) := by
  simp [Value.in_range, Value.in_range_incorrect, h]

theorem Value.in_range_eq_none {v : Value} {n : Nat} (h : ¬ n < 27) :
    v.in_range n = none := by
  simp [Value.in_range, h]

theorem Value.in_range_isSome (v : Value) (n : Nat) :
    (v.in_range n).isSome = decide (n < 27) := by
  by_cases h : n < 27
  · rw [Value.in_range_eq_some h]; simp [h]
  · rw [Value.in_range_eq_none h]; simp [h]

theorem cellStep_eq_ok (rule : Rule) (value neighbors : Nat) :
    cellStep rule value neighbors =
      if cellOk rule value neighbors then
        some (cellValue rule value neighbors, cellSpawnB rule value neighbors,
              cellDeathB rule value neighbors)
      else none := by
  rcases h : cellStep rule value neighbors with _ | ⟨v, s, d⟩ <;>
    simp [cellOk, cellValue, cellSpawnB, cellDeathB, h]

theorem cellOk_iff (rule : Rule) (value neighbors : Nat) :
    cellOk rule value neighbors = true ↔
      (neighbors < 27 ∨ (value ≠ 0 ∧ value < rule.states)) := by
  unfold cellOk cellStep cell_is_dead
  by_cases hv : value = 0 <;> by_cases hn : neighbors < 27 <;>
    by_cases hs : value < rule.states <;>
    simp [hv, hn, hs, Value.in_range_eq_some, Value.in_range_eq_none] <;>
    first
      | (rcases (rule.birth_rule.in_range_incorrect neighbors) with _ | _ <;> simp)
      | (rcases (rule.survival_rule.in_range_incorrect neighbors) with _ | _ <;> simp)

theorem cellStep_dead (rule : Rule) (neighbors : Nat) (hn : neighbors < 27) :
    cellStep rule 0 neighbors =
      some (if rule.birth_rule.in_range_incorrect neighbors then (rule.states, true, false)
            else (0, false, false)) := by
  unfold cellStep cell_is_dead
  rw [Value.in_range_eq_some hn]
  by_cases hb : rule.birth_rule.in_range_incorrect neighbors <;> simp [hb]

theorem cellStep_decay (rule : Rule) {value : Nat} (neighbors : Nat)
    (h0 : value ≠ 0) (hlt : value < rule.states) :
    cellStep rule value neighbors = some (value - 1, false, false) := by
  unfold cellStep cell_is_dead
  have : decide (value = rule.states) = false := by simp; omega
  simp [h0, hlt, this]

theorem cellStep_full (rule : Rule) {value : Nat} (neighbors : Nat)
    (h0 : value ≠ 0) (hge : ¬ value < rule.states) (hn : neighbors < 27) :
    cellStep rule value neighbors =
      some (if rule.survival_rule.in_range_incorrect neighbors then (value, false, false)
            else (value - 1, false, decide (value = rule.states))) := by
  unfold cellStep cell_is_dead
  rw [Value.in_range_eq_some (v := rule.survival_rule) hn]
  by_cases hs : rule.survival_rule.in_range_incorrect neighbors <;> simp [h0, hge, hs]

/-! ## Generic sequential Phase-A loop

Every engine's value-update pass is a sequential loop over a list of cell
indices that (1) reads the cell's value and its frozen neighbor count,
(2) replaces the value by the `cellStep` decision and (3) feeds the
spawn/death flags to an engine-specific accumulator.  `phaseA` is that
common shape; each engine's loop is proved equal to an instance of it. -/

def phaseA {A : Type} (rule : Rule) (cnt : Nat → Nat) (accF : A → Nat → Bool → Bool → A)
    (idxs : List Nat) (vals : Nat → Nat) (acc : A) : Option ((Nat → Nat) × A) :=
  idxs.foldlM (fun st i =>
    (cellStep rule (st.1 i) (cnt i)).map (fun r =>
      (Function.update st.1 i r.1, accF st.2 i r.2.1 r.2.2)))
    (vals, acc)

theorem foldl_congr_mem {α β : Type} (l : List α) (f g : β → α → β) (b : β)
    (h : ∀ x ∈ l, ∀ a, f a x = g a x) : l.foldl f b = l.foldl g b := by
  induction l generalizing b with
  | nil => rfl
  | cons x xs ih =>
    simp only [List.foldl_cons]
    rw [h x (by simp)]
    exact ih _ (fun y hy a => h y (by simp [hy]) a)

/-- Phase-A decomposition, success case: on a duplicate-free index list whose
cells all decide panic-free, the loop succeeds, the final value array is the
pointwise `cellValue` (old values elsewhere) and the accumulator sees each
index's spawn/death flags in list order. -/
theorem phaseA_ok {A : Type} (rule : Rule) (cnt : Nat → Nat)
    (accF : A → Nat → Bool → Bool → A) (idxs : List Nat) (hnd : idxs.Nodup)
    (vals : Nat → Nat) (acc : A)
    (hok : ∀ i ∈ idxs, cellOk rule (vals i) (cnt i) = true) :
    phaseA rule cnt accF idxs vals acc =
      some (fun j => if j ∈ idxs then cellValue rule (vals j) (cnt j) else vals j,
            idxs.foldl (fun a i => accF a i (cellSpawnB rule (vals i) (cnt i))
              (cellDeathB rule (vals i) (cnt i))) acc) := by
  induction idxs generalizing vals acc with
  | nil =>
    simp only [phaseA, List.foldlM_nil, List.foldl_nil]
    have : (fun j => if j ∈ ([] : List Nat) then cellValue rule (vals j) (cnt j) else vals j)
        = vals := funext fun j => by simp
    rw [this]
    rfl
  | cons i idxs ih =>
    have hmem : i ∉ idxs := (List.nodup_cons.mp hnd).1
    have hnd' : idxs.Nodup := (List.nodup_cons.mp hnd).2
    have hoki : cellOk rule (vals i) (cnt i) = true := hok i (by simp)
    simp only [phaseA, List.foldlM_cons]
    rw [cellStep_eq_ok, hoki]
    simp only [if_true, Option.map_some, Option.some_bind]
    have hre : phaseA rule cnt accF idxs
        (Function.update vals i (cellValue rule (vals i) (cnt i)))
        (accF acc i (cellSpawnB rule (vals i) (cnt i)) (cellDeathB rule (vals i) (cnt i)))
        = _ := ih hnd' (Function.update vals i (cellValue rule (vals i) (cnt i)))
          (accF acc i (cellSpawnB rule (vals i) (cnt i)) (cellDeathB rule (vals i) (cnt i)))
          (fun k hk => by
            have hne : ¬ k = i := by rintro rfl; exact hmem hk
            rw [Function.update_apply, if_neg hne]
            exact hok k (by simp [hk]))
    show phaseA rule cnt accF idxs
        (Function.update vals i (cellValue rule (vals i) (cnt i)))
        (accF acc i (cellSpawnB rule (vals i) (cnt i)) (cellDeathB rule (vals i) (cnt i))) = _
    rw [hre]
    apply congrArg some
    have hupd : ∀ k ∈ idxs,
        Function.update vals i (cellValue rule (vals i) (cnt i)) k = vals k := fun k hk => by
      have hne : ¬ k = i := by rintro rfl; exact hmem hk
      rw [Function.update_apply, if_neg hne]
    refine Prod.ext ?_ ?_
    · funext j
      by_cases hj : j ∈ idxs
      · have hji : ¬ j = i := by rintro rfl; exact hmem hj
        simp only [hj, if_true, List.mem_cons, hj, or_true, if_true]
        rw [hupd j hj]
      · by_cases hji : j = i
        · subst hji
          simp only [hj, if_false, List.mem_cons, true_or, if_true]
          rw [Function.update_apply, if_pos rfl]
        · simp only [hj, if_false, List.mem_cons, hji, false_or, hj, if_false]
          rw [Function.update_apply, if_neg hji]
    · show List.foldl _ _ idxs = List.foldl _ _ idxs
      apply foldl_congr_mem
      intro k hk a
      rw [hupd k hk]

/-- Phase-A decomposition, failure case: a cell whose decision panics makes
the whole loop panic. -/
theorem phaseA_fail {A : Type} (rule : Rule) (cnt : Nat → Nat)
    (accF : A → Nat → Bool → Bool → A) (idxs : List Nat) (hnd : idxs.Nodup)
    (vals : Nat → Nat) (acc : A)
    (hbad : ¬ ∀ i ∈ idxs, cellOk rule (vals i) (cnt i) = true) :
    phaseA rule cnt accF idxs vals acc = none := by
  induction idxs generalizing vals acc with
  | nil => exact absurd (by simp) hbad
  | cons i idxs ih =>
    have hmem : i ∉ idxs := (List.nodup_cons.mp hnd).1
    have hnd' : idxs.Nodup := (List.nodup_cons.mp hnd).2
    simp only [phaseA, List.foldlM_cons]
    by_cases hoki : cellOk rule (vals i) (cnt i) = true
    · rw [cellStep_eq_ok, hoki]
      simp only [if_true, Option.map_some, Option.some_bind]
      apply ih hnd'
      intro hall
      apply hbad
      intro k hk
      rcases List.mem_cons.mp hk with he | hk'
      · rw [he]; exact hoki
      · have h2 := hall k hk'
        have hne : ¬ k = i := by rintro rfl; exact hmem hk'
        rwa [Function.update_apply, if_neg hne] at h2
    · rw [cellStep_eq_ok]
      have hf : cellOk rule (vals i) (cnt i) = false := by
        rcases Bool.eq_false_or_eq_true (cellOk rule (vals i) (cnt i)) with h | h
        · exact absurd h hoki
        · exact h
      rw [hf]
      simp

/-- The standard two-list push accumulator (`spawns.push(index)` /
`deaths.push(index)`) unfolds to list filters. -/
theorem foldl_push_two (p q : Nat → Bool) (idxs : List Nat) (s0 d0 : List Nat) :
    idxs.foldl (fun a i =>
        ((if p i then a.1 ++ [i] else a.1), (if q i then a.2 ++ [i] else a.2))) (s0, d0)
      = (s0 ++ idxs.filter p, d0 ++ idxs.filter q) := by
  induction idxs generalizing s0 d0 with
  | nil => simp
  | cons i idxs ih =>
    simp only [List.foldl_cons, List.filter_cons]
    by_cases hp : p i <;> by_cases hq : q i <;>
      simp only [hp, hq, if_true, if_false] <;> rw [ih] <;> simp

/-! ## Phase-B bump machinery

Every neighbor-count write in the code — atomic `fetch_add`/`fetch_sub`
(`Ordering::Relaxed`) and the non-atomic `+= 1`/`-= 1` — is a wrapping `u8`
add of a delta (`1` to increment, `255` to decrement) at one index; a
Phase-B pass is a `foldl` of such bumps. -/

/-- One wrapping `u8` add of `p.2` at index `p.1`. -/
def bump (g : Nat → Nat) (p : Nat × Nat) : Nat → Nat :=
  Function.update g p.1 ((g p.1 + p.2) % 256)

/-- A sequence of bumps, applied left to right. -/
def bumpList (L : List (Nat × Nat)) (g : Nat → Nat) : Nat → Nat :=
  L.foldl bump g

theorem bumpList_append (L1 L2 : List (Nat × Nat)) (g : Nat → Nat) :
    bumpList (L1 ++ L2) g = bumpList L2 (bumpList L1 g) :=
  List.foldl_append bump g L1 L2

theorem bump_apply (g : Nat → Nat) (p : Nat × Nat) (j : Nat) :
    bump g p j = if p.1 = j then (g j + p.2) % 256 else g j := by
  unfold bump
  rw [Function.update_apply]
  by_cases h : j = p.1
  · subst h; simp
  · have h2 : ¬ p.1 = j := fun he => h he.symm
    simp [h, h2]

/-- What a bump sequence does at one index: nothing when no bump targets it,
otherwise one wrapping add of the summed deltas. -/
theorem bumpList_apply (L : List (Nat × Nat)) (g : Nat → Nat) (j : Nat) :
    bumpList L g j =
      if L.countP (fun q => decide (q.1 = j)) = 0 then g j
      else (g j + ((L.filter (fun q => decide (q.1 = j))).map Prod.snd).sum) % 256 := by
  induction L generalizing g with
  | nil => simp [bumpList]
  | cons p L ih =>
    show bumpList L (bump g p) j = _
    rw [ih (bump g p), bump_apply]
    by_cases hpj : p.1 = j
    · have hd : (decide (p.1 = j)) = true := by simp [hpj]
      have hcnt : (p :: L).countP (fun q => decide (q.1 = j))
          = L.countP (fun q => decide (q.1 = j)) + 1 := by
        rw [List.countP_cons]
        simp [hd]
      have hfil : (p :: L).filter (fun q => decide (q.1 = j))
          = p :: L.filter (fun q => decide (q.1 = j)) := by
        rw [List.filter_cons, if_pos hd]
      rw [hcnt, hfil, if_pos hpj]
      rcases Nat.eq_zero_or_pos (L.countP (fun q => decide (q.1 = j))) with hc | hc
      · have hfil2 : L.filter (fun q => decide (q.1 = j)) = [] := by
          rw [List.filter_eq_nil_iff]
          intro a ha hda
          exact (List.countP_eq_zero.mp hc) a ha hda
        rw [if_pos hc, if_neg (by omega), hfil2]
        simp
      · rw [if_neg (by omega), if_neg (by omega), Nat.mod_add_mod]
        have harr : g j + p.2 + (List.map Prod.snd (L.filter fun q => decide (q.1 = j))).sum
            = g j + (List.map Prod.snd (p :: L.filter fun q => decide (q.1 = j))).sum := by
          rw [List.map_cons, List.sum_cons]
          ring
        rw [harr]
    · have hd : (decide (p.1 = j)) = false := by simp [hpj]
      have hcnt : (p :: L).countP (fun q => decide (q.1 = j))
          = L.countP (fun q => decide (q.1 = j)) := by
        rw [List.countP_cons]
        simp [hd]
      have hfil : (p :: L).filter (fun q => decide (q.1 = j))
          = L.filter (fun q => decide (q.1 = j)) := by
        rw [List.filter_cons, if_neg (by simp [hd])]
      rw [hcnt, hfil, if_neg hpj]

theorem countP_or_disjoint {α : Type} (l : List α) (p q : α → Bool)
    (h : ∀ a ∈ l, ¬(p a = true ∧ q a = true)) :
    l.countP (fun a => p a || q a) = l.countP p + l.countP q := by
  induction l with
  | nil => simp
  | cons a l ih =>
    simp only [List.countP_cons]
    rw [ih (fun b hb => h b (by simp [hb]))]
    by_cases hp : p a = true <;> by_cases hq : q a = true
    · exact absurd ⟨hp, hq⟩ (h a (by simp))
    · have hq' : q a = false := by simpa using hq
      simp [hp, hq'] <;> omega
    · have hp' : p a = false := by simpa using hp
      simp [hp', hq] <;> omega
    · have hp' : p a = false := by simpa using hp
      have hq' : q a = false := by simpa using hq
      simp [hp', hq'] <;> omega

theorem countP_le_of_imp {α : Type} (l : List α) (p q : α → Bool)
    (h : ∀ a ∈ l, p a = true → q a = true) : l.countP p ≤ l.countP q := by
  induction l with
  | nil => simp
  | cons a l ih =>
    simp only [List.countP_cons]
    have h2 := ih (fun b hb hpb => h b (by simp [hb]) hpb)
    by_cases hp : p a = true
    · rw [hp, h a (by simp) hp]
      omega
    · have hp' : p a = false := by simpa using hp
      rw [hp']
      have : (if false = true then 1 else 0) = 0 := by simp
      rw [this]
      have hb : (if q a = true then 1 else 0) ≤ 1 := by
        by_cases hqa : q a = true <;> simp [hqa]
      omega

theorem countP_and_not_of_imp {α : Type} (l : List α) (p q : α → Bool)
    (h : ∀ a ∈ l, q a = true → p a = true) :
    l.countP (fun a => p a && !q a) = l.countP p - l.countP q := by
  induction l with
  | nil => simp
  | cons a l ih =>
    have hle : l.countP q ≤ l.countP p :=
      countP_le_of_imp l q p (fun b hb => h b (by simp [hb]))
    simp only [List.countP_cons]
    rw [ih (fun b hb => h b (by simp [hb]))]
    by_cases hp : p a = true <;> by_cases hq : q a = true
    · simp [hp, hq] <;> omega
    · have hq' : q a = false := by simpa using hq
      simp [hp, hq'] <;> omega
    · exact absurd (h a (by simp) hq) hp
    · have hp' : p a = false := by simpa using hp
      have hq' : q a = false := by simpa using hq
      simp [hp', hq'] <;> omega

theorem sum_snd_filter_const (L : List (Nat × Nat)) (v : Nat) (q : Nat × Nat → Bool)
    (h : ∀ p ∈ L, p.2 = v) :
    ((L.filter q).map Prod.snd).sum = v * L.countP q := by
  induction L with
  | nil => simp
  | cons p L ih =>
    have ih2 := ih (fun r hr => h r (by simp [hr]))
    simp only [List.filter_cons, List.countP_cons]
    by_cases hq : q p = true
    · simp only [hq, if_pos, if_true, List.map_cons, List.sum_cons]
      rw [ih2, h p (by simp)]
      ring
    · have hq' : q p = false := by simpa using hq
      simp only [hq']
      simp [ih2]

/-! ## Neighbor bump lists and counting identities -/

/-- The bump list of one neighbor-patch call from source cell `i`: one
`(wrapped target, delta)` bump per direction. -/
def wrapPairs (rule : Rule) (b : Int) (i : Nat) (delta : Nat) : List (Nat × Nat) :=
  rule.neighbour_method.get_neighbour_iter.map (fun d => (nbrIdx b i d, delta))

/-- The bump list of a whole spawn (or death) list. -/
def wrapPairsAll (rule : Rule) (b : Int) (delta : Nat) (L : List Nat) : List (Nat × Nat) :=
  L.flatMap (fun i => wrapPairs rule b i delta)

theorem wrapPairsAll_nil (rule : Rule) (b : Int) (delta : Nat) :
    wrapPairsAll rule b delta [] = [] := rfl

theorem wrapPairsAll_cons (rule : Rule) (b : Int) (delta : Nat) (i : Nat) (L : List Nat) :
    wrapPairsAll rule b delta (i :: L) =
      wrapPairs rule b i delta ++ wrapPairsAll rule b delta L := rfl

theorem wrapPairsAll_append (rule : Rule) (b : Int) (delta : Nat) (L1 L2 : List Nat) :
    wrapPairsAll rule b delta (L1 ++ L2) =
      wrapPairsAll rule b delta L1 ++ wrapPairsAll rule b delta L2 := by
  unfold wrapPairsAll
  rw [List.flatMap_append]

theorem wrapPairsAll_snd (rule : Rule) (b : Int) (delta : Nat) (L : List Nat) :
    ∀ p ∈ wrapPairsAll rule b delta L, p.2 = delta := by
  intro p hp
  unfold wrapPairsAll at hp
  rcases List.mem_flatMap.mp hp with ⟨i, _, hpi⟩
  rcases List.mem_map.mp hpi with ⟨d, _, he⟩
  rw [← he]

theorem countP_wrapPairs (rule : Rule) (b : Int) (i delta j : Nat) :
    (wrapPairs rule b i delta).countP (fun q => decide (q.1 = j))
      = rule.neighbour_method.get_neighbour_iter.countP (fun d => decide (nbrIdx b i d = j)) := by
  unfold wrapPairs
  rw [List.countP_map]
  rfl

theorem countP_wrapPairsAll (rule : Rule) (b : Int) (delta j : Nat) (L : List Nat) :
    (wrapPairsAll rule b delta L).countP (fun q => decide (q.1 = j))
      = (L.map (fun i =>
          rule.neighbour_method.get_neighbour_iter.countP
            (fun d => decide (nbrIdx b i d = j)))).sum := by
  induction L with
  | nil => simp [wrapPairsAll_nil]
  | cons i L ih =>
    rw [wrapPairsAll_cons, List.countP_append, countP_wrapPairs, ih, List.map_cons,
        List.sum_cons]

/-- Both direction lists are closed under negation. -/
theorem dirs_neg_perm (m : NeighbourMethod) :
    (m.get_neighbour_iter.map (fun d => -d)).Perm m.get_neighbour_iter := by
  cases m <;> decide

theorem dirs_length_le (m : NeighbourMethod) : m.get_neighbour_iter.length ≤ 26 := by
  cases m <;> decide

theorem countP_le_length {α : Type} (l : List α) (p : α → Bool) : l.countP p ≤ l.length :=
  List.countP_le_length p

/-- Reindexing a direction count through negation. -/
theorem countP_dirs_neg (m : NeighbourMethod) (p : IVec3 → Bool) :
    m.get_neighbour_iter.countP (fun d => p (-d)) = m.get_neighbour_iter.countP p := by
  have h1 := (dirs_neg_perm m).countP_eq p
  rw [List.countP_map] at h1
  exact h1

/-- The received-bumps identity: on a duplicate-free list `L` of valid source
cells, the number of bumps cell `j` receives equals the number of directions
`d` whose (wrapped) `d`-neighbor of `j` lies in `L` — neighbor symmetry plus
the closure of the direction set under negation. -/
theorem received_eq_countP {b : Int} (hb : 0 < b) (rule : Rule) {j : Nat}
    (hj : j < b.toNat * b.toNat * b.toNat) (L : List Nat) (hnd : L.Nodup)
    (hL : ∀ i ∈ L, i < b.toNat * b.toNat * b.toNat) :
    (L.map (fun i =>
        rule.neighbour_method.get_neighbour_iter.countP
          (fun d => decide (nbrIdx b i d = j)))).sum
      = rule.neighbour_method.get_neighbour_iter.countP
          (fun d => decide (nbrIdx b j d ∈ L)) := by
  have main : (L.map (fun i =>
      rule.neighbour_method.get_neighbour_iter.countP
        (fun d => decide (nbrIdx b i d = j)))).sum
      = rule.neighbour_method.get_neighbour_iter.countP
          (fun d => decide (nbrIdx b j (-d) ∈ L)) := by
    induction L with
    | nil => simp
    | cons i L ih =>
      have hmem : i ∉ L := (List.nodup_cons.mp hnd).1
      have hnd' : L.Nodup := (List.nodup_cons.mp hnd).2
      have hLi : i < b.toNat * b.toNat * b.toNat := hL i (by simp)
      have hL' : ∀ k ∈ L, k < b.toNat * b.toNat * b.toNat :=
        fun k hk => hL k (by simp [hk])
      rw [List.map_cons, List.sum_cons, ih hnd' hL']
      have hsplit : rule.neighbour_method.get_neighbour_iter.countP
          (fun d => decide (nbrIdx b j (-d) ∈ i :: L))
          = rule.neighbour_method.get_neighbour_iter.countP
              (fun d => decide (nbrIdx b j (-d) = i)) +
            rule.neighbour_method.get_neighbour_iter.countP
              (fun d => decide (nbrIdx b j (-d) ∈ L)) := by
        rw [← countP_or_disjoint _ _ _ (fun d _ hand => by
          have h1 := of_decide_eq_true hand.1
          have h2 := of_decide_eq_true hand.2
          exact hmem (h1 ▸ h2))]
        apply List.countP_congr
        intro d _
        by_cases hcons : nbrIdx b j (-d) ∈ i :: L
        · rcases List.mem_cons.mp hcons with he | hm
          · simp [hcons, he]
          · simp [hcons, hm]
        · have h1 : ¬ nbrIdx b j (-d) = i := fun he => hcons (by simp [he])
          have h2 : nbrIdx b j (-d) ∉ L := fun hm => hcons (by simp [hm])
          simp [hcons, h1, h2]
      rw [hsplit]
      have hcongr : rule.neighbour_method.get_neighbour_iter.countP
          (fun d => decide (nbrIdx b i d = j))
          = rule.neighbour_method.get_neighbour_iter.countP
              (fun d => decide (nbrIdx b j (-d) = i)) := by
        apply List.countP_congr
        intro d _
        have hiff := nbrIdx_symm hb hLi hj d
        by_cases hcase : nbrIdx b i d = j
        · simp [hcase, hiff.mp hcase]
        · have : ¬ nbrIdx b j (-d) = i := fun hc => hcase (hiff.mpr hc)
          simp [hcase, this]
      rw [hcongr]
  rw [main]
  exact countP_dirs_neg rule.neighbour_method (fun d => decide (nbrIdx b j d ∈ L))

/-! ## `src/cells/leddoo/atomic.rs` — the canonical engine

`values`/`neighbors` are the two `Values` arrays
(`Arc<Vec<UnsafeCell<AtomicU8>>>`), modelled as index functions of `u8`
contents; `Values::read`/`write`/`atomic` accesses are plain reads and
pointwise updates, with the task batches sequentialized in spawn/join
order (`update` joins every Phase-A task before Phase B starts, and the
Phase-B atomic increments/decrements commute, so any interleaving yields
this result). -/

structure LeddooAtomic where
  values : Nat → Nat
  neighbors : Nat → Nat
  chunk_radius : Nat
  chunk_count : Nat

/-- `LeddooAtomic::new`. -/
def LeddooAtomic.new : LeddooAtomic :=
  { values := fun _ => 0, neighbors := fun _ => 0, chunk_radius := 0, chunk_count := 0 }

/-- `LeddooAtomic::set_bounds`: fresh zeroed `Values` arrays on every call;
returns the mutated engine and the effective bound. -/
def LeddooAtomic.set_bounds (_s : LeddooAtomic) (new_bounds : Int) : LeddooAtomic × Int :=
  let radius := bounds_to_chunk_radius new_bounds
  let bounds := radius * CHUNK_SIZE
  ({ values := fun _ => 0, neighbors := fun _ => 0,
     chunk_radius := radius, chunk_count := radius * radius * radius },
   (bounds : Int))

/-- `LeddooAtomic::bounds`. -/
def LeddooAtomic.bounds (s : LeddooAtomic) : Int :=
  ((s.chunk_radius * CHUNK_SIZE : Nat) : Int)

/-- `LeddooAtomic::total_cell_count`. -/
def LeddooAtomic.total_cell_count (s : LeddooAtomic) : Nat :=
  s.chunk_count * CHUNK_CELL_COUNT

/-- `LeddooAtomic::center`. -/
def LeddooAtomic.center (s : LeddooAtomic) : IVec3 :=
  let center := s.bounds.ediv 2
  ivec3 center center center

/-- `LeddooAtomic::cell_count`: full scan counting non-dead cells. -/
def LeddooAtomic.cell_count (s : LeddooAtomic) : Nat :=
  (List.range s.total_cell_count).countP (fun index => !cell_is_dead (s.values index))

/-- `LeddooAtomic::update_neighbors`: patch all neighbor counts of the cell
at `index` — the atomic (wrapped) path when the source cell is within one
step of its chunk's boundary, the plain unwrapped path otherwise.  A `u8`
decrement (`fetch_sub(1)` / `-= 1`) is the wrapping add of `255`. -/
def LeddooAtomic.update_neighbors (neighbors : Nat → Nat) (index : Nat) (bounds : Int)
    (rule : Rule) (inc : Bool) : Nat → Nat :=
  let pos := utils.index_to_pos index bounds
  let lcl := pos.smod ((CHUNK_SIZE : Nat) : Int)
  if chunk_is_border_pos lcl 1 then
    rule.neighbour_method.get_neighbour_iter.foldl (fun nbs dir =>
      let neighbor_pos := utils.wrap (pos + dir) bounds
      let idx := utils.pos_to_index neighbor_pos bounds
      Function.update nbs idx ((nbs idx + (if inc then 1 else 255)) % 256)) neighbors
  else
    rule.neighbour_method.get_neighbour_iter.foldl (fun nbs dir =>
      let neighbor_pos := pos + dir
      let idx := utils.pos_to_index neighbor_pos bounds
      Function.update nbs idx ((nbs idx + (if inc then 1 else 255)) % 256)) neighbors

/-- `LeddooAtomic::update_values`: one chunk's Phase-A task. -/
def LeddooAtomic.update_values (values neighbors : Nat → Nat)
    (chunk_index chunk_radius : Nat) (bounds : Int) (rule : Rule)
    (spawns deaths : List Nat) : Option ((Nat → Nat) × List Nat × List Nat) :=
  let chunk_pos := ((CHUNK_SIZE : Nat) : Int) * utils.index_to_pos chunk_index (chunk_radius : Int)
  (List.range CHUNK_CELL_COUNT).foldlM (fun st offset =>
    let pos := chunk_pos + chunk_offset_to_pos offset
    let index := utils.pos_to_index pos bounds
    (cellStep rule (st.1 index) (neighbors index)).map (fun r =>
      (Function.update st.1 index r.1,
       (if r.2.1 then st.2.1 ++ [index] else st.2.1),
       (if r.2.2 then st.2.2 ++ [index] else st.2.2))))
    (values, spawns, deaths)

/-- `LeddooAtomic::update`, exposing the collected per-chunk spawn/death
lists (the tick's ephemeral diff lists). -/
def LeddooAtomic.updateEx (s : LeddooAtomic) (rule : Rule) :
    Option (LeddooAtomic × List (List Nat × List Nat)) := do
  let phaseARes ← (List.range s.chunk_count).foldlM
    (fun (st : (Nat → Nat) × List (List Nat × List Nat)) chunk_index => do
      let r ← LeddooAtomic.update_values st.1 s.neighbors chunk_index s.chunk_radius
        s.bounds rule [] []
      pure (r.1, st.2 ++ [(r.2.1, r.2.2)]))
    (s.values, [])
  let neighbors := phaseARes.2.foldl (fun nbs ls =>
      let nbs2 := ls.1.foldl (fun n index =>
        LeddooAtomic.update_neighbors n index s.bounds rule true) nbs
      ls.2.foldl (fun n index =>
        LeddooAtomic.update_neighbors n index s.bounds rule false) nbs2)
    s.neighbors
  pure ({ s with values := phaseARes.1, neighbors := neighbors }, phaseARes.2)

/-- `LeddooAtomic::update` (one tick). -/
def LeddooAtomic.update (s : LeddooAtomic) (rule : Rule) : Option LeddooAtomic :=
  (s.updateEx rule).map Prod.fst

/-- The brute-force neighbor recount of `LeddooAtomic::validate` at one
index. -/
def LeddooAtomic.bruteNeighbors (s : LeddooAtomic) (rule : Rule) (index : Nat) : Nat :=
  rule.neighbour_method.get_neighbour_iter.countP (fun dir =>
    s.values (utils.pos_to_index
      (utils.wrap (utils.index_to_pos index s.bounds + dir) s.bounds) s.bounds)
      == rule.states)

/-- The condition `LeddooAtomic::validate` asserts for every cell. -/
def LeddooAtomic.validateOk (s : LeddooAtomic) (rule : Rule) : Prop :=
  ∀ index, index < s.total_cell_count → s.neighbors index = s.bruteNeighbors rule index

/-- `LeddooAtomic::spawn_noise` (the pseudo-random draws are the `offsets`
parameter of the modelled `utils.make_some_noise_default`). -/
def LeddooAtomic.spawn_noise (s : LeddooAtomic) (rule : Rule) (offsets : List IVec3) :
    LeddooAtomic :=
  let center := s.center
  let bounds := s.bounds
  utils.make_some_noise_default offsets center (fun s2 pos =>
    let index := utils.pos_to_index (utils.wrap pos bounds) s2.bounds
    if cell_is_dead (s2.values index) then
      { s2 with
        values := Function.update s2.values index rule.states,
        neighbors := LeddooAtomic.update_neighbors s2.neighbors index s2.bounds rule true }
    else s2) s

/-- The `Sim::reset` default implementation of `src/cells/mod.rs`
(`LeddooAtomic` uses the default): `set_bounds(0)` then `set_bounds` of the
remembered bound. -/
def LeddooAtomic.reset (s : LeddooAtomic) : LeddooAtomic :=
  let bounds := s.bounds
  let s1 := (s.set_bounds 0).1
  (s1.set_bounds bounds).1

/-! ## Border classification geometry -/

/-- Every direction offset of either topology has components in `[-1, 1]`. -/
theorem dirs_bounded (m : NeighbourMethod) :
    ∀ d ∈ m.get_neighbour_iter, d.x.natAbs ≤ 1 ∧ d.y.natAbs ≤ 1 ∧ d.z.natAbs ≤ 1 := by
  cases m <;> decide

theorem axis_interior {a d b : Int} (hb32 : (32 : Int) ∣ b) (ha0 : 0 ≤ a) (ha1 : a < b)
    (hm2 : 2 ≤ a.emod 32) (hm29 : a.emod 32 ≤ 29) (hd : d.natAbs ≤ 1) :
    0 ≤ a + d ∧ a + d < b ∧ (a + d).ediv 32 = a.ediv 32 := by
  have hm2' : 2 ≤ a % 32 := hm2
  have hm29' : a % 32 ≤ 29 := hm29
  have hgoal : 0 ≤ a + d ∧ a + d < b ∧ (a + d) / 32 = a / 32 := by omega
  exact hgoal

/-- Interior-source safety, the heart of the border classification: when the
source cell's chunk-local position is not within 1 lattice step of a chunk
face, every neighbor offset of either topology, applied without wrapping,
stays inside the grid, wrapping is the identity on it, and it stays in the
source's own chunk (same componentwise `pos / 32`). -/
theorem interior_neighbor_ok {b : Int} (hb32 : (32 : Int) ∣ b) (hb : 0 < b)
    {index : Nat} (hidx : index < b.toNat * b.toNat * b.toNat)
    (hni : chunk_is_border_pos ((utils.index_to_pos index b).smod ((CHUNK_SIZE : Nat) : Int)) 1
      = false)
    {d : IVec3} (hdx : d.x.natAbs ≤ 1) (hdy : d.y.natAbs ≤ 1) (hdz : d.z.natAbs ≤ 1) :
    (0 ≤ (utils.index_to_pos index b + d).x ∧ (utils.index_to_pos index b + d).x < b) ∧
    (0 ≤ (utils.index_to_pos index b + d).y ∧ (utils.index_to_pos index b + d).y < b) ∧
    (0 ≤ (utils.index_to_pos index b + d).z ∧ (utils.index_to_pos index b + d).z < b) ∧
    utils.wrap (utils.index_to_pos index b + d) b = utils.index_to_pos index b + d ∧
    (utils.index_to_pos index b + d).sdiv ((CHUNK_SIZE : Nat) : Int)
      = (utils.index_to_pos index b).sdiv ((CHUNK_SIZE : Nat) : Int) := by
  have hx := utils.index_to_pos_x_mem index b hb
  have hy := utils.index_to_pos_y_mem index b hb
  have hz := utils.index_to_pos_z_mem index b hb hidx
  have hcast : ((CHUNK_SIZE : Nat) : Int) = 32 := by norm_num [CHUNK_SIZE]
  rw [hcast] at hni ⊢
  simp only [chunk_is_border_pos, hcast, IVec3.smod, Bool.or_eq_false_iff,
    decide_eq_false_iff_not, not_le] at hni
  have hbounds : 2 ≤ (utils.index_to_pos index b).x.emod 32 ∧
      (utils.index_to_pos index b).x.emod 32 ≤ 29 ∧
      2 ≤ (utils.index_to_pos index b).y.emod 32 ∧
      (utils.index_to_pos index b).y.emod 32 ≤ 29 ∧
      2 ≤ (utils.index_to_pos index b).z.emod 32 ∧
      (utils.index_to_pos index b).z.emod 32 ≤ 29 := by
    obtain ⟨⟨⟨⟨⟨h1, h2⟩, h3⟩, h4⟩, h5⟩, h6⟩ := hni
    norm_num at h1 h2 h3 h4 h5 h6
    omega
  have hax := axis_interior hb32 hx.1 hx.2 hbounds.1 hbounds.2.1 hdx
  have hay := axis_interior hb32 hy.1 hy.2 hbounds.2.2.1 hbounds.2.2.2.1 hdy
  have haz := axis_interior hb32 hz.1 hz.2 hbounds.2.2.2.2.1 hbounds.2.2.2.2.2 hdz
  refine ⟨⟨hax.1, hax.2.1⟩, ⟨hay.1, hay.2.1⟩, ⟨haz.1, haz.2.1⟩, ?_, ?_⟩
  · exact utils.wrap_eq_self hax.1 hax.2.1 hay.1 hay.2.1 haz.1 haz.2.1
  · exact IVec3.ext_xyz hax.2.2 hay.2.2 haz.2.2

/-- `LeddooAtomic::update_neighbors` is the bump sequence over the wrapped
neighbor targets — in the border branch by definition, in the interior
branch because wrapping is the identity there. -/
theorem update_neighbors_eq_bump {b : Int} (hb32 : (32 : Int) ∣ b) (hb : 0 < b)
    {index : Nat} (hidx : index < b.toNat * b.toNat * b.toNat)
    (neighbors : Nat → Nat) (rule : Rule) (inc : Bool) :
    LeddooAtomic.update_neighbors neighbors index b rule inc
      = bumpList (wrapPairs rule b index (if inc then 1 else 255)) neighbors := by
  have hbump : bumpList (wrapPairs rule b index (if inc then 1 else 255)) neighbors
      = rule.neighbour_method.get_neighbour_iter.foldl (fun nbs dir =>
          Function.update nbs (nbrIdx b index dir)
            ((nbs (nbrIdx b index dir) + (if inc then 1 else 255)) % 256)) neighbors := by
    unfold bumpList wrapPairs
    rw [List.foldl_map]
    rfl
  unfold LeddooAtomic.update_neighbors
  by_cases hborder : chunk_is_border_pos
      ((utils.index_to_pos index b).smod ((CHUNK_SIZE : Nat) : Int)) 1 = true
  · rw [if_pos hborder, hbump]
    rfl
  · have hfalse : chunk_is_border_pos
        ((utils.index_to_pos index b).smod ((CHUNK_SIZE : Nat) : Int)) 1 = false := by
      simpa using hborder
    rw [if_neg hborder, hbump]
    apply foldl_congr_mem
    intro d hd nbs
    have hdb := dirs_bounded rule.neighbour_method d hd
    have hint := interior_neighbor_ok hb32 hb hidx hfalse hdb.1 hdb.2.1 hdb.2.2
    have htarget : nbrIdx b index d
        = utils.pos_to_index (utils.index_to_pos index b + d) b := by
      unfold nbrIdx
      rw [hint.2.2.2.1]
    rw [htarget]

/-! ## Chunk enumeration -/

@[simp] theorem IVec3.hmul_x (c : Int) (v : IVec3) : (c * v).x = c * v.x := rfl

@[simp] theorem IVec3.hmul_y (c : Int) (v : IVec3) : (c * v).y = c * v.y := rfl

@[simp] theorem IVec3.hmul_z (c : Int) (v : IVec3) : (c * v).z = c * v.z := rfl

@[simp] theorem IVec3.smod_x (v : IVec3) (k : Int) : (v.smod k).x = v.x.emod k := rfl

@[simp] theorem IVec3.smod_y (v : IVec3) (k : Int) : (v.smod k).y = v.y.emod k := rfl

@[simp] theorem IVec3.smod_z (v : IVec3) (k : Int) : (v.smod k).z = v.z.emod k := rfl

@[simp] theorem IVec3.sdiv_x (v : IVec3) (k : Int) : (v.sdiv k).x = v.x.ediv k := rfl

@[simp] theorem IVec3.sdiv_y (v : IVec3) (k : Int) : (v.sdiv k).y = v.y.ediv k := rfl

@[simp] theorem IVec3.sdiv_z (v : IVec3) (k : Int) : (v.sdiv k).z = v.z.ediv k := rfl

theorem int_decomp_32 {c o : Int} (ho0 : 0 ≤ o) (ho1 : o < 32) :
    (32 * c + o).ediv 32 = c ∧ (32 * c + o).emod 32 = o := by
  constructor
  · show (32 * c + o) / 32 = c
    omega
  · show (32 * c + o) % 32 = o
    omega

/-- The global position of the cell at `offset` of chunk `chunk_index` — the
`chunk_pos + chunk_offset_to_pos(offset)` of `LeddooAtomic::update_values`
(proof infrastructure). -/
def chunkGlobalPos (chunk_index offset chunk_radius : Nat) : IVec3 :=
  ((CHUNK_SIZE : Nat) : Int) * utils.index_to_pos chunk_index (chunk_radius : Int)
    + chunk_offset_to_pos offset

/-- Its global flat index. -/
def chunkGlobalIdx (chunk_index offset chunk_radius : Nat) (bounds : Int) : Nat :=
  utils.pos_to_index (chunkGlobalPos chunk_index offset chunk_radius) bounds

theorem chunkGlobalPos_spec {r : Nat} (hr : 0 < r) {b : Int}
    (hb : b = ((r * CHUNK_SIZE : Nat) : Int))
    {ci off : Nat} (hci : ci < r * r * r) (hoff : off < CHUNK_CELL_COUNT) :
    (0 ≤ (chunkGlobalPos ci off r).x ∧ (chunkGlobalPos ci off r).x < b) ∧
    (0 ≤ (chunkGlobalPos ci off r).y ∧ (chunkGlobalPos ci off r).y < b) ∧
    (0 ≤ (chunkGlobalPos ci off r).z ∧ (chunkGlobalPos ci off r).z < b) ∧
    (chunkGlobalPos ci off r).sdiv ((CHUNK_SIZE : Nat) : Int)
      = utils.index_to_pos ci (r : Int) ∧
    (chunkGlobalPos ci off r).smod ((CHUNK_SIZE : Nat) : Int)
      = chunk_offset_to_pos off := by
  have hrQ : (0 : Int) < (r : Int) := by exact_mod_cast hr
  have hciQ : ci < (r : Int).toNat * (r : Int).toNat * (r : Int).toNat := hci
  have hoffQ : off < ((CHUNK_SIZE : Nat) : Int).toNat * ((CHUNK_SIZE : Nat) : Int).toNat
      * ((CHUNK_SIZE : Nat) : Int).toNat := hoff
  have h32 : (0 : Int) < ((CHUNK_SIZE : Nat) : Int) := by norm_num [CHUNK_SIZE]
  have hcx := utils.index_to_pos_x_mem ci (r : Int) hrQ
  have hcy := utils.index_to_pos_y_mem ci (r : Int) hrQ
  have hcz := utils.index_to_pos_z_mem ci (r : Int) hrQ hciQ
  have hox := utils.index_to_pos_x_mem off ((CHUNK_SIZE : Nat) : Int) h32
  have hoy := utils.index_to_pos_y_mem off ((CHUNK_SIZE : Nat) : Int) h32
  have hoz := utils.index_to_pos_z_mem off ((CHUNK_SIZE : Nat) : Int) h32 hoffQ
  have hcast : ((CHUNK_SIZE : Nat) : Int) = 32 := by norm_num [CHUNK_SIZE]
  have hbv : b = 32 * (r : Int) := by
    rw [hb]
    push_cast [CHUNK_SIZE]
    ring
  rw [hcast] at hox hoy hoz ⊢
  unfold chunkGlobalPos chunk_offset_to_pos at *
  rw [hcast] at *
  constructor
  · simp only [IVec3.add_x, IVec3.hmul_x]
    omega
  constructor
  · simp only [IVec3.add_y, IVec3.hmul_y]
    omega
  constructor
  · simp only [IVec3.add_z, IVec3.hmul_z]
    omega
  constructor
  · refine IVec3.ext_xyz ?_ ?_ ?_
    · simp only [IVec3.sdiv_x, IVec3.add_x, IVec3.hmul_x]
      exact (int_decomp_32 hox.1 hox.2).1
    · simp only [IVec3.sdiv_y, IVec3.add_y, IVec3.hmul_y]
      exact (int_decomp_32 hoy.1 hoy.2).1
    · simp only [IVec3.sdiv_z, IVec3.add_z, IVec3.hmul_z]
      exact (int_decomp_32 hoz.1 hoz.2).1
  · refine IVec3.ext_xyz ?_ ?_ ?_
    · simp only [IVec3.smod_x, IVec3.add_x, IVec3.hmul_x]
      exact (int_decomp_32 hox.1 hox.2).2
    · simp only [IVec3.smod_y, IVec3.add_y, IVec3.hmul_y]
      exact (int_decomp_32 hoy.1 hoy.2).2
    · simp only [IVec3.smod_z, IVec3.add_z, IVec3.hmul_z]
      exact (int_decomp_32 hoz.1 hoz.2).2

theorem chunkGlobalIdx_lt {r : Nat} (hr : 0 < r) {b : Int}
    (hb : b = ((r * CHUNK_SIZE : Nat) : Int))
    {ci off : Nat} (hci : ci < r * r * r) (hoff : off < CHUNK_CELL_COUNT) :
    chunkGlobalIdx ci off r b < b.toNat * b.toNat * b.toNat := by
  have h := chunkGlobalPos_spec hr hb hci hoff
  exact utils.pos_to_index_lt h.1.1 h.1.2 h.2.1.1 h.2.1.2 h.2.2.1.1 h.2.2.1.2

theorem index_to_pos_chunkGlobalIdx {r : Nat} (hr : 0 < r) {b : Int}
    (hb : b = ((r * CHUNK_SIZE : Nat) : Int))
    {ci off : Nat} (hci : ci < r * r * r) (hoff : off < CHUNK_CELL_COUNT) :
    utils.index_to_pos (chunkGlobalIdx ci off r b) b = chunkGlobalPos ci off r := by
  have h := chunkGlobalPos_spec hr hb hci hoff
  exact utils.index_to_pos_pos_to_index h.1.1 h.1.2 h.2.1.1 h.2.1.2 h.2.2.1.1 h.2.2.1.2

/-- Recovery of the chunk index from a global flat index (proof
infrastructure). -/
def chunkOfIdx (j r : Nat) (bounds : Int) : Nat :=
  utils.pos_to_index ((utils.index_to_pos j bounds).sdiv ((CHUNK_SIZE : Nat) : Int)) (r : Int)

/-- Recovery of the chunk-local offset from a global flat index (proof
infrastructure). -/
def offOfIdx (j : Nat) (bounds : Int) : Nat :=
  utils.pos_to_index ((utils.index_to_pos j bounds).smod ((CHUNK_SIZE : Nat) : Int))
    ((CHUNK_SIZE : Nat) : Int)

theorem chunkGlobalIdx_recover {r : Nat} (hr : 0 < r) {b : Int}
    (hb : b = ((r * CHUNK_SIZE : Nat) : Int))
    {ci off : Nat} (hci : ci < r * r * r) (hoff : off < CHUNK_CELL_COUNT) :
    chunkOfIdx (chunkGlobalIdx ci off r b) r b = ci ∧
    offOfIdx (chunkGlobalIdx ci off r b) b = off := by
  have h := chunkGlobalPos_spec hr hb hci hoff
  have hpos := index_to_pos_chunkGlobalIdx hr hb hci hoff
  constructor
  · unfold chunkOfIdx
    rw [hpos, h.2.2.2.1]
    exact utils.pos_to_index_index_to_pos ci (r : Int)
  · unfold offOfIdx
    rw [hpos, h.2.2.2.2]
    exact utils.pos_to_index_index_to_pos off ((CHUNK_SIZE : Nat) : Int)

theorem chunkGlobalIdx_surj {r : Nat} (hr : 0 < r) {b : Int}
    (hb : b = ((r * CHUNK_SIZE : Nat) : Int))
    {j : Nat} (hj : j < b.toNat * b.toNat * b.toNat) :
    chunkOfIdx j r b < r * r * r ∧ offOfIdx j b < CHUNK_CELL_COUNT ∧
    chunkGlobalIdx (chunkOfIdx j r b) (offOfIdx j b) r b = j := by
  have hrc : 0 < r * CHUNK_SIZE := Nat.mul_pos hr (by norm_num [CHUNK_SIZE])
  have hb0 : (0 : Int) < b := by
    rw [hb]
    exact_mod_cast hrc
  have hbv : b = 32 * (r : Int) := by
    rw [hb]
    push_cast [CHUNK_SIZE]
    ring
  have hcast : ((CHUNK_SIZE : Nat) : Int) = 32 := by norm_num [CHUNK_SIZE]
  have hgx := utils.index_to_pos_x_mem j b hb0
  have hgy := utils.index_to_pos_y_mem j b hb0
  have hgz := utils.index_to_pos_z_mem j b hb0 hj
  set g := utils.index_to_pos j b with hg
  have hdx : 0 ≤ g.x.ediv 32 ∧ g.x.ediv 32 < (r : Int) := by
    constructor
    · show 0 ≤ g.x / 32
      omega
    · show g.x / 32 < (r : Int)
      omega
  have hdy : 0 ≤ g.y.ediv 32 ∧ g.y.ediv 32 < (r : Int) := by
    constructor
    · show 0 ≤ g.y / 32
      omega
    · show g.y / 32 < (r : Int)
      omega
  have hdz : 0 ≤ g.z.ediv 32 ∧ g.z.ediv 32 < (r : Int) := by
    constructor
    · show 0 ≤ g.z / 32
      omega
    · show g.z / 32 < (r : Int)
      omega
  have hmx : 0 ≤ g.x.emod 32 ∧ g.x.emod 32 < 32 := by
    constructor
    · show 0 ≤ g.x % 32
      omega
    · show g.x % 32 < 32
      omega
  have hmy : 0 ≤ g.y.emod 32 ∧ g.y.emod 32 < 32 := by
    constructor
    · show 0 ≤ g.y % 32
      omega
    · show g.y % 32 < 32
      omega
  have hmz : 0 ≤ g.z.emod 32 ∧ g.z.emod 32 < 32 := by
    constructor
    · show 0 ≤ g.z % 32
      omega
    · show g.z % 32 < 32
      omega
  have hchunk : chunkOfIdx j r b < r * r * r := by
    have h := utils.pos_to_index_lt (p := g.sdiv ((CHUNK_SIZE : Nat) : Int)) (b := (r : Int))
      (by rw [hcast]; exact hdx.1) (by rw [hcast]; exact hdx.2)
      (by rw [hcast]; exact hdy.1) (by rw [hcast]; exact hdy.2)
      (by rw [hcast]; exact hdz.1) (by rw [hcast]; exact hdz.2)
    exact h
  have hoff : offOfIdx j b < CHUNK_CELL_COUNT := by
    have h := utils.pos_to_index_lt (p := g.smod ((CHUNK_SIZE : Nat) : Int))
      (b := ((CHUNK_SIZE : Nat) : Int))
      (by rw [hcast]; exact hmx.1) (by rw [hcast]; exact hmx.2)
      (by rw [hcast]; exact hmy.1) (by rw [hcast]; exact hmy.2)
      (by rw [hcast]; exact hmz.1) (by rw [hcast]; exact hmz.2)
    exact h
  refine ⟨hchunk, hoff, ?_⟩
  unfold chunkGlobalIdx chunkGlobalPos
  have hcpos : utils.index_to_pos (chunkOfIdx j r b) (r : Int)
      = g.sdiv ((CHUNK_SIZE : Nat) : Int) := by
    unfold chunkOfIdx
    exact utils.index_to_pos_pos_to_index
      (by rw [hcast]; exact hdx.1) (by rw [hcast] at *; exact_mod_cast hdx.2)
      (by rw [hcast]; exact hdy.1) (by rw [hcast] at *; exact_mod_cast hdy.2)
      (by rw [hcast]; exact hdz.1) (by rw [hcast] at *; exact_mod_cast hdz.2)
  have hopos : chunk_offset_to_pos (offOfIdx j b) = g.smod ((CHUNK_SIZE : Nat) : Int) := by
    unfold chunk_offset_to_pos offOfIdx
    exact utils.index_to_pos_pos_to_index
      (by rw [hcast]; exact hmx.1) (by rw [hcast]; exact hmx.2)
      (by rw [hcast]; exact hmy.1) (by rw [hcast]; exact hmy.2)
      (by rw [hcast]; exact hmz.1) (by rw [hcast]; exact hmz.2)
  rw [hcpos, hopos]
  have hre : ((CHUNK_SIZE : Nat) : Int) * g.sdiv ((CHUNK_SIZE : Nat) : Int)
      + g.smod ((CHUNK_SIZE : Nat) : Int) = g := by
    refine IVec3.ext_xyz ?_ ?_ ?_
    · simp only [IVec3.add_x, IVec3.hmul_x, IVec3.sdiv_x, IVec3.smod_x, hcast]
      show 32 * (g.x / 32) + g.x % 32 = g.x
      omega
    · simp only [IVec3.add_y, IVec3.hmul_y, IVec3.sdiv_y, IVec3.smod_y, hcast]
      show 32 * (g.y / 32) + g.y % 32 = g.y
      omega
    · simp only [IVec3.add_z, IVec3.hmul_z, IVec3.sdiv_z, IVec3.smod_z, hcast]
      show 32 * (g.z / 32) + g.z % 32 = g.z
      omega
  rw [hre, hg]
  exact utils.pos_to_index_index_to_pos j b

/-- The global flat indices of one chunk, in `update_values`'s visit order. -/
def chunkCells (chunk_index chunk_radius : Nat) (bounds : Int) : List Nat :=
  (List.range CHUNK_CELL_COUNT).map
    (fun offset => chunkGlobalIdx chunk_index offset chunk_radius bounds)

/-- All cells in chunk order — the atomic engine's Phase-A visit order. -/
def atomicEnum (chunk_radius : Nat) (bounds : Int) : List Nat :=
  (List.range (chunk_radius * chunk_radius * chunk_radius)).flatMap
    (fun chunk_index => chunkCells chunk_index chunk_radius bounds)

theorem chunkCells_nodup {r : Nat} (hr : 0 < r) {b : Int}
    (hb : b = ((r * CHUNK_SIZE : Nat) : Int)) {ci : Nat} (hci : ci < r * r * r) :
    (chunkCells ci r b).Nodup := by
  apply List.Nodup.map_on ?_ (List.nodup_range _)
  intro o1 h1 o2 h2 heq
  have r1 := (chunkGlobalIdx_recover hr hb hci (List.mem_range.mp h1)).2
  have r2 := (chunkGlobalIdx_recover hr hb hci (List.mem_range.mp h2)).2
  rw [← r1, ← r2, heq]

theorem chunkCells_mem {r : Nat} (hr : 0 < r) {b : Int}
    (hb : b = ((r * CHUNK_SIZE : Nat) : Int)) {ci : Nat} (hci : ci < r * r * r)
    {j : Nat} (hj : j ∈ chunkCells ci r b) :
    j < b.toNat * b.toNat * b.toNat ∧ chunkOfIdx j r b = ci := by
  obtain ⟨off, hoff, he⟩ := List.mem_map.mp hj
  constructor
  · rw [← he]
    exact chunkGlobalIdx_lt hr hb hci (List.mem_range.mp hoff)
  · rw [← he]
    exact (chunkGlobalIdx_recover hr hb hci (List.mem_range.mp hoff)).1

theorem atomicEnum_nodup {r : Nat} (hr : 0 < r) {b : Int}
    (hb : b = ((r * CHUNK_SIZE : Nat) : Int)) :
    (atomicEnum r b).Nodup := by
  unfold atomicEnum
  rw [List.nodup_flatMap]
  constructor
  · intro ci hci
    exact chunkCells_nodup hr hb (List.mem_range.mp hci)
  · have hpl : (List.range (r * r * r)).Pairwise (· < ·) := List.pairwise_lt_range _
    have himp : ∀ {a c : Nat}, a ∈ List.range (r * r * r) → c ∈ List.range (r * r * r) →
        a < c → List.Disjoint (chunkCells a r b) (chunkCells c r b) := by
      intro a c ha hc hlt j hja hjc
      have h1 := (chunkCells_mem hr hb (List.mem_range.mp ha) hja).2
      have h2 := (chunkCells_mem hr hb (List.mem_range.mp hc) hjc).2
      omega
    exact List.Pairwise.imp_of_mem (fun ha hc hlt => himp ha hc hlt) hpl

theorem atomicEnum_mem {r : Nat} (hr : 0 < r) {b : Int}
    (hb : b = ((r * CHUNK_SIZE : Nat) : Int)) (j : Nat) :
    j ∈ atomicEnum r b ↔ j < b.toNat * b.toNat * b.toNat := by
  unfold atomicEnum
  rw [List.mem_flatMap]
  constructor
  · rintro ⟨ci, hci, hj⟩
    exact (chunkCells_mem hr hb (List.mem_range.mp hci) hj).1
  · intro hj
    obtain ⟨h1, h2, h3⟩ := chunkGlobalIdx_surj hr hb hj
    refine ⟨chunkOfIdx j r b, List.mem_range.mpr h1, ?_⟩
    unfold chunkCells
    exact List.mem_map.mpr ⟨offOfIdx j b, List.mem_range.mpr h2, h3⟩

theorem atomicEnum_perm {r : Nat} (hr : 0 < r) {b : Int}
    (hb : b = ((r * CHUNK_SIZE : Nat) : Int)) :
    (atomicEnum r b).Perm (List.range (b.toNat * b.toNat * b.toNat)) := by
  apply List.perm_of_nodup_nodup_toFinset_eq (atomicEnum_nodup hr hb) (List.nodup_range _)
  ext j
  simp only [List.mem_toFinset, List.mem_range]
  exact atomicEnum_mem hr hb j

/-! ## Atomic engine: Phase A characterization -/

theorem foldlM_fun_congr {m : Type → Type} [Monad m] {α β : Type} (l : List β) (init : α)
    {f g : α → β → m α} (h : ∀ a b, f a b = g a b) : l.foldlM f init = l.foldlM g init := by
  have he : f = g := funext fun a => funext fun b => h a b
  rw [he]

theorem update_values_eq_phaseA (values neighbors : Nat → Nat) (ci r : Nat) (b : Int)
    (rule : Rule) (spawns deaths : List Nat) :
    LeddooAtomic.update_values values neighbors ci r b rule spawns deaths
      = phaseA rule neighbors
          (fun a i sp dt =>
            ((if sp then a.1 ++ [i] else a.1), (if dt then a.2 ++ [i] else a.2)))
          (chunkCells ci r b) values (spawns, deaths) := by
  unfold LeddooAtomic.update_values phaseA chunkCells
  rw [List.foldlM_map]
  exact foldlM_fun_congr _ _ (fun st offset => rfl)

/-- One chunk's Phase-A task, decomposed (success case). -/
theorem update_values_ok {r : Nat} (hr : 0 < r) {b : Int}
    (hb : b = ((r * CHUNK_SIZE : Nat) : Int)) (values neighbors : Nat → Nat)
    {ci : Nat} (hci : ci < r * r * r) (rule : Rule)
    (hok : ∀ i ∈ chunkCells ci r b, cellOk rule (values i) (neighbors i) = true) :
    LeddooAtomic.update_values values neighbors ci r b rule [] []
      = some (fun j => if j ∈ chunkCells ci r b
                then cellValue rule (values j) (neighbors j) else values j,
              (chunkCells ci r b).filter (fun i => cellSpawnB rule (values i) (neighbors i)),
              (chunkCells ci r b).filter (fun i => cellDeathB rule (values i) (neighbors i))) := by
  rw [update_values_eq_phaseA,
    phaseA_ok rule neighbors _ (chunkCells ci r b) (chunkCells_nodup hr hb hci) values ([], [])
      hok]
  apply congrArg some
  refine Prod.ext rfl ?_
  beta_reduce
  rw [foldl_push_two (fun i => cellSpawnB rule (values i) (neighbors i))
    (fun i => cellDeathB rule (values i) (neighbors i)) (chunkCells ci r b) [] []]
  simp

/-- One chunk's Phase-A task, failure case. -/
theorem update_values_fail {r : Nat} (hr : 0 < r) {b : Int}
    (hb : b = ((r * CHUNK_SIZE : Nat) : Int)) (values neighbors : Nat → Nat)
    {ci : Nat} (hci : ci < r * r * r) (rule : Rule)
    (hbad : ¬ ∀ i ∈ chunkCells ci r b, cellOk rule (values i) (neighbors i) = true) :
    LeddooAtomic.update_values values neighbors ci r b rule [] [] = none := by
  rw [update_values_eq_phaseA]
  exact phaseA_fail rule neighbors _ (chunkCells ci r b) (chunkCells_nodup hr hb hci)
    values ([], []) hbad

/-- The value-update loop over a list of chunks, success case: pointwise
Phase-A values plus the per-chunk spawn/death filters, all flags taken on
the original values (chunks partition the cells). -/
theorem atomic_chunks_fold_ok {r : Nat} (hr : 0 < r) {b : Int}
    (hb : b = ((r * CHUNK_SIZE : Nat) : Int)) (neighbors : Nat → Nat) (rule : Rule)
    (cis : List Nat) (hsub : ∀ ci ∈ cis, ci < r * r * r)
    (hnd : (cis.flatMap (fun ci => chunkCells ci r b)).Nodup)
    (vals : Nat → Nat) (acc : List (List Nat × List Nat))
    (hok : ∀ i ∈ cis.flatMap (fun ci => chunkCells ci r b),
      cellOk rule (vals i) (neighbors i) = true) :
    cis.foldlM (fun (st : (Nat → Nat) × List (List Nat × List Nat)) ci => do
        let r' ← LeddooAtomic.update_values st.1 neighbors ci r b rule [] []
        pure (r'.1, st.2 ++ [(r'.2.1, r'.2.2)])) (vals, acc)
      = some (fun j => if j ∈ cis.flatMap (fun ci => chunkCells ci r b)
                then cellValue rule (vals j) (neighbors j) else vals j,
              acc ++ cis.map (fun ci =>
                ((chunkCells ci r b).filter (fun i => cellSpawnB rule (vals i) (neighbors i)),
                 (chunkCells ci r b).filter (fun i => cellDeathB rule (vals i) (neighbors i))))) := by
  induction cis generalizing vals acc with
  | nil =>
    simp only [List.foldlM_nil, List.flatMap_nil, List.map_nil, List.append_nil]
    have he : (fun j => if j ∈ ([] : List Nat)
        then cellValue rule (vals j) (neighbors j) else vals j) = vals :=
      funext fun j => by simp
    rw [he]
    rfl
  | cons ci cis ih =>
    have hflat : (ci :: cis).flatMap (fun c => chunkCells c r b)
        = chunkCells ci r b ++ cis.flatMap (fun c => chunkCells c r b) := by
      simp [List.flatMap_cons]
    rw [hflat] at hnd hok ⊢
    have hnd1 : (chunkCells ci r b).Nodup := (List.nodup_append.mp hnd).1
    have hnd2 : (cis.flatMap (fun c => chunkCells c r b)).Nodup :=
      (List.nodup_append.mp hnd).2.1
    have hdisj : ∀ a ∈ chunkCells ci r b, a ∉ cis.flatMap (fun c => chunkCells c r b) := by
      intro a ha
      exact fun hmem => (List.disjoint_left.mp (List.nodup_append.mp hnd).2.2) ha hmem
    have hok1 : ∀ i ∈ chunkCells ci r b, cellOk rule (vals i) (neighbors i) = true :=
      fun i hi => hok i (List.mem_append.mpr (Or.inl hi))
    simp only [List.foldlM_cons]
    rw [update_values_ok hr hb vals neighbors (hsub ci (by simp)) rule hok1]
    simp only [Option.bind_eq_bind, Option.some_bind, Option.pure_def]
    set vals2 : Nat → Nat := fun j => if j ∈ chunkCells ci r b
      then cellValue rule (vals j) (neighbors j) else vals j with hvals2
    set acc2 : List (List Nat × List Nat) := acc ++
      [((chunkCells ci r b).filter (fun i => cellSpawnB rule (vals i) (neighbors i)),
        (chunkCells ci r b).filter (fun i => cellDeathB rule (vals i) (neighbors i)))] with hacc2
    have hvals2mem : ∀ j ∈ cis.flatMap (fun c => chunkCells c r b), vals2 j = vals j := by
      intro j hj
      rw [hvals2]
      have : j ∉ chunkCells ci r b := by
        intro hmem
        exact hdisj j hmem hj
      simp [this]
    have hok2 : ∀ i ∈ cis.flatMap (fun c => chunkCells c r b),
        cellOk rule (vals2 i) (neighbors i) = true := by
      intro i hi
      rw [hvals2mem i hi]
      exact hok i (List.mem_append.mpr (Or.inr hi))
    have ih2 := ih (fun c hc => hsub c (by simp [hc])) hnd2 vals2 acc2 hok2
    simp only [Option.bind_eq_bind, Option.some_bind, Option.pure_def] at ih2
    rw [ih2]
    have hfst : (fun j => if j ∈ cis.flatMap (fun c => chunkCells c r b)
          then cellValue rule (vals2 j) (neighbors j) else vals2 j)
        = (fun j => if j ∈ chunkCells ci r b ++ cis.flatMap (fun c => chunkCells c r b)
          then cellValue rule (vals j) (neighbors j) else vals j) := by
      funext j
      by_cases hj2 : j ∈ cis.flatMap (fun c => chunkCells c r b)
      · rw [if_pos hj2, if_pos (List.mem_append.mpr (Or.inr hj2)), hvals2mem j hj2]
      · rw [if_neg hj2, hvals2]
        beta_reduce
        by_cases hj1 : j ∈ chunkCells ci r b
        · rw [if_pos hj1, if_pos (List.mem_append.mpr (Or.inl hj1))]
        · rw [if_neg hj1, if_neg (by
            intro hmem
            rcases List.mem_append.mp hmem with h1 | h2
            · exact hj1 h1
            · exact hj2 h2)]
    have hsnd : acc2 ++ cis.map (fun c =>
          ((chunkCells c r b).filter (fun i => cellSpawnB rule (vals2 i) (neighbors i)),
           (chunkCells c r b).filter (fun i => cellDeathB rule (vals2 i) (neighbors i))))
        = acc ++ (ci :: cis).map (fun c =>
          ((chunkCells c r b).filter (fun i => cellSpawnB rule (vals i) (neighbors i)),
           (chunkCells c r b).filter (fun i => cellDeathB rule (vals i) (neighbors i)))) := by
      have hmapeq : cis.map (fun c =>
            ((chunkCells c r b).filter (fun i => cellSpawnB rule (vals2 i) (neighbors i)),
             (chunkCells c r b).filter (fun i => cellDeathB rule (vals2 i) (neighbors i))))
          = cis.map (fun c =>
            ((chunkCells c r b).filter (fun i => cellSpawnB rule (vals i) (neighbors i)),
             (chunkCells c r b).filter (fun i => cellDeathB rule (vals i) (neighbors i)))) := by
        apply List.map_congr_left
        intro c hc
        have hfix : ∀ i ∈ chunkCells c r b, vals2 i = vals i := by
          intro i hi
          apply hvals2mem
          exact List.mem_flatMap.mpr ⟨c, hc, hi⟩
        rw [Prod.mk.injEq]
        constructor <;> (apply List.filter_congr; intro i hi; rw [hfix i hi])
      rw [hacc2, hmapeq, List.map_cons, List.append_assoc, List.singleton_append]
    rw [hfst, hsnd]

/-- The value-update loop over a list of chunks, failure case. -/
theorem atomic_chunks_fold_fail {r : Nat} (hr : 0 < r) {b : Int}
    (hb : b = ((r * CHUNK_SIZE : Nat) : Int)) (neighbors : Nat → Nat) (rule : Rule)
    (cis : List Nat) (hsub : ∀ ci ∈ cis, ci < r * r * r)
    (hnd : (cis.flatMap (fun ci => chunkCells ci r b)).Nodup)
    (vals : Nat → Nat) (acc : List (List Nat × List Nat))
    (hbad : ¬ ∀ i ∈ cis.flatMap (fun ci => chunkCells ci r b),
      cellOk rule (vals i) (neighbors i) = true) :
    cis.foldlM (fun (st : (Nat → Nat) × List (List Nat × List Nat)) ci => do
        let r' ← LeddooAtomic.update_values st.1 neighbors ci r b rule [] []
        pure (r'.1, st.2 ++ [(r'.2.1, r'.2.2)])) (vals, acc) = none := by
  induction cis generalizing vals acc with
  | nil => exact absurd (by simp) hbad
  | cons ci cis ih =>
    have hflat : (ci :: cis).flatMap (fun c => chunkCells c r b)
        = chunkCells ci r b ++ cis.flatMap (fun c => chunkCells c r b) := by
      simp [List.flatMap_cons]
    rw [hflat] at hnd hbad
    have hnd2 : (cis.flatMap (fun c => chunkCells c r b)).Nodup :=
      (List.nodup_append.mp hnd).2.1
    have hdisj : ∀ a ∈ chunkCells ci r b, a ∉ cis.flatMap (fun c => chunkCells c r b) := by
      intro a ha
      exact fun hmem => (List.disjoint_left.mp (List.nodup_append.mp hnd).2.2) ha hmem
    simp only [List.foldlM_cons]
    by_cases hok1 : ∀ i ∈ chunkCells ci r b, cellOk rule (vals i) (neighbors i) = true
    · rw [update_values_ok hr hb vals neighbors (hsub ci (by simp)) rule hok1]
      simp only [Option.bind_eq_bind, Option.some_bind, Option.pure_def]
      apply ih (fun c hc => hsub c (by simp [hc])) hnd2
      intro hall
      apply hbad
      intro i hi
      rcases List.mem_append.mp hi with h1 | h2
      · exact hok1 i h1
      · have h3 := hall i h2
        have : i ∉ chunkCells ci r b := fun hmem => hdisj i hmem h2
        rwa [if_neg this] at h3
    · rw [update_values_fail hr hb vals neighbors (hsub ci (by simp)) rule hok1]
      rfl

/-! ## The canonical tick description -/

/-- Canonical post-Phase-A values. -/
def tickValues (rule : Rule) (vals cnt : Nat → Nat) (n : Nat) : Nat → Nat :=
  fun j => if j < n then cellValue rule (vals j) (cnt j) else vals j

/-- Canonical spawn list over a visit order. -/
def tickSpawns (rule : Rule) (vals cnt : Nat → Nat) (order : List Nat) : List Nat :=
  order.filter (fun i => cellSpawnB rule (vals i) (cnt i))

/-- Canonical death list over a visit order. -/
def tickDeaths (rule : Rule) (vals cnt : Nat → Nat) (order : List Nat) : List Nat :=
  order.filter (fun i => cellDeathB rule (vals i) (cnt i))

/-- Canonical post-Phase-B neighbor counts. -/
def tickCounts (rule : Rule) (vals cnt : Nat → Nat) (b : Int) (order : List Nat) : Nat → Nat :=
  bumpList (wrapPairsAll rule b 1 (tickSpawns rule vals cnt order)
    ++ wrapPairsAll rule b 255 (tickDeaths rule vals cnt order)) cnt

/-- Panic-freedom of one tick over the whole grid. -/
def tickOkAll (rule : Rule) (vals cnt : Nat → Nat) (n : Nat) : Prop :=
  ∀ i, i < n → cellOk rule (vals i) (cnt i) = true

theorem bumpList_perm {L1 L2 : List (Nat × Nat)} (h : L1.Perm L2) (g : Nat → Nat) :
    bumpList L1 g = bumpList L2 g := by
  funext j
  rw [bumpList_apply, bumpList_apply, h.countP_eq, (((h.filter _).map Prod.snd).sum_eq)]

theorem filter_flatMap_list {α β : Type} (l : List α) (g : α → List β) (p : β → Bool) :
    (l.flatMap g).filter p = l.flatMap (fun x => (g x).filter p) := by
  induction l with
  | nil => rfl
  | cons a l ih => simp [List.flatMap_cons, List.filter_append, ih]

theorem wrapPairsAll_flatMap {α : Type} (rule : Rule) (b : Int) (delta : Nat)
    (l : List α) (g : α → List Nat) :
    wrapPairsAll rule b delta (l.flatMap g)
      = l.flatMap (fun x => wrapPairsAll rule b delta (g x)) := by
  induction l with
  | nil => rfl
  | cons a l ih => simp [List.flatMap_cons, wrapPairsAll_append, ih]

theorem wrapPairsAll_perm (rule : Rule) (b : Int) (delta : Nat) {L1 L2 : List Nat}
    (h : L1.Perm L2) :
    (wrapPairsAll rule b delta L1).Perm (wrapPairsAll rule b delta L2) :=
  h.flatMap_right _

/-- One engine foldl of `update_neighbors` over a list of valid source cells
is the bump sequence of their wrapped neighbor pairs. -/
theorem foldl_update_neighbors_eq {b : Int} (hb32 : (32 : Int) ∣ b) (hb : 0 < b)
    (rule : Rule) (inc : Bool) (L : List Nat)
    (hL : ∀ i ∈ L, i < b.toNat * b.toNat * b.toNat) (nbs : Nat → Nat) :
    L.foldl (fun n index => LeddooAtomic.update_neighbors n index b rule inc) nbs
      = bumpList (wrapPairsAll rule b (if inc then 1 else 255) L) nbs := by
  induction L generalizing nbs with
  | nil => rfl
  | cons i L ih =>
    rw [List.foldl_cons, wrapPairsAll_cons, bumpList_append,
      update_neighbors_eq_bump hb32 hb (hL i (by simp)) nbs rule inc]
    exact ih (fun k hk => hL k (by simp [hk])) _

/-- The whole Phase-B loop over the per-chunk diff lists is one bump
sequence. -/
theorem foldl_phaseB_eq {b : Int} (hb32 : (32 : Int) ∣ b) (hb : 0 < b) (rule : Rule)
    (lists : List (List Nat × List Nat))
    (hvalid : ∀ pr ∈ lists, (∀ i ∈ pr.1, i < b.toNat * b.toNat * b.toNat) ∧
      (∀ i ∈ pr.2, i < b.toNat * b.toNat * b.toNat)) (nbs : Nat → Nat) :
    lists.foldl (fun nbs ls =>
        let nbs2 := ls.1.foldl (fun n index =>
          LeddooAtomic.update_neighbors n index b rule true) nbs
        ls.2.foldl (fun n index =>
          LeddooAtomic.update_neighbors n index b rule false) nbs2) nbs
      = bumpList (lists.flatMap (fun pr =>
          wrapPairsAll rule b 1 pr.1 ++ wrapPairsAll rule b 255 pr.2)) nbs := by
  induction lists generalizing nbs with
  | nil => rfl
  | cons pr lists ih =>
    have hpr := hvalid pr (by simp)
    rw [List.foldl_cons, List.flatMap_cons, bumpList_append, bumpList_append]
    show lists.foldl _ (List.foldl _ (List.foldl _ nbs pr.1) pr.2) = _
    rw [foldl_update_neighbors_eq hb32 hb rule true pr.1 hpr.1 nbs,
      foldl_update_neighbors_eq hb32 hb rule false pr.2 hpr.2 _]
    exact ih (fun q hq => hvalid q (by simp [hq])) _

/-! ## Atomic engine: the one-tick characterization -/

theorem LeddooAtomic.bounds_def (s : LeddooAtomic) :
    s.bounds = ((s.chunk_radius * CHUNK_SIZE : Nat) : Int) := rfl

theorem LeddooAtomic.bounds_dvd (s : LeddooAtomic) : (32 : Int) ∣ s.bounds :=
  ⟨(s.chunk_radius : Int), by rw [s.bounds_def]; push_cast [CHUNK_SIZE]; ring⟩

theorem LeddooAtomic.bounds_pos (s : LeddooAtomic) (hr : 0 < s.chunk_radius) :
    0 < s.bounds := by
  rw [s.bounds_def]
  have : 0 < s.chunk_radius * CHUNK_SIZE := Nat.mul_pos hr (by norm_num [CHUNK_SIZE])
  exact_mod_cast this

theorem LeddooAtomic.total_eq (s : LeddooAtomic)
    (hcc : s.chunk_count = s.chunk_radius * s.chunk_radius * s.chunk_radius) :
    s.total_cell_count = s.bounds.toNat * s.bounds.toNat * s.bounds.toNat := by
  unfold LeddooAtomic.total_cell_count
  rw [hcc]
  show _ = (s.chunk_radius * CHUNK_SIZE) * (s.chunk_radius * CHUNK_SIZE)
    * (s.chunk_radius * CHUNK_SIZE)
  unfold CHUNK_CELL_COUNT
  ring

/-- `LeddooAtomic::update` succeeds and produces the canonical tick result
whenever every cell's Phase-A decision is panic-free. -/
theorem atomic_updateEx_ok (s : LeddooAtomic) (rule : Rule)
    (hr : 0 < s.chunk_radius)
    (hcc : s.chunk_count = s.chunk_radius * s.chunk_radius * s.chunk_radius)
    (hok : tickOkAll rule s.values s.neighbors
      (s.bounds.toNat * s.bounds.toNat * s.bounds.toNat)) :
    s.updateEx rule = some
      ({ s with
         values := tickValues rule s.values s.neighbors
           (s.bounds.toNat * s.bounds.toNat * s.bounds.toNat),
         neighbors := tickCounts rule s.values s.neighbors s.bounds
           (List.range (s.bounds.toNat * s.bounds.toNat * s.bounds.toNat)) },
       (List.range (s.chunk_radius * s.chunk_radius * s.chunk_radius)).map (fun ci =>
         ((chunkCells ci s.chunk_radius s.bounds).filter
            (fun i => cellSpawnB rule (s.values i) (s.neighbors i)),
          (chunkCells ci s.chunk_radius s.bounds).filter
            (fun i => cellDeathB rule (s.values i) (s.neighbors i))))) := by
  have hbdef : s.bounds = ((s.chunk_radius * CHUNK_SIZE : Nat) : Int) := s.bounds_def
  have hb32 := s.bounds_dvd
  have hb0 := s.bounds_pos hr
  have hokE : ∀ i ∈ (List.range (s.chunk_radius * s.chunk_radius * s.chunk_radius)).flatMap
      (fun ci => chunkCells ci s.chunk_radius s.bounds),
      cellOk rule (s.values i) (s.neighbors i) = true := by
    intro i hi
    exact hok i ((atomicEnum_mem hr hbdef i).mp hi)
  have hnd : ((List.range (s.chunk_radius * s.chunk_radius * s.chunk_radius)).flatMap
      (fun ci => chunkCells ci s.chunk_radius s.bounds)).Nodup := atomicEnum_nodup hr hbdef
  have hfold := atomic_chunks_fold_ok hr hbdef s.neighbors rule
    (List.range (s.chunk_radius * s.chunk_radius * s.chunk_radius))
    (fun ci hci => List.mem_range.mp hci) hnd s.values [] hokE
  rw [List.nil_append] at hfold
  unfold LeddooAtomic.updateEx
  rw [hcc, hfold]
  simp only [Option.bind_eq_bind, Option.some_bind]
  have hval : (fun j => if j ∈ (List.range (s.chunk_radius * s.chunk_radius
        * s.chunk_radius)).flatMap (fun ci => chunkCells ci s.chunk_radius s.bounds)
        then cellValue rule (s.values j) (s.neighbors j) else s.values j)
      = tickValues rule s.values s.neighbors
        (s.bounds.toNat * s.bounds.toNat * s.bounds.toNat) := by
    funext j
    unfold tickValues
    by_cases hj : j < s.bounds.toNat * s.bounds.toNat * s.bounds.toNat
    · have hmem : j ∈ (List.range (s.chunk_radius * s.chunk_radius
          * s.chunk_radius)).flatMap (fun ci => chunkCells ci s.chunk_radius s.bounds) :=
        (atomicEnum_mem hr hbdef j).mpr hj
      rw [if_pos hmem, if_pos hj]
    · have hmem : j ∉ (List.range (s.chunk_radius * s.chunk_radius
          * s.chunk_radius)).flatMap (fun ci => chunkCells ci s.chunk_radius s.bounds) :=
        fun hmem => hj ((atomicEnum_mem hr hbdef j).mp hmem)
      rw [if_neg hmem, if_neg hj]
  rw [hval]
  have hvalid : ∀ pr ∈ (List.range (s.chunk_radius * s.chunk_radius
      * s.chunk_radius)).map (fun ci =>
        ((chunkCells ci s.chunk_radius s.bounds).filter
           (fun i => cellSpawnB rule (s.values i) (s.neighbors i)),
         (chunkCells ci s.chunk_radius s.bounds).filter
           (fun i => cellDeathB rule (s.values i) (s.neighbors i)))),
      (∀ i ∈ pr.1, i < s.bounds.toNat * s.bounds.toNat * s.bounds.toNat) ∧
      (∀ i ∈ pr.2, i < s.bounds.toNat * s.bounds.toNat * s.bounds.toNat) := by
    intro pr hpr
    obtain ⟨ci, hci, he⟩ := List.mem_map.mp hpr
    have he1 : pr.1 = (chunkCells ci s.chunk_radius s.bounds).filter
        (fun i => cellSpawnB rule (s.values i) (s.neighbors i)) := by rw [← he]
    have he2 : pr.2 = (chunkCells ci s.chunk_radius s.bounds).filter
        (fun i => cellDeathB rule (s.values i) (s.neighbors i)) := by rw [← he]
    constructor
    · intro i hi
      rw [he1] at hi
      exact (chunkCells_mem hr hbdef (List.mem_range.mp hci) (List.mem_of_mem_filter hi)).1
    · intro i hi
      rw [he2] at hi
      exact (chunkCells_mem hr hbdef (List.mem_range.mp hci) (List.mem_of_mem_filter hi)).1
  rw [foldl_phaseB_eq hb32 hb0 rule _ hvalid s.neighbors]
  have hperm : ((List.range (s.chunk_radius * s.chunk_radius * s.chunk_radius)).map
      (fun ci =>
        ((chunkCells ci s.chunk_radius s.bounds).filter
           (fun i => cellSpawnB rule (s.values i) (s.neighbors i)),
         (chunkCells ci s.chunk_radius s.bounds).filter
           (fun i => cellDeathB rule (s.values i) (s.neighbors i))))).flatMap
        (fun pr => wrapPairsAll rule s.bounds 1 pr.1 ++ wrapPairsAll rule s.bounds 255 pr.2)
      |>.Perm
      (wrapPairsAll rule s.bounds 1 (tickSpawns rule s.values s.neighbors
        (List.range (s.bounds.toNat * s.bounds.toNat * s.bounds.toNat)))
       ++ wrapPairsAll rule s.bounds 255 (tickDeaths rule s.values s.neighbors
        (List.range (s.bounds.toNat * s.bounds.toNat * s.bounds.toNat)))) := by
    have eA : ((List.range (s.chunk_radius * s.chunk_radius * s.chunk_radius)).map
        (fun ci =>
          ((chunkCells ci s.chunk_radius s.bounds).filter
             (fun i => cellSpawnB rule (s.values i) (s.neighbors i)),
           (chunkCells ci s.chunk_radius s.bounds).filter
             (fun i => cellDeathB rule (s.values i) (s.neighbors i))))).flatMap
          (fun pr => wrapPairsAll rule s.bounds 1 pr.1 ++ wrapPairsAll rule s.bounds 255 pr.2)
        = (List.range (s.chunk_radius * s.chunk_radius * s.chunk_radius)).flatMap
          (fun ci => wrapPairsAll rule s.bounds 1
              ((chunkCells ci s.chunk_radius s.bounds).filter
                (fun i => cellSpawnB rule (s.values i) (s.neighbors i)))
            ++ wrapPairsAll rule s.bounds 255
              ((chunkCells ci s.chunk_radius s.bounds).filter
                (fun i => cellDeathB rule (s.values i) (s.neighbors i)))) := by
      rw [List.flatMap_map]
    rw [eA]
    have h1 := (List.flatMap_append_perm
      (List.range (s.chunk_radius * s.chunk_radius * s.chunk_radius))
      (fun ci => wrapPairsAll rule s.bounds 1
        ((chunkCells ci s.chunk_radius s.bounds).filter
          (fun i => cellSpawnB rule (s.values i) (s.neighbors i))))
      (fun ci => wrapPairsAll rule s.bounds 255
        ((chunkCells ci s.chunk_radius s.bounds).filter
          (fun i => cellDeathB rule (s.values i) (s.neighbors i))))).symm
    refine h1.trans ?_
    have h2 : ∀ (delta : Nat) (p : Nat → Bool),
        (List.range (s.chunk_radius * s.chunk_radius * s.chunk_radius)).flatMap
          (fun ci => wrapPairsAll rule s.bounds delta
            ((chunkCells ci s.chunk_radius s.bounds).filter p))
        = wrapPairsAll rule s.bounds delta
            (((List.range (s.chunk_radius * s.chunk_radius * s.chunk_radius)).flatMap
              (fun ci => chunkCells ci s.chunk_radius s.bounds)).filter p) := by
      intro delta p
      rw [filter_flatMap_list, wrapPairsAll_flatMap]
    rw [h2 1 _, h2 255 _]
    exact ((wrapPairsAll_perm rule s.bounds 1
        ((atomicEnum_perm hr hbdef).filter _)).append
      (wrapPairsAll_perm rule s.bounds 255 ((atomicEnum_perm hr hbdef).filter _)))
  rw [bumpList_perm hperm s.neighbors]
  rfl

theorem atomic_updateEx_fail (s : LeddooAtomic) (rule : Rule)
    (hr : 0 < s.chunk_radius)
    (hcc : s.chunk_count = s.chunk_radius * s.chunk_radius * s.chunk_radius)
    (hbad : ¬ tickOkAll rule s.values s.neighbors
      (s.bounds.toNat * s.bounds.toNat * s.bounds.toNat)) :
    s.updateEx rule = none := by
  have hbdef : s.bounds = ((s.chunk_radius * CHUNK_SIZE : Nat) : Int) := s.bounds_def
  have hnd : ((List.range (s.chunk_radius * s.chunk_radius * s.chunk_radius)).flatMap
      (fun ci => chunkCells ci s.chunk_radius s.bounds)).Nodup := atomicEnum_nodup hr hbdef
  have hbad' : ¬ ∀ i ∈ (List.range (s.chunk_radius * s.chunk_radius
      * s.chunk_radius)).flatMap (fun ci => chunkCells ci s.chunk_radius s.bounds),
      cellOk rule (s.values i) (s.neighbors i) = true := by
    intro hall
    apply hbad
    intro i hi
    exact hall i ((atomicEnum_mem hr hbdef i).mpr hi)
  have hfold := atomic_chunks_fold_fail hr hbdef s.neighbors rule
    (List.range (s.chunk_radius * s.chunk_radius * s.chunk_radius))
    (fun ci hci => List.mem_range.mp hci) hnd s.values [] hbad'
  unfold LeddooAtomic.updateEx
  rw [hcc, hfold]
  rfl

theorem atomic_update_ok (s : LeddooAtomic) (rule : Rule)
    (hr : 0 < s.chunk_radius)
    (hcc : s.chunk_count = s.chunk_radius * s.chunk_radius * s.chunk_radius)
    (hok : tickOkAll rule s.values s.neighbors
      (s.bounds.toNat * s.bounds.toNat * s.bounds.toNat)) :
    s.update rule = some
      { s with
        values := tickValues rule s.values s.neighbors
          (s.bounds.toNat * s.bounds.toNat * s.bounds.toNat),
        neighbors := tickCounts rule s.values s.neighbors s.bounds
          (List.range (s.bounds.toNat * s.bounds.toNat * s.bounds.toNat)) } := by
  unfold LeddooAtomic.update
  rw [atomic_updateEx_ok s rule hr hcc hok]
  rfl

theorem atomic_update_fail (s : LeddooAtomic) (rule : Rule)
    (hr : 0 < s.chunk_radius)
    (hcc : s.chunk_count = s.chunk_radius * s.chunk_radius * s.chunk_radius)
    (hbad : ¬ tickOkAll rule s.values s.neighbors
      (s.bounds.toNat * s.bounds.toNat * s.bounds.toNat)) :
    s.update rule = none := by
  unfold LeddooAtomic.update
  rw [atomic_updateEx_fail s rule hr hcc hbad]
  rfl

/-! ## Invariant preservation: cell-level facts -/

/-- The brute-force neighbor recount (the condition of `validate`), over an
explicit value array. -/
def bruteCount (rule : Rule) (vals : Nat → Nat) (b : Int) (index : Nat) : Nat :=
  rule.neighbour_method.get_neighbour_iter.countP (fun dir =>
    vals (utils.pos_to_index (utils.wrap (utils.index_to_pos index b + dir) b) b)
      == rule.states)

theorem bruteNeighbors_eq_bruteCount (s : LeddooAtomic) (rule : Rule) (index : Nat) :
    s.bruteNeighbors rule index = bruteCount rule s.values s.bounds index := rfl

theorem bruteCount_eq_nbrIdx (rule : Rule) (vals : Nat → Nat) (b : Int) (index : Nat) :
    bruteCount rule vals b index
      = rule.neighbour_method.get_neighbour_iter.countP (fun d =>
          vals (nbrIdx b index d) == rule.states) := rfl

theorem bruteCount_le (rule : Rule) (vals : Nat → Nat) (b : Int) (index : Nat) :
    bruteCount rule vals b index ≤ 26 :=
  le_trans (countP_le_length _ _) (dirs_length_le _)

theorem cellValue_le {rule : Rule} {v n : Nat} (hv : v ≤ rule.states) :
    cellValue rule v n ≤ rule.states := by
  unfold cellValue
  rcases h : cellStep rule v n with _ | ⟨nv, sp, dt⟩
  · simpa using hv
  · unfold cellStep at h
    by_cases h0 : cell_is_dead v
    · rcases hin : rule.birth_rule.in_range n with _ | bb
      · rw [if_pos h0, hin] at h
        exact absurd h (by simp)
      · rw [if_pos h0, hin] at h
        by_cases hbb : bb = true
        · subst hbb
          simp at h
          simp [← h.1]
        · have hbf : bb = false := by simpa using hbb
          rw [hbf] at h
          simp at h
          simp [← h.1]
          omega
    · rw [if_neg h0] at h
      by_cases hlt : v < rule.states
      · rw [if_pos hlt] at h
        simp at h
        simp [← h.1]
        omega
      · rcases hin : rule.survival_rule.in_range n with _ | sv
        · rw [if_neg hlt, hin] at h
          exact absurd h (by simp)
        · rw [if_neg hlt, hin] at h
          by_cases hsv : sv = true
          · subst hsv
            simp at h
            simp [← h.1, hv]
          · have hsf : sv = false := by simpa using hsv
            rw [hsf] at h
            simp at h
            simp [← h.1]
            omega

theorem cellSpawnB_imp_dead {rule : Rule} {v n : Nat}
    (h : cellSpawnB rule v n = true) : v = 0 := by
  unfold cellSpawnB cellStep cell_is_dead at h
  by_cases h0 : v = 0
  · exact h0
  · exfalso
    rw [if_neg (by simpa using h0)] at h
    by_cases hlt : v < rule.states
    · rw [if_pos hlt] at h
      simp at h
    · rcases hin : rule.survival_rule.in_range n with _ | sv
      · rw [if_neg hlt, hin] at h
        simp at h
      · rw [if_neg hlt, hin] at h
        rcases sv with _ | _ <;> simp at h

theorem cellDeathB_imp_full {rule : Rule} {v n : Nat}
    (h : cellDeathB rule v n = true) : v = rule.states ∧ v ≠ 0 := by
  unfold cellDeathB cellStep cell_is_dead at h
  by_cases h0 : v = 0
  · exfalso
    rw [if_pos (by simpa using h0)] at h
    rcases hin : rule.birth_rule.in_range n with _ | bb
    · rw [hin] at h
      simp at h
    · rw [hin] at h
      rcases bb with _ | _ <;> simp at h
  · refine ⟨?_, h0⟩
    rw [if_neg (by simpa using h0)] at h
    by_cases hlt : v < rule.states
    · rw [if_pos hlt] at h
      simp at h
      omega
    · rcases hin : rule.survival_rule.in_range n with _ | sv
      · rw [if_neg hlt, hin] at h
        simp at h
      · rw [if_neg hlt, hin] at h
        rcases sv with _ | _
        · simp at h
          omega
        · simp at h

/-- When the cell decision is panic-free and the cell is well-formed, the new
value is full exactly when the cell spawned, or was full and did not die. -/
theorem cellValue_full_iff {rule : Rule} {v n : Nat} (hst : 1 ≤ rule.states)
    (hv : v ≤ rule.states) (hn : n < 27) :
    (cellValue rule v n = rule.states)
      ↔ ((v = rule.states ∧ cellDeathB rule v n = false) ∨ cellSpawnB rule v n = true) := by
  by_cases h0 : v = 0
  · subst h0
    have hstep := cellStep_dead rule n hn
    by_cases hb : rule.birth_rule.in_range_incorrect n = true
    · rw [if_pos hb] at hstep
      unfold cellValue cellSpawnB cellDeathB
      rw [hstep]
      simp [hst]
    · rw [if_neg hb] at hstep
      unfold cellValue cellSpawnB cellDeathB
      rw [hstep]
      simp
  · by_cases hlt : v < rule.states
    · have hstep := cellStep_decay rule n h0 hlt
      unfold cellValue cellSpawnB cellDeathB
      rw [hstep]
      simp
      omega
    · have hve : v = rule.states := by omega
      have hstep := cellStep_full rule n h0 hlt hn
      by_cases hs : rule.survival_rule.in_range_incorrect n = true
      · rw [if_pos hs] at hstep
        unfold cellValue cellSpawnB cellDeathB
        rw [hstep]
        simp [hve]
      · rw [if_neg hs] at hstep
        unfold cellValue cellSpawnB cellDeathB
        rw [hstep]
        simp [hve]
        omega

/-! ## Invariant preservation across one canonical tick -/

theorem tickValues_le (rule : Rule) (vals cnt : Nat → Nat) (n : Nat)
    (hv : ∀ i, i < n → vals i ≤ rule.states) :
    ∀ i, i < n → tickValues rule vals cnt n i ≤ rule.states := by
  intro i hi
  unfold tickValues
  rw [if_pos hi]
  exact cellValue_le (hv i hi)

theorem tickOkAll_of_inv (rule : Rule) (vals cnt : Nat → Nat) (b : Int)
    (hinv : ∀ i, i < b.toNat * b.toNat * b.toNat → cnt i = bruteCount rule vals b i) :
    tickOkAll rule vals cnt (b.toNat * b.toNat * b.toNat) := by
  intro i hi
  rw [cellOk_iff]
  left
  rw [hinv i hi]
  have := bruteCount_le rule vals b i
  omega

/-- The per-target key identity: after one canonical tick the stored neighbor
count at every valid cell again equals the brute-force recount of full
neighbors in the new values. -/
theorem tickCounts_brute (rule : Rule) (vals cnt : Nat → Nat) {b : Int} (hb : 0 < b)
    (hst : 1 ≤ rule.states)
    (hv : ∀ i, i < b.toNat * b.toNat * b.toNat → vals i ≤ rule.states)
    (hinv : ∀ i, i < b.toNat * b.toNat * b.toNat → cnt i = bruteCount rule vals b i)
    {j : Nat} (hj : j < b.toNat * b.toNat * b.toNat) :
    tickCounts rule vals cnt b (List.range (b.toNat * b.toNat * b.toNat)) j
      = bruteCount rule (tickValues rule vals cnt (b.toNat * b.toNat * b.toNat)) b j := by
  have hcnt27 : ∀ i, i < b.toNat * b.toNat * b.toNat → cnt i < 27 := by
    intro i hi
    rw [hinv i hi]
    have := bruteCount_le rule vals b i
    omega
  have hSnd : (tickSpawns rule vals cnt (List.range (b.toNat * b.toNat * b.toNat))).Nodup :=
    (List.nodup_range _).filter _
  have hDnd : (tickDeaths rule vals cnt (List.range (b.toNat * b.toNat * b.toNat))).Nodup :=
    (List.nodup_range _).filter _
  have hSiff : ∀ i, i ∈ tickSpawns rule vals cnt (List.range (b.toNat * b.toNat * b.toNat))
      ↔ (i < b.toNat * b.toNat * b.toNat ∧ cellSpawnB rule (vals i) (cnt i) = true) := by
    intro i
    unfold tickSpawns
    rw [List.mem_filter, List.mem_range]
  have hDiff : ∀ i, i ∈ tickDeaths rule vals cnt (List.range (b.toNat * b.toNat * b.toNat))
      ↔ (i < b.toNat * b.toNat * b.toNat ∧ cellDeathB rule (vals i) (cnt i) = true) := by
    intro i
    unfold tickDeaths
    rw [List.mem_filter, List.mem_range]
  have hSsub : ∀ i ∈ tickSpawns rule vals cnt (List.range (b.toNat * b.toNat * b.toNat)),
      i < b.toNat * b.toNat * b.toNat := fun i hi => ((hSiff i).mp hi).1
  have hDsub : ∀ i ∈ tickDeaths rule vals cnt (List.range (b.toNat * b.toNat * b.toNat)),
      i < b.toNat * b.toNat * b.toNat := fun i hi => ((hDiff i).mp hi).1
  have hA : (wrapPairsAll rule b 1
        (tickSpawns rule vals cnt (List.range (b.toNat * b.toNat * b.toNat)))).countP
        (fun q => decide (q.1 = j))
      = rule.neighbour_method.get_neighbour_iter.countP
          (fun d => cellSpawnB rule (vals (nbrIdx b j d)) (cnt (nbrIdx b j d))) := by
    rw [countP_wrapPairsAll, received_eq_countP hb rule hj _ hSnd hSsub]
    refine List.countP_congr ?_
    intro d _
    have ht := nbrIdx_lt hb j d
    constructor
    · intro h
      exact ((hSiff _).mp (of_decide_eq_true h)).2
    · intro h
      exact decide_eq_true ((hSiff _).mpr ⟨ht, h⟩)
  have hB : (wrapPairsAll rule b 255
        (tickDeaths rule vals cnt (List.range (b.toNat * b.toNat * b.toNat)))).countP
        (fun q => decide (q.1 = j))
      = rule.neighbour_method.get_neighbour_iter.countP
          (fun d => cellDeathB rule (vals (nbrIdx b j d)) (cnt (nbrIdx b j d))) := by
    rw [countP_wrapPairsAll, received_eq_countP hb rule hj _ hDnd hDsub]
    refine List.countP_congr ?_
    intro d _
    have ht := nbrIdx_lt hb j d
    constructor
    · intro h
      exact ((hDiff _).mp (of_decide_eq_true h)).2
    · intro h
      exact decide_eq_true ((hDiff _).mpr ⟨ht, h⟩)
  have hRHS : bruteCount rule (tickValues rule vals cnt (b.toNat * b.toNat * b.toNat)) b j
      = rule.neighbour_method.get_neighbour_iter.countP (fun d =>
          ((vals (nbrIdx b j d) == rule.states)
              && !(cellDeathB rule (vals (nbrIdx b j d)) (cnt (nbrIdx b j d))))
            || cellSpawnB rule (vals (nbrIdx b j d)) (cnt (nbrIdx b j d))) := by
    rw [bruteCount_eq_nbrIdx]
    refine List.countP_congr ?_
    intro d _
    have ht := nbrIdx_lt hb j d
    have hiff := cellValue_full_iff (v := vals (nbrIdx b j d)) (n := cnt (nbrIdx b j d))
      hst (hv _ ht) (hcnt27 _ ht)
    have hTV : tickValues rule vals cnt (b.toNat * b.toNat * b.toNat) (nbrIdx b j d)
        = cellValue rule (vals (nbrIdx b j d)) (cnt (nbrIdx b j d)) := by
      unfold tickValues
      rw [if_pos ht]
    rw [hTV, beq_iff_eq, hiff]
    simp [Bool.or_eq_true, Bool.and_eq_true, Bool.not_eq_true', beq_iff_eq]
  have hsplit : rule.neighbour_method.get_neighbour_iter.countP (fun d =>
          ((vals (nbrIdx b j d) == rule.states)
              && !(cellDeathB rule (vals (nbrIdx b j d)) (cnt (nbrIdx b j d))))
            || cellSpawnB rule (vals (nbrIdx b j d)) (cnt (nbrIdx b j d)))
      = rule.neighbour_method.get_neighbour_iter.countP (fun d =>
            (vals (nbrIdx b j d) == rule.states)
              && !(cellDeathB rule (vals (nbrIdx b j d)) (cnt (nbrIdx b j d))))
        + rule.neighbour_method.get_neighbour_iter.countP (fun d =>
            cellSpawnB rule (vals (nbrIdx b j d)) (cnt (nbrIdx b j d))) := by
    refine countP_or_disjoint _ _ _ ?_
    intro d _ hand
    have h0 := cellSpawnB_imp_dead hand.2
    have h1 := hand.1
    simp only [Bool.and_eq_true, beq_iff_eq] at h1
    have hfull := h1.1
    rw [h0] at hfull
    omega
  have hfd : rule.neighbour_method.get_neighbour_iter.countP (fun d =>
          (vals (nbrIdx b j d) == rule.states)
            && !(cellDeathB rule (vals (nbrIdx b j d)) (cnt (nbrIdx b j d))))
      = rule.neighbour_method.get_neighbour_iter.countP (fun d =>
            vals (nbrIdx b j d) == rule.states)
        - rule.neighbour_method.get_neighbour_iter.countP (fun d =>
            cellDeathB rule (vals (nbrIdx b j d)) (cnt (nbrIdx b j d))) := by
    refine countP_and_not_of_imp _ _ _ ?_
    intro d _ hdth
    exact beq_iff_eq.mpr (cellDeathB_imp_full hdth).1
  have hBF : rule.neighbour_method.get_neighbour_iter.countP (fun d =>
          cellDeathB rule (vals (nbrIdx b j d)) (cnt (nbrIdx b j d)))
      ≤ rule.neighbour_method.get_neighbour_iter.countP (fun d =>
          vals (nbrIdx b j d) == rule.states) := by
    refine countP_le_of_imp _ _ _ ?_
    intro d _ hdth
    exact beq_iff_eq.mpr (cellDeathB_imp_full hdth).1
  have hFj : cnt j = rule.neighbour_method.get_neighbour_iter.countP (fun d =>
      vals (nbrIdx b j d) == rule.states) := by
    rw [hinv j hj, bruteCount_eq_nbrIdx]
  have hF26 : rule.neighbour_method.get_neighbour_iter.countP (fun d =>
      vals (nbrIdx b j d) == rule.states) ≤ 26 :=
    le_trans (countP_le_length _ _) (dirs_length_le _)
  have hA26 : rule.neighbour_method.get_neighbour_iter.countP (fun d =>
      cellSpawnB rule (vals (nbrIdx b j d)) (cnt (nbrIdx b j d))) ≤ 26 :=
    le_trans (countP_le_length _ _) (dirs_length_le _)
  unfold tickCounts
  rw [bumpList_apply, List.countP_append, hA, hB, List.filter_append, List.map_append,
      List.sum_append,
      sum_snd_filter_const _ 1 _ (wrapPairsAll_snd rule b 1 _),
      sum_snd_filter_const _ 255 _ (wrapPairsAll_snd rule b 255 _),
      hA, hB, hRHS]
  split <;> omega

/-- Well-formed cell values: nothing above the rule's full value. -/
def LeddooAtomic.valuesWf (s : LeddooAtomic) (rule : Rule) : Prop :=
  ∀ i, i < s.total_cell_count → s.values i ≤ rule.states

/-- One atomic tick from a well-formed validating state succeeds and yields a
well-formed validating state with the same geometry. -/
theorem atomic_update_preserves_inv (s : LeddooAtomic) (rule : Rule)
    (hr : 0 < s.chunk_radius)
    (hcc : s.chunk_count = s.chunk_radius * s.chunk_radius * s.chunk_radius)
    (hst : 1 ≤ rule.states)
    (hv : s.valuesWf rule)
    (hval : s.validateOk rule) :
    ∃ s2, s.update rule = some s2 ∧ s2.validateOk rule ∧ s2.valuesWf rule
      ∧ s2.bounds = s.bounds ∧ s2.chunk_count = s.chunk_count
      ∧ s2.chunk_radius = s.chunk_radius := by
  have hb : 0 < s.bounds := s.bounds_pos hr
  have htot := s.total_eq hcc
  have hv2 : ∀ i, i < s.bounds.toNat * s.bounds.toNat * s.bounds.toNat →
      s.values i ≤ rule.states := by
    intro i hi
    exact hv i (by rw [htot]; exact hi)
  have hinv : ∀ i, i < s.bounds.toNat * s.bounds.toNat * s.bounds.toNat →
      s.neighbors i = bruteCount rule s.values s.bounds i := by
    intro i hi
    rw [← bruteNeighbors_eq_bruteCount]
    exact hval i (by rw [htot]; exact hi)
  have hok := tickOkAll_of_inv rule s.values s.neighbors s.bounds hinv
  refine ⟨_, atomic_update_ok s rule hr hcc hok, ?_, ?_, rfl, rfl, rfl⟩
  · intro index hidx
    have hidx2 : index < s.bounds.toNat * s.bounds.toNat * s.bounds.toNat := by
      rw [← htot]
      exact hidx
    show tickCounts rule s.values s.neighbors s.bounds
        (List.range (s.bounds.toNat * s.bounds.toNat * s.bounds.toNat)) index
      = bruteCount rule (tickValues rule s.values s.neighbors
          (s.bounds.toNat * s.bounds.toNat * s.bounds.toNat)) s.bounds index
    exact tickCounts_brute rule s.values s.neighbors hb hst hv2 hinv hidx2
  · intro index hidx
    have hidx2 : index < s.bounds.toNat * s.bounds.toNat * s.bounds.toNat := by
      rw [← htot]
      exact hidx
    show tickValues rule s.values s.neighbors
        (s.bounds.toNat * s.bounds.toNat * s.bounds.toNat) index ≤ rule.states
    exact tickValues_le rule s.values s.neighbors _ hv2 index hidx2

/-! ## `spawn_noise`, visit by visit -/

/-- The body of the `spawn_noise` callback: one visited position.  `bounds`
is the bound captured before the visits start. -/
def noiseVisit (rule : Rule) (bounds : Int) (s2 : LeddooAtomic) (pos : IVec3) :
    LeddooAtomic :=
  let index := utils.pos_to_index (utils.wrap pos bounds) s2.bounds
  if cell_is_dead (s2.values index) then
    { s2 with
      values := Function.update s2.values index rule.states,
      neighbors := LeddooAtomic.update_neighbors s2.neighbors index s2.bounds rule true }
  else s2

theorem spawn_noise_eq_foldl (s : LeddooAtomic) (rule : Rule) (offsets : List IVec3) :
    s.spawn_noise rule offsets
      = (offsets.map (fun o => s.center + o)).foldl (noiseVisit rule s.bounds) s := by
  unfold LeddooAtomic.spawn_noise utils.make_some_noise_default
  rw [List.foldl_map]
  rfl

theorem wrapPairs_snd (rule : Rule) (b : Int) (i delta : Nat) :
    ∀ p ∈ wrapPairs rule b i delta, p.2 = delta := by
  intro p hp
  unfold wrapPairs at hp
  rcases List.mem_map.mp hp with ⟨d, _, he⟩
  rw [← he]

/-- The single-source symmetric count: bumps sent from `i` that land on `j`
are as many as directions taking `j` to `i`. -/
theorem countP_nbr_symm {b : Int} (hb : 0 < b) (rule : Rule) {i j : Nat}
    (hi : i < b.toNat * b.toNat * b.toNat) (hj : j < b.toNat * b.toNat * b.toNat) :
    rule.neighbour_method.get_neighbour_iter.countP (fun d => decide (nbrIdx b i d = j))
      = rule.neighbour_method.get_neighbour_iter.countP
          (fun d => decide (nbrIdx b j d = i)) := by
  have h := received_eq_countP hb rule hj [i] (List.nodup_singleton i)
    (by intro k hk; rw [List.mem_singleton] at hk; subst hk; exact hi)
  rw [List.map_singleton, List.sum_singleton] at h
  rw [h]
  refine List.countP_congr ?_
  intro d _
  constructor
  · intro h2
    exact decide_eq_true (List.mem_singleton.mp (of_decide_eq_true h2))
  · intro h2
    exact decide_eq_true (List.mem_singleton.mpr (of_decide_eq_true h2))

/-- The visited index is a valid flat index. -/
theorem noise_index_lt {b : Int} (hb : 0 < b) (pos : IVec3) :
    utils.pos_to_index (utils.wrap pos b) b < b.toNat * b.toNat * b.toNat := by
  have h := utils.wrap_mem (p := pos) hb
  exact utils.pos_to_index_lt h.1.1 h.1.2 h.2.1.1 h.2.1.2 h.2.2.1 h.2.2.2

/-- A visit to an already-alive position changes nothing. -/
theorem noiseVisit_alive (rule : Rule) (b : Int) (s2 : LeddooAtomic) (pos : IVec3)
    (h : cell_is_dead (s2.values (utils.pos_to_index (utils.wrap pos b) s2.bounds))
      = false) :
    noiseVisit rule b s2 pos = s2 := by
  show (if cell_is_dead (s2.values (utils.pos_to_index (utils.wrap pos b) s2.bounds))
      = true then
    { s2 with
      values := Function.update s2.values
        (utils.pos_to_index (utils.wrap pos b) s2.bounds) rule.states,
      neighbors := LeddooAtomic.update_neighbors s2.neighbors
        (utils.pos_to_index (utils.wrap pos b) s2.bounds) s2.bounds rule true }
    else s2) = s2
  rw [h]
  rfl

/-- A visit to a dead position writes the full value there and patches the
neighbor counts through `update_neighbors`. -/
theorem noiseVisit_dead (rule : Rule) (b : Int) (s2 : LeddooAtomic) (pos : IVec3)
    (h : cell_is_dead (s2.values (utils.pos_to_index (utils.wrap pos b) s2.bounds))
      = true) :
    noiseVisit rule b s2 pos =
      { s2 with
        values := Function.update s2.values
          (utils.pos_to_index (utils.wrap pos b) s2.bounds) rule.states,
        neighbors := LeddooAtomic.update_neighbors s2.neighbors
          (utils.pos_to_index (utils.wrap pos b) s2.bounds) s2.bounds rule true } := by
  show (if cell_is_dead (s2.values (utils.pos_to_index (utils.wrap pos b) s2.bounds))
      = true then
    { s2 with
      values := Function.update s2.values
        (utils.pos_to_index (utils.wrap pos b) s2.bounds) rule.states,
      neighbors := LeddooAtomic.update_neighbors s2.neighbors
        (utils.pos_to_index (utils.wrap pos b) s2.bounds) s2.bounds rule true }
    else s2) = _
  rw [h, if_pos rfl]

/-- Writing the full value into a dead cell and running the neighbor-increment
primitive restores the brute-force recount at every valid index. -/
theorem write_dead_preserves_inv {b : Int} (hb32 : (32 : Int) ∣ b) (hb : 0 < b)
    (rule : Rule) (hst : 1 ≤ rule.states) (vals cnt : Nat → Nat)
    {index : Nat} (hidx : index < b.toNat * b.toNat * b.toNat)
    (hdead : vals index = 0)
    (hinv : ∀ i, i < b.toNat * b.toNat * b.toNat → cnt i = bruteCount rule vals b i)
    {j : Nat} (hj : j < b.toNat * b.toNat * b.toNat) :
    LeddooAtomic.update_neighbors cnt index b rule true j
      = bruteCount rule (Function.update vals index rule.states) b j := by
  rw [update_neighbors_eq_bump hb32 hb hidx cnt rule true]
  have hone : (if true then 1 else 255) = 1 := rfl
  rw [hone, bumpList_apply]
  have hc : (wrapPairs rule b index 1).countP (fun q => decide (q.1 = j))
      = rule.neighbour_method.get_neighbour_iter.countP
          (fun d => decide (nbrIdx b j d = index)) := by
    rw [countP_wrapPairs]
    exact countP_nbr_symm hb rule hidx hj
  have hsum : ((List.filter (fun q => decide (q.1 = j)) (wrapPairs rule b index 1)).map
        Prod.snd).sum
      = 1 * (wrapPairs rule b index 1).countP (fun q => decide (q.1 = j)) :=
    sum_snd_filter_const _ 1 _ (wrapPairs_snd rule b index 1)
  have hnew : bruteCount rule (Function.update vals index rule.states) b j
      = rule.neighbour_method.get_neighbour_iter.countP
            (fun d => vals (nbrIdx b j d) == rule.states)
        + rule.neighbour_method.get_neighbour_iter.countP
            (fun d => decide (nbrIdx b j d = index)) := by
    rw [bruteCount_eq_nbrIdx]
    have hcongr : rule.neighbour_method.get_neighbour_iter.countP
        (fun d => Function.update vals index rule.states (nbrIdx b j d) == rule.states)
        = rule.neighbour_method.get_neighbour_iter.countP
            (fun d => (vals (nbrIdx b j d) == rule.states)
              || decide (nbrIdx b j d = index)) := by
      refine List.countP_congr ?_
      intro d _
      by_cases ht : nbrIdx b j d = index
      · simp [Function.update_apply, ht]
      · simp [Function.update_apply, ht]
    rw [hcongr]
    refine countP_or_disjoint _ _ _ ?_
    intro d _ hand
    have h1 := beq_iff_eq.mp hand.1
    have h2 := of_decide_eq_true hand.2
    rw [h2, hdead] at h1
    omega
  have hFj : cnt j = rule.neighbour_method.get_neighbour_iter.countP
      (fun d => vals (nbrIdx b j d) == rule.states) := by
    rw [hinv j hj, bruteCount_eq_nbrIdx]
  have hF26 : rule.neighbour_method.get_neighbour_iter.countP
      (fun d => vals (nbrIdx b j d) == rule.states) ≤ 26 :=
    le_trans (countP_le_length _ _) (dirs_length_le _)
  have hC26 : rule.neighbour_method.get_neighbour_iter.countP
      (fun d => decide (nbrIdx b j d = index)) ≤ 26 :=
    le_trans (countP_le_length _ _) (dirs_length_le _)
  rw [hsum, hc, hnew, hFj]
  split <;> omega

/-- One `spawn_noise` visit keeps the engine well-formed and validating. -/
theorem noiseVisit_preserves_inv (rule : Rule) (s2 : LeddooAtomic) (pos : IVec3)
    (hr : 0 < s2.chunk_radius)
    (hcc : s2.chunk_count = s2.chunk_radius * s2.chunk_radius * s2.chunk_radius)
    (hst : 1 ≤ rule.states)
    (hv : s2.valuesWf rule) (hval : s2.validateOk rule) :
    (noiseVisit rule s2.bounds s2 pos).validateOk rule
      ∧ (noiseVisit rule s2.bounds s2 pos).valuesWf rule
      ∧ (noiseVisit rule s2.bounds s2 pos).chunk_radius = s2.chunk_radius
      ∧ (noiseVisit rule s2.bounds s2 pos).chunk_count = s2.chunk_count := by
  have hb : 0 < s2.bounds := s2.bounds_pos hr
  have htot := s2.total_eq hcc
  have hidx : utils.pos_to_index (utils.wrap pos s2.bounds) s2.bounds
      < s2.bounds.toNat * s2.bounds.toNat * s2.bounds.toNat := noise_index_lt hb pos
  rcases hdead : cell_is_dead (s2.values
      (utils.pos_to_index (utils.wrap pos s2.bounds) s2.bounds)) with _ | _
  · rw [noiseVisit_alive rule s2.bounds s2 pos hdead]
    exact ⟨hval, hv, rfl, rfl⟩
  · rw [noiseVisit_dead rule s2.bounds s2 pos hdead]
    have hdead0 : s2.values (utils.pos_to_index (utils.wrap pos s2.bounds) s2.bounds)
        = 0 := by
      have := hdead
      unfold cell_is_dead at this
      exact beq_iff_eq.mp this
    have hinv : ∀ i, i < s2.bounds.toNat * s2.bounds.toNat * s2.bounds.toNat →
        s2.neighbors i = bruteCount rule s2.values s2.bounds i := by
      intro i hi
      rw [← bruteNeighbors_eq_bruteCount]
      exact hval i (by rw [htot]; exact hi)
    refine ⟨?_, ?_, rfl, rfl⟩
    · intro i hi
      have hi2 : i < s2.bounds.toNat * s2.bounds.toNat * s2.bounds.toNat := by
        rw [← htot]
        exact hi
      show LeddooAtomic.update_neighbors s2.neighbors
          (utils.pos_to_index (utils.wrap pos s2.bounds) s2.bounds) s2.bounds rule true i
        = bruteCount rule (Function.update s2.values
            (utils.pos_to_index (utils.wrap pos s2.bounds) s2.bounds) rule.states)
            s2.bounds i
      exact write_dead_preserves_inv s2.bounds_dvd hb rule hst s2.values s2.neighbors
        hidx hdead0 hinv hi2
    · intro i hi
      show Function.update s2.values
          (utils.pos_to_index (utils.wrap pos s2.bounds) s2.bounds) rule.states i
        ≤ rule.states
      rw [Function.update_apply]
      by_cases he : i = utils.pos_to_index (utils.wrap pos s2.bounds) s2.bounds
      · rw [if_pos he]
      · rw [if_neg he]
        exact hv i hi

/-- Folding `spawn_noise` visits keeps the engine well-formed and
validating. -/
theorem noise_fold_preserves (rule : Rule) (hst : 1 ≤ rule.states) (ps : List IVec3) :
    ∀ s2 : LeddooAtomic, 0 < s2.chunk_radius →
      s2.chunk_count = s2.chunk_radius * s2.chunk_radius * s2.chunk_radius →
      s2.valuesWf rule → s2.validateOk rule →
      ((ps.foldl (noiseVisit rule s2.bounds) s2).validateOk rule
        ∧ (ps.foldl (noiseVisit rule s2.bounds) s2).valuesWf rule
        ∧ (ps.foldl (noiseVisit rule s2.bounds) s2).chunk_radius = s2.chunk_radius
        ∧ (ps.foldl (noiseVisit rule s2.bounds) s2).chunk_count = s2.chunk_count) := by
  induction ps with
  | nil =>
    intro s2 hr hcc hv hval
    exact ⟨hval, hv, rfl, rfl⟩
  | cons p ps ih =>
    intro s2 hr hcc hv hval
    rw [List.foldl_cons]
    have h1 := noiseVisit_preserves_inv rule s2 p hr hcc hst hv hval
    have hrad : (noiseVisit rule s2.bounds s2 p).chunk_radius = s2.chunk_radius :=
      h1.2.2.1
    have hbe : (noiseVisit rule s2.bounds s2 p).bounds = s2.bounds := by
      show (((noiseVisit rule s2.bounds s2 p).chunk_radius * CHUNK_SIZE : Nat) : Int)
        = ((s2.chunk_radius * CHUNK_SIZE : Nat) : Int)
      rw [hrad]
    have ih2 := ih (noiseVisit rule s2.bounds s2 p)
      (by rw [hrad]; exact hr)
      (by rw [h1.2.2.2, hrad]; exact hcc)
      h1.2.1 h1.1
    rw [hbe] at ih2
    exact ⟨ih2.1, ih2.2.1, by rw [ih2.2.2.1, hrad], by rw [ih2.2.2.2, h1.2.2.2]⟩

/-- `spawn_noise` from a well-formed validating state yields a well-formed
validating state with the same geometry. -/
theorem atomic_spawn_noise_preserves_inv (s : LeddooAtomic) (rule : Rule)
    (offsets : List IVec3)
    (hr : 0 < s.chunk_radius)
    (hcc : s.chunk_count = s.chunk_radius * s.chunk_radius * s.chunk_radius)
    (hst : 1 ≤ rule.states)
    (hv : s.valuesWf rule) (hval : s.validateOk rule) :
    (s.spawn_noise rule offsets).validateOk rule
      ∧ (s.spawn_noise rule offsets).valuesWf rule
      ∧ (s.spawn_noise rule offsets).chunk_radius = s.chunk_radius
      ∧ (s.spawn_noise rule offsets).chunk_count = s.chunk_count := by
  rw [spawn_noise_eq_foldl]
  exact noise_fold_preserves rule hst _ s hr hcc hv hval

/-! ## `src/cells/leddoo/single_threaded.rs`

The `Vec<Cell>` is split into the two index functions `value` and
`neighbors` (the vector's length is `size³` throughout); `as usize` of an
`i32` is exact on the 64-bit target as `(· .emod (2 ^ 64)).toNat`, and the
coordinate casts of `vec_to_index` are `Int.toNat` as in
`utils.pos_to_index` (every call site passes wrapped, nonnegative
coordinates). -/

/-- Rust's `x as usize` of an `i32` value on a 64-bit target. -/
def usizeOfI32 (x : Int) : Nat := (x.emod (2 ^ 64)).toNat

structure LeddooSingleThreaded where
  value : Nat → Nat
  neighbors : Nat → Nat
  size : Nat

/-- `LeddooSingleThreaded::new`. -/
def LeddooSingleThreaded.new : LeddooSingleThreaded :=
  { value := fun _ => 0, neighbors := fun _ => 0, size := 0 }

/-- `LeddooSingleThreaded::set_size`. -/
def LeddooSingleThreaded.set_size (s : LeddooSingleThreaded) (new_size : Nat) :
    LeddooSingleThreaded :=
  if new_size ≠ s.size then
    { value := fun _ => 0, neighbors := fun _ => 0, size := new_size }
  else s

/-- `LeddooSingleThreaded::index_to_vec`. -/
def LeddooSingleThreaded.index_to_vec (s : LeddooSingleThreaded) (index : Nat) : IVec3 :=
  ivec3 ((index % s.size : Nat) : Int) ((index / s.size % s.size : Nat) : Int)
        ((index / s.size / s.size : Nat) : Int)

/-- `LeddooSingleThreaded::vec_to_index`. -/
def LeddooSingleThreaded.vec_to_index (s : LeddooSingleThreaded) (vec : IVec3) : Nat :=
  vec.x.toNat + vec.y.toNat * s.size + vec.z.toNat * s.size * s.size

/-- `LeddooSingleThreaded::wrap`. -/
def LeddooSingleThreaded.wrap (s : LeddooSingleThreaded) (pos : IVec3) : IVec3 :=
  utils.wrap pos ((s.size : Nat) : Int)

/-- `LeddooSingleThreaded::cell_count`. -/
def LeddooSingleThreaded.cell_count (s : LeddooSingleThreaded) : Nat :=
  (List.range (s.size * s.size * s.size)).countP
    (fun index => !cell_is_dead (s.value index))

/-- `LeddooSingleThreaded::update_neighbors`. -/
def LeddooSingleThreaded.update_neighbors (s : LeddooSingleThreaded) (rule : Rule)
    (index : Nat) (inc : Bool) : LeddooSingleThreaded :=
  { s with neighbors := rule.neighbour_method.get_neighbour_iter.foldl (fun nbs dir =>
      let neighbor_pos := s.wrap (s.index_to_vec index + dir)
      let idx := s.vec_to_index neighbor_pos
      Function.update nbs idx ((nbs idx + (if inc then 1 else 255)) % 256)) s.neighbors }

/-- `LeddooSingleThreaded::update` after the leading `set_size` call: the
whole-grid Phase-A loop in index order, then the spawn and death neighbor
passes. -/
def LeddooSingleThreaded.updateSized (s : LeddooSingleThreaded) (rule : Rule) :
    Option LeddooSingleThreaded :=
  ((List.range (s.size * s.size * s.size)).foldlM (fun st index =>
      (cellStep rule (st.1 index) (s.neighbors index)).map (fun r =>
        (Function.update st.1 index r.1,
         (if r.2.1 then st.2.1 ++ [index] else st.2.1),
         (if r.2.2 then st.2.2 ++ [index] else st.2.2))))
      (s.value, ([] : List Nat), ([] : List Nat))).map (fun r =>
    let s1 := { s with value := r.1 }
    let s2 := r.2.1.foldl (fun t index => t.update_neighbors rule index true) s1
    r.2.2.foldl (fun t index => t.update_neighbors rule index false) s2)

/-- `LeddooSingleThreaded::update` (one tick; `set_size` runs first). -/
def LeddooSingleThreaded.update (s0 : LeddooSingleThreaded) (rule : Rule) :
    Option LeddooSingleThreaded :=
  (s0.set_size (usizeOfI32 rule.bounding_size)).updateSized rule

/-- The brute-force recount of `LeddooSingleThreaded::validate` at one
index. -/
def LeddooSingleThreaded.bruteNeighbors (s : LeddooSingleThreaded) (rule : Rule)
    (index : Nat) : Nat :=
  rule.neighbour_method.get_neighbour_iter.countP (fun dir =>
    s.value (s.vec_to_index (s.wrap (s.index_to_vec index + dir))) == rule.states)

/-- `LeddooSingleThreaded::spawn_noise` (pseudo-random draws modelled as the
`offsets` parameter, as for the atomic engine). -/
def LeddooSingleThreaded.spawn_noise (s : LeddooSingleThreaded) (rule : Rule)
    (offsets : List IVec3) : LeddooSingleThreaded :=
  utils.make_some_noise_default offsets rule.center (fun s2 pos =>
    let index := s2.vec_to_index (s2.wrap pos)
    if cell_is_dead (s2.value index) then
      { s2 with value := Function.update s2.value index rule.states
      }.update_neighbors rule index true
    else s2) s

theorem single_index_to_vec_eq (s : LeddooSingleThreaded) (index : Nat) :
    s.index_to_vec index = utils.index_to_pos index ((s.size : Nat) : Int) := rfl

theorem single_vec_to_index_eq (s : LeddooSingleThreaded) (vec : IVec3) :
    s.vec_to_index vec = utils.pos_to_index vec ((s.size : Nat) : Int) := rfl

/-- The single-threaded neighbor pass is the same bump list as the wrapped
(atomic) path: it always wraps. -/
theorem single_update_neighbors_eq (s : LeddooSingleThreaded) (rule : Rule)
    (index : Nat) (inc : Bool) :
    s.update_neighbors rule index inc =
      { s with neighbors :=
          bumpList (wrapPairs rule ((s.size : Nat) : Int) index
            (if inc then 1 else 255)) s.neighbors } := by
  have hbump : bumpList
      (wrapPairs rule ((s.size : Nat) : Int) index (if inc then 1 else 255)) s.neighbors
      = rule.neighbour_method.get_neighbour_iter.foldl (fun nbs dir =>
          Function.update nbs (nbrIdx ((s.size : Nat) : Int) index dir)
            ((nbs (nbrIdx ((s.size : Nat) : Int) index dir) + (if inc then 1 else 255))
              % 256)) s.neighbors := by
    unfold bumpList wrapPairs
    rw [List.foldl_map]
    rfl
  unfold LeddooSingleThreaded.update_neighbors
  rw [hbump]
  rfl

/-- Threading a whole spawn (or death) list through the single-threaded
neighbor pass bumps the list's patches in order and touches nothing else. -/
theorem single_phaseB_fold (rule : Rule) (inc : Bool) (L : List Nat) :
    ∀ t : LeddooSingleThreaded,
      L.foldl (fun t i => t.update_neighbors rule i inc) t
        = { t with neighbors :=
            bumpList (wrapPairsAll rule ((t.size : Nat) : Int)
              (if inc then 1 else 255) L) t.neighbors } := by
  induction L with
  | nil =>
    intro t
    rw [List.foldl_nil, wrapPairsAll_nil]
    rfl
  | cons i L ih =>
    intro t
    rw [List.foldl_cons, single_update_neighbors_eq, ih, wrapPairsAll_cons,
        bumpList_append]

/-- `LeddooSingleThreaded::update` with the size already matching, success
case: the canonical tick over the flat grid, visiting every cell in index
order. -/
theorem single_updateSized_ok (s : LeddooSingleThreaded) (rule : Rule)
    (hok : tickOkAll rule s.value s.neighbors (s.size * s.size * s.size)) :
    s.updateSized rule = some
      { value := tickValues rule s.value s.neighbors (s.size * s.size * s.size),
        neighbors := tickCounts rule s.value s.neighbors ((s.size : Nat) : Int)
          (List.range (s.size * s.size * s.size)),
        size := s.size } := by
  have hpa : ((List.range (s.size * s.size * s.size)).foldlM (fun st index =>
      (cellStep rule (st.1 index) (s.neighbors index)).map (fun r =>
        (Function.update st.1 index r.1,
         (if r.2.1 then st.2.1 ++ [index] else st.2.1),
         (if r.2.2 then st.2.2 ++ [index] else st.2.2))))
      (s.value, ([] : List Nat), ([] : List Nat)))
      = phaseA rule s.neighbors
          (fun a i sp dt =>
            ((if sp then a.1 ++ [i] else a.1), (if dt then a.2 ++ [i] else a.2)))
          (List.range (s.size * s.size * s.size)) s.value ([], []) := by
    unfold phaseA
    exact foldlM_fun_congr _ _ (fun st index => rfl)
  have hok2 : ∀ i ∈ List.range (s.size * s.size * s.size),
      cellOk rule (s.value i) (s.neighbors i) = true :=
    fun i hi => hok i (List.mem_range.mp hi)
  unfold LeddooSingleThreaded.updateSized
  rw [hpa, phaseA_ok rule s.neighbors _ _ (List.nodup_range _) s.value ([], []) hok2]
  have hacc : (List.range (s.size * s.size * s.size)).foldl (fun a i =>
      ((if cellSpawnB rule (s.value i) (s.neighbors i) then a.1 ++ [i] else a.1),
       (if cellDeathB rule (s.value i) (s.neighbors i) then a.2 ++ [i] else a.2)))
      (([] : List Nat), ([] : List Nat))
      = (tickSpawns rule s.value s.neighbors (List.range (s.size * s.size * s.size)),
         tickDeaths rule s.value s.neighbors (List.range (s.size * s.size * s.size))) := by
    rw [foldl_push_two]
    unfold tickSpawns tickDeaths
    rw [List.nil_append, List.nil_append]
  have hvals : (fun j => if j ∈ List.range (s.size * s.size * s.size) then
        cellValue rule (s.value j) (s.neighbors j) else s.value j)
      = tickValues rule s.value s.neighbors (s.size * s.size * s.size) := by
    funext j
    unfold tickValues
    by_cases hj : j < s.size * s.size * s.size
    · rw [if_pos (List.mem_range.mpr hj), if_pos hj]
    · rw [if_neg (fun hm => hj (List.mem_range.mp hm)), if_neg hj]
  beta_reduce
  rw [hacc, hvals, Option.map_some']
  show some ((tickDeaths rule s.value s.neighbors
        (List.range (s.size * s.size * s.size))).foldl
      (fun (t : LeddooSingleThreaded) index => t.update_neighbors rule index false)
      ((tickSpawns rule s.value s.neighbors
          (List.range (s.size * s.size * s.size))).foldl
        (fun (t : LeddooSingleThreaded) index => t.update_neighbors rule index true)
        { s with value :=
            tickValues rule s.value s.neighbors (s.size * s.size * s.size) }))
    = some { value := tickValues rule s.value s.neighbors (s.size * s.size * s.size),
             neighbors := tickCounts rule s.value s.neighbors ((s.size : Nat) : Int)
               (List.range (s.size * s.size * s.size)),
             size := s.size }
  rw [single_phaseB_fold rule true, single_phaseB_fold rule false]
  unfold tickCounts
  rw [bumpList_append]
  rfl

/-- `LeddooSingleThreaded::update` with the size already matching, failure
case: some cell's membership test panics. -/
theorem single_updateSized_fail (s : LeddooSingleThreaded) (rule : Rule)
    (hbad : ¬ tickOkAll rule s.value s.neighbors (s.size * s.size * s.size)) :
    s.updateSized rule = none := by
  have hpa : ((List.range (s.size * s.size * s.size)).foldlM (fun st index =>
      (cellStep rule (st.1 index) (s.neighbors index)).map (fun r =>
        (Function.update st.1 index r.1,
         (if r.2.1 then st.2.1 ++ [index] else st.2.1),
         (if r.2.2 then st.2.2 ++ [index] else st.2.2))))
      (s.value, ([] : List Nat), ([] : List Nat)))
      = phaseA rule s.neighbors
          (fun a i sp dt =>
            ((if sp then a.1 ++ [i] else a.1), (if dt then a.2 ++ [i] else a.2)))
          (List.range (s.size * s.size * s.size)) s.value ([], []) := by
    unfold phaseA
    exact foldlM_fun_congr _ _ (fun st index => rfl)
  have hbad2 : ¬ ∀ i ∈ List.range (s.size * s.size * s.size),
      cellOk rule (s.value i) (s.neighbors i) = true := by
    intro hall
    exact hbad (fun i hi => hall i (List.mem_range.mpr hi))
  unfold LeddooSingleThreaded.updateSized
  rw [hpa, phaseA_fail rule s.neighbors _ _ (List.nodup_range _) s.value ([], []) hbad2]
  rfl

theorem single_set_size_self (s : LeddooSingleThreaded) {n : Nat} (h : n = s.size) :
    s.set_size n = s := by
  unfold LeddooSingleThreaded.set_size
  rw [if_neg (by simp [h])]

/-- `LeddooSingleThreaded::update` when the rule's bound already matches the
stored size: the canonical tick. -/
theorem single_update_ok (s : LeddooSingleThreaded) (rule : Rule)
    (hsz : usizeOfI32 rule.bounding_size = s.size)
    (hok : tickOkAll rule s.value s.neighbors (s.size * s.size * s.size)) :
    s.update rule = some
      { value := tickValues rule s.value s.neighbors (s.size * s.size * s.size),
        neighbors := tickCounts rule s.value s.neighbors ((s.size : Nat) : Int)
          (List.range (s.size * s.size * s.size)),
        size := s.size } := by
  unfold LeddooSingleThreaded.update
  rw [single_set_size_self s hsz]
  exact single_updateSized_ok s rule hok

theorem single_update_fail (s : LeddooSingleThreaded) (rule : Rule)
    (hsz : usizeOfI32 rule.bounding_size = s.size)
    (hbad : ¬ tickOkAll rule s.value s.neighbors (s.size * s.size * s.size)) :
    s.update rule = none := by
  unfold LeddooSingleThreaded.update
  rw [single_set_size_self s hsz]
  exact single_updateSized_fail s rule hbad

/-! ## `src/cells/leddoo/mod.rs` — the chunk container of the
multi-threaded engine

A `Chunk<Cell>` is the cell vector of one chunk, split into `value` and
`neighbours` index functions over offsets `0..32768`; `Vec<Chunk>` is an
index function plus its length (`chunks_len`), which `Vec::resize_with`
semantics manipulate: the prefix below `min old_len count` is retained,
positions beyond hold fresh default chunks. -/

def index_to_chunk_index (index : Nat) : Nat := index / CHUNK_CELL_COUNT

def index_to_chunk_offset (index : Nat) : Nat := index % CHUNK_CELL_COUNT

structure ChunkM where
  value : Nat → Nat
  neighbours : Nat → Nat

/-- `Chunk::default()`: all cells zeroed. -/
def ChunkM.default : ChunkM := { value := fun _ => 0, neighbours := fun _ => 0 }

/-- `Chunk::index_to_pos` (same formula as `chunk_offset_to_pos`). -/
def ChunkM.index_to_pos (index : Nat) : IVec3 :=
  utils.index_to_pos index (CHUNK_SIZE : Int)

/-- `Chunk::pos_to_index`. -/
def ChunkM.pos_to_index (pos : IVec3) : Nat :=
  utils.pos_to_index pos (CHUNK_SIZE : Int)

/-- `Chunk::is_border_pos` (the same formula as `chunk_is_border_pos`). -/
def ChunkM.is_border_pos (pos : IVec3) (offset : Int) : Bool :=
  chunk_is_border_pos pos offset

structure Chunks where
  chunks : Nat → ChunkM
  chunks_len : Nat
  chunk_radius : Nat
  chunk_count : Nat

/-- `Chunks::new`. -/
def Chunks.new : Chunks :=
  { chunks := fun _ => ChunkM.default, chunks_len := 0, chunk_radius := 0,
    chunk_count := 0 }

/-- `Chunks::bounds`. -/
def Chunks.bounds (c : Chunks) : Int := ((c.chunk_radius * CHUNK_SIZE : Nat) : Int)

/-- `Chunks::set_bounds`: rounds up to whole chunks; on a radius change,
`resize_with` keeps old chunks below `min old_len count` and fills the rest
with defaults. -/
def Chunks.set_bounds (c : Chunks) (new_bounds : Int) : Chunks × Int :=
  let radius := bounds_to_chunk_radius new_bounds
  if radius ≠ c.chunk_radius then
    let count := radius * radius * radius
    ({ chunks := fun i =>
         if i < min c.chunks_len count then c.chunks i else ChunkM.default,
       chunks_len := count, chunk_radius := radius, chunk_count := count },
     ((radius * CHUNK_SIZE : Nat) : Int))
  else (c, c.bounds)

/-- `Chunks::index_to_pos_ex`. -/
def Chunks.index_to_pos_ex (index : Nat) (chunk_radius : Nat) : IVec3 :=
  ((CHUNK_SIZE : Nat) : Int) * utils.index_to_pos (index_to_chunk_index index)
      ((chunk_radius : Nat) : Int)
    + ChunkM.index_to_pos (index_to_chunk_offset index)

/-- `Chunks::pos_to_index_ex` (`vec / 32` and `vec % 32` applied to the
wrapped, nonnegative positions of every call site). -/
def Chunks.pos_to_index_ex (vec : IVec3) (chunk_radius : Nat) : Nat :=
  utils.pos_to_index (vec.sdiv ((CHUNK_SIZE : Nat) : Int)) ((chunk_radius : Nat) : Int)
      * CHUNK_CELL_COUNT
    + ChunkM.pos_to_index (vec.smod ((CHUNK_SIZE : Nat) : Int))

/-! ## `src/cells/leddoo/multi_threaded.rs` -/

structure LeddooMultiThreaded where
  chunks : Chunks

/-- `LeddooMultiThreaded::new`. -/
def LeddooMultiThreaded.new : LeddooMultiThreaded := { chunks := Chunks.new }

/-- `LeddooMultiThreaded::set_bounds`. -/
def LeddooMultiThreaded.set_bounds (s : LeddooMultiThreaded) (new_bounds : Int) :
    LeddooMultiThreaded × Int :=
  let r := s.chunks.set_bounds new_bounds
  ({ chunks := r.1 }, r.2)

/-- `LeddooMultiThreaded::bounds`. -/
def LeddooMultiThreaded.bounds (s : LeddooMultiThreaded) : Int := s.chunks.bounds

/-- `LeddooMultiThreaded::center`. -/
def LeddooMultiThreaded.center (s : LeddooMultiThreaded) : IVec3 :=
  let center := s.bounds.ediv 2
  ivec3 center center center

/-- `LeddooMultiThreaded::cell_count`. -/
def LeddooMultiThreaded.cell_count (s : LeddooMultiThreaded) : Nat :=
  ((List.range s.chunks.chunks_len).map (fun ci =>
    (List.range CHUNK_CELL_COUNT).countP (fun o =>
      !cell_is_dead ((s.chunks.chunks ci).value o)))).sum

/-- `LeddooMultiThreaded::wrap`. -/
def LeddooMultiThreaded.wrap (s : LeddooMultiThreaded) (pos : IVec3) : IVec3 :=
  utils.wrap pos s.bounds

/-- `LeddooMultiThreaded::update_neighbors_chunk`: the chunk-interior
neighbor pass — chunk-local arithmetic, no wrap. -/
def LeddooMultiThreaded.update_neighbors_chunk (chunk : ChunkM) (rule : Rule)
    (offset : Nat) (inc : Bool) : ChunkM :=
  { chunk with neighbours := rule.neighbour_method.get_neighbour_iter.foldl (fun nbs dir =>
      let neighbour_pos := ChunkM.index_to_pos offset + dir
      let idx := ChunkM.pos_to_index neighbour_pos
      Function.update nbs idx ((nbs idx + (if inc then 1 else 255)) % 256)) chunk.neighbours }

/-- `LeddooMultiThreaded::update_neighbors`: the serial cross-chunk
neighbor pass over the working chunk array. -/
def LeddooMultiThreaded.update_neighbors (chunksF : Nat → ChunkM)
    (chunk_radius : Nat) (rule : Rule) (index : Nat) (inc : Bool) : Nat → ChunkM :=
  let pos := Chunks.index_to_pos_ex index chunk_radius
  rule.neighbour_method.get_neighbour_iter.foldl (fun cf dir =>
    let neighbor_pos := utils.wrap (pos + dir) ((chunk_radius * CHUNK_SIZE : Nat) : Int)
    let idx := Chunks.pos_to_index_ex neighbor_pos chunk_radius
    let chunk := index_to_chunk_index idx
    let offset := index_to_chunk_offset idx
    let ch := cf chunk
    let nb := Function.update ch.neighbours offset
      ((ch.neighbours offset + (if inc then 1 else 255)) % 256)
    Function.update cf chunk { ch with neighbours := nb })
    chunksF

/-- `LeddooMultiThreaded::update_values_chunk`: one chunk's Phase-A task,
splitting recorded indices into chunk-interior offsets and global border
indices.  Result order: `(chunk, chunk_spawns, spawns, chunk_deaths,
deaths)`. -/
def LeddooMultiThreaded.update_values_chunk (chunk : ChunkM) (chunk_index : Nat)
    (rule : Rule) :
    Option (ChunkM × List Nat × List Nat × List Nat × List Nat) :=
  (List.range CHUNK_CELL_COUNT).foldlM
    (fun (st : ChunkM × List Nat × List Nat × List Nat × List Nat) offset =>
      (cellStep rule (st.1.value offset) (st.1.neighbours offset)).map
        (fun r =>
          ({ value := Function.update st.1.value offset r.1,
             neighbours := st.1.neighbours },
           (if r.2.1 ∧ ¬ ChunkM.is_border_pos (ChunkM.index_to_pos offset) 0
            then st.2.1 ++ [offset] else st.2.1),
           (if r.2.1 ∧ ChunkM.is_border_pos (ChunkM.index_to_pos offset) 0
            then st.2.2.1 ++ [chunk_index * CHUNK_CELL_COUNT + offset] else st.2.2.1),
           (if r.2.2 ∧ ¬ ChunkM.is_border_pos (ChunkM.index_to_pos offset) 0
            then st.2.2.2.1 ++ [offset] else st.2.2.2.1),
           (if r.2.2 ∧ ChunkM.is_border_pos (ChunkM.index_to_pos offset) 0
            then st.2.2.2.2 ++ [chunk_index * CHUNK_CELL_COUNT + offset]
            else st.2.2.2.2))))
    (chunk, [], [], [], [])

/-- `LeddooMultiThreaded::update` (one tick), with the task batches
sequentialized in spawn/join order: Phase A per chunk in chunk order, the
per-chunk interior neighbor tasks, then the serial border spawn and death
passes. -/
def LeddooMultiThreaded.update (s : LeddooMultiThreaded) (rule : Rule) :
    Option LeddooMultiThreaded := do
  let pa ← (List.range s.chunks.chunks_len).foldlM
    (fun (st : (Nat → ChunkM) × List (List Nat × List Nat) × List Nat × List Nat)
        ci => do
      let rc ← LeddooMultiThreaded.update_values_chunk (s.chunks.chunks ci) ci rule
      pure (Function.update st.1 ci rc.1,
            st.2.1 ++ [(rc.2.1, rc.2.2.2.1)],
            st.2.2.1 ++ rc.2.2.1,
            st.2.2.2 ++ rc.2.2.2.2))
    (s.chunks.chunks, [], [], [])
  let afterPar := (List.range s.chunks.chunks_len).foldl (fun cf ci =>
      Function.update cf ci
        ((pa.2.1.getD ci ([], [])).2.foldl
          (fun ch o => LeddooMultiThreaded.update_neighbors_chunk ch rule o false)
          ((pa.2.1.getD ci ([], [])).1.foldl
            (fun ch o => LeddooMultiThreaded.update_neighbors_chunk ch rule o true)
            (cf ci)))) pa.1
  let afterSp := pa.2.2.1.foldl (fun cf index =>
    LeddooMultiThreaded.update_neighbors cf s.chunks.chunk_radius rule index true)
    afterPar
  let afterDt := pa.2.2.2.foldl (fun cf index =>
    LeddooMultiThreaded.update_neighbors cf s.chunks.chunk_radius rule index false)
    afterSp
  pure { chunks := { s.chunks with chunks := afterDt } }

/-! ## Multi-threaded engine: storage flattening -/

/-- The chunk-major storage array of values, as one flat index function. -/
def flattenV (cf : Nat → ChunkM) : Nat → Nat :=
  fun st => (cf (index_to_chunk_index st)).value (index_to_chunk_offset st)

/-- The chunk-major storage array of neighbour counts, as one flat index
function. -/
def flattenN (cf : Nat → ChunkM) : Nat → Nat :=
  fun st => (cf (index_to_chunk_index st)).neighbours (index_to_chunk_offset st)

theorem chunk_index_decomp (ci off : Nat) (hoff : off < CHUNK_CELL_COUNT) :
    index_to_chunk_index (ci * CHUNK_CELL_COUNT + off) = ci
      ∧ index_to_chunk_offset (ci * CHUNK_CELL_COUNT + off) = off := by
  unfold index_to_chunk_index index_to_chunk_offset
  have hcc : CHUNK_CELL_COUNT = 32768 := by norm_num [CHUNK_CELL_COUNT, CHUNK_SIZE]
  rw [hcc] at hoff ⊢
  omega

theorem storage_eq_iff {st ci off : Nat} (hoff : off < CHUNK_CELL_COUNT) :
    st = ci * CHUNK_CELL_COUNT + off
      ↔ (index_to_chunk_index st = ci ∧ index_to_chunk_offset st = off) := by
  unfold index_to_chunk_index index_to_chunk_offset
  have hcc : CHUNK_CELL_COUNT = 32768 := by norm_num [CHUNK_CELL_COUNT, CHUNK_SIZE]
  rw [hcc] at hoff ⊢
  omega

/-- Writing one neighbour cell of one chunk is one write of the flattened
storage array. -/
theorem flatten_bump_chunk (cf : Nat → ChunkM) (ci off : Nat)
    (hoff : off < CHUNK_CELL_COUNT) (v : Nat) :
    flattenN (Function.update cf ci
        { cf ci with neighbours := Function.update (cf ci).neighbours off v })
      = Function.update (flattenN cf) (ci * CHUNK_CELL_COUNT + off) v := by
  funext st
  unfold flattenN
  rw [Function.update_apply, Function.update_apply]
  by_cases hci : index_to_chunk_index st = ci
  · rw [if_pos hci]
    by_cases hoffe : index_to_chunk_offset st = off
    · rw [if_pos ((storage_eq_iff hoff).mpr ⟨hci, hoffe⟩)]
      show Function.update (cf ci).neighbours off v (index_to_chunk_offset st) = v
      rw [hoffe, Function.update_same]
    · rw [if_neg (fun he => hoffe ((storage_eq_iff hoff).mp he).2)]
      show Function.update (cf ci).neighbours off v (index_to_chunk_offset st)
        = (cf (index_to_chunk_index st)).neighbours (index_to_chunk_offset st)
      rw [Function.update_apply, if_neg hoffe, hci]
  · rw [if_neg hci, if_neg (fun he => hci ((storage_eq_iff hoff).mp he).1)]

/-- Bumping a whole in-chunk pair list inside one chunk is bumping the
shifted pairs of the flattened storage array. -/
theorem flatten_bumpList_chunk (P : List (Nat × Nat))
    (hP : ∀ p ∈ P, p.1 < CHUNK_CELL_COUNT) (ci : Nat) :
    ∀ cf : Nat → ChunkM,
      flattenN (Function.update cf ci
          { cf ci with neighbours := bumpList P (cf ci).neighbours })
        = bumpList (P.map (fun p => (ci * CHUNK_CELL_COUNT + p.1, p.2)))
            (flattenN cf) := by
  induction P with
  | nil =>
    intro cf
    show flattenN (Function.update cf ci { cf ci with neighbours := (cf ci).neighbours })
      = flattenN cf
    have : ({ cf ci with neighbours := (cf ci).neighbours } : ChunkM) = cf ci := rfl
    rw [this, Function.update_eq_self]
  | cons p P ih =>
    intro cf
    have hp1 : p.1 < CHUNK_CELL_COUNT := hP p (by simp)
    have hP2 : ∀ q ∈ P, q.1 < CHUNK_CELL_COUNT := fun q hq => hP q (by simp [hq])
    have hup : Function.update cf ci
        { cf ci with neighbours := bumpList (p :: P) (cf ci).neighbours }
      = Function.update (Function.update cf ci
          { cf ci with neighbours := bump (cf ci).neighbours p }) ci
          { (Function.update cf ci
              { cf ci with neighbours := bump (cf ci).neighbours p }) ci with
            neighbours := bumpList P ((Function.update cf ci
              { cf ci with neighbours := bump (cf ci).neighbours p }) ci).neighbours } := by
      rw [Function.update_idem, Function.update_same]
      rfl
    rw [hup, ih hP2]
    have hflat : flattenN (Function.update cf ci
        { cf ci with neighbours := bump (cf ci).neighbours p })
        = bump (flattenN cf) (ci * CHUNK_CELL_COUNT + p.1, p.2) := by
      have hb : bump (cf ci).neighbours p
          = Function.update (cf ci).neighbours p.1 (((cf ci).neighbours p.1 + p.2) % 256) :=
        rfl
      rw [hb, flatten_bump_chunk cf ci p.1 hp1]
      have hv : (cf ci).neighbours p.1 = flattenN cf (ci * CHUNK_CELL_COUNT + p.1) := by
        unfold flattenN
        rw [(chunk_index_decomp ci p.1 hp1).1, (chunk_index_decomp ci p.1 hp1).2]
      rw [hv]
      rfl
    rw [hflat]
    rfl

/-- The chunk-local bump list of one interior neighbor patch. -/
def locPairs (rule : Rule) (offset delta : Nat) : List (Nat × Nat) :=
  rule.neighbour_method.get_neighbour_iter.map (fun d =>
    (ChunkM.pos_to_index (ChunkM.index_to_pos offset + d), delta))

theorem mt_update_neighbors_chunk_eq (chunk : ChunkM) (rule : Rule)
    (offset : Nat) (inc : Bool) :
    LeddooMultiThreaded.update_neighbors_chunk chunk rule offset inc
      = { chunk with neighbours := (bumpList
          (locPairs rule offset (if inc then 1 else 255)) chunk.neighbours) } := by
  have hbump : bumpList (locPairs rule offset (if inc then 1 else 255)) chunk.neighbours
      = rule.neighbour_method.get_neighbour_iter.foldl (fun nbs d =>
          Function.update nbs (ChunkM.pos_to_index (ChunkM.index_to_pos offset + d))
            ((nbs (ChunkM.pos_to_index (ChunkM.index_to_pos offset + d))
              + (if inc then 1 else 255)) % 256)) chunk.neighbours := by
    unfold bumpList locPairs
    rw [List.foldl_map]
    rfl
  unfold LeddooMultiThreaded.update_neighbors_chunk
  rw [hbump]

/-- Folding a whole offset list through the interior pass. -/
theorem mt_chunk_phaseB_fold (rule : Rule) (inc : Bool) (L : List Nat) :
    ∀ ch : ChunkM,
      L.foldl (fun ch o => LeddooMultiThreaded.update_neighbors_chunk ch rule o inc) ch
        = { ch with neighbours := (bumpList
            (L.flatMap (fun o => locPairs rule o (if inc then 1 else 255)))
            ch.neighbours) } := by
  induction L with
  | nil =>
    intro ch
    rw [List.foldl_nil, List.flatMap_nil]
    rfl
  | cons o L ih =>
    intro ch
    rw [List.foldl_cons, mt_update_neighbors_chunk_eq, ih, List.flatMap_cons,
        bumpList_append]

/-- The bump list of one serial (cross-chunk) neighbor patch, in storage
indices. -/
def storagePairs (rule : Rule) (chunk_radius index delta : Nat) : List (Nat × Nat) :=
  rule.neighbour_method.get_neighbour_iter.map (fun d =>
    (Chunks.pos_to_index_ex
      (utils.wrap (Chunks.index_to_pos_ex index chunk_radius + d)
        ((chunk_radius * CHUNK_SIZE : Nat) : Int)) chunk_radius, delta))

/-- One single-cell neighbour bump addressed by a storage index. -/
def chunkBumpAt (cf : Nat → ChunkM) (t δ : Nat) : Nat → ChunkM :=
  Function.update cf (index_to_chunk_index t)
    { cf (index_to_chunk_index t) with neighbours := (Function.update
        (cf (index_to_chunk_index t)).neighbours (index_to_chunk_offset t)
        (((cf (index_to_chunk_index t)).neighbours (index_to_chunk_offset t) + δ)
          % 256)) }

/-- Generic single-cell chunk bumps along a list, seen through the
flattened storage array. -/
theorem foldl_chunkbump_flatten {α : Type} (ds : List α) (tgt : α → Nat) (δ : Nat) :
    ∀ cf : Nat → ChunkM,
      flattenN (ds.foldl (fun cf d => chunkBumpAt cf (tgt d) δ) cf)
        = bumpList (ds.map (fun d => (tgt d, δ))) (flattenN cf)
      ∧ ∀ ci, ((ds.foldl (fun cf d => chunkBumpAt cf (tgt d) δ) cf) ci).value
          = (cf ci).value := by
  induction ds with
  | nil => exact fun cf => ⟨rfl, fun ci => rfl⟩
  | cons d ds ih =>
    intro cf
    have hoff : index_to_chunk_offset (tgt d) < CHUNK_CELL_COUNT := by
      unfold index_to_chunk_offset
      exact Nat.mod_lt _ (by norm_num [CHUNK_CELL_COUNT, CHUNK_SIZE])
    have hflat : flattenN (chunkBumpAt cf (tgt d) δ) = bump (flattenN cf) (tgt d, δ) := by
      unfold chunkBumpAt
      rw [flatten_bump_chunk cf _ _ hoff]
      have hidx : index_to_chunk_index (tgt d) * CHUNK_CELL_COUNT
          + index_to_chunk_offset (tgt d) = tgt d := by
        have hcc : CHUNK_CELL_COUNT = 32768 := by norm_num [CHUNK_CELL_COUNT, CHUNK_SIZE]
        unfold index_to_chunk_index index_to_chunk_offset
        rw [hcc]
        omega
      rw [hidx]
      rfl
    have ih2 := ih (chunkBumpAt cf (tgt d) δ)
    refine ⟨?_, ?_⟩
    · rw [List.foldl_cons]
      beta_reduce
      rw [ih2.1, hflat]
      rfl
    · intro ci
      rw [List.foldl_cons]
      beta_reduce
      rw [ih2.2 ci]
      unfold chunkBumpAt
      rw [Function.update_apply]
      by_cases hci : ci = index_to_chunk_index (tgt d)
      · rw [if_pos hci, hci]
      · rw [if_neg hci]

/-- The serial cross-chunk neighbor pass, seen through the flattened
storage array: the storage-index bump list; values untouched. -/
theorem mt_update_neighbors_flatten (cf : Nat → ChunkM) (chunk_radius : Nat)
    (rule : Rule) (index : Nat) (inc : Bool) :
    flattenN (LeddooMultiThreaded.update_neighbors cf chunk_radius rule index inc)
      = bumpList (storagePairs rule chunk_radius index (if inc then 1 else 255))
          (flattenN cf)
    ∧ ∀ ci, ((LeddooMultiThreaded.update_neighbors cf chunk_radius rule index inc) ci).value
        = (cf ci).value := by
  have h := foldl_chunkbump_flatten rule.neighbour_method.get_neighbour_iter
    (fun d => Chunks.pos_to_index_ex
      (utils.wrap (Chunks.index_to_pos_ex index chunk_radius + d)
        ((chunk_radius * CHUNK_SIZE : Nat) : Int)) chunk_radius)
    (if inc then 1 else 255) cf
  exact h

/-! ## Multi-threaded engine: Phase A characterization -/

/-- The multi-threaded engine's per-chunk Phase-A loop, generic in the
accumulator (the analogue of `phaseA` over a `ChunkM` state). -/
def phaseAC {A : Type} (rule : Rule) (accF : A → Nat → Bool → Bool → A)
    (idxs : List Nat) (ch : ChunkM) (acc : A) : Option (ChunkM × A) :=
  idxs.foldlM (fun st o =>
    (cellStep rule (st.1.value o) (st.1.neighbours o)).map (fun r =>
      ({ value := Function.update st.1.value o r.1, neighbours := st.1.neighbours },
       accF st.2 o r.2.1 r.2.2)))
    (ch, acc)

theorem update_values_chunk_eq_phaseAC (chunk : ChunkM) (ci : Nat) (rule : Rule) :
    LeddooMultiThreaded.update_values_chunk chunk ci rule
      = phaseAC rule (fun a o sp dt =>
          ((if sp ∧ ¬ ChunkM.is_border_pos (ChunkM.index_to_pos o) 0
            then a.1 ++ [o] else a.1),
           (if sp ∧ ChunkM.is_border_pos (ChunkM.index_to_pos o) 0
            then a.2.1 ++ [ci * CHUNK_CELL_COUNT + o] else a.2.1),
           (if dt ∧ ¬ ChunkM.is_border_pos (ChunkM.index_to_pos o) 0
            then a.2.2.1 ++ [o] else a.2.2.1),
           (if dt ∧ ChunkM.is_border_pos (ChunkM.index_to_pos o) 0
            then a.2.2.2 ++ [ci * CHUNK_CELL_COUNT + o] else a.2.2.2)))
          (List.range CHUNK_CELL_COUNT) chunk ([], [], [], []) := rfl

/-- Per-chunk Phase-A decomposition, success case (the `ChunkM` analogue of
the flat decomposition): neighbours are never written, the values become the
pointwise cell decision, and the accumulator sees each offset's flags in
order. -/
theorem phaseAC_ok {A : Type} (rule : Rule) (accF : A → Nat → Bool → Bool → A)
    (idxs : List Nat) (hnd : idxs.Nodup) :
    ∀ (ch : ChunkM) (acc : A),
      (∀ o ∈ idxs, cellOk rule (ch.value o) (ch.neighbours o) = true) →
      phaseAC rule accF idxs ch acc =
        some ({ value := fun o => if o ∈ idxs
                  then cellValue rule (ch.value o) (ch.neighbours o) else ch.value o,
                neighbours := ch.neighbours },
              idxs.foldl (fun a o => accF a o
                (cellSpawnB rule (ch.value o) (ch.neighbours o))
                (cellDeathB rule (ch.value o) (ch.neighbours o))) acc) := by
  induction idxs with
  | nil =>
    intro ch acc _
    simp only [phaseAC, List.foldlM_nil, List.foldl_nil]
    have hv : (fun o => if o ∈ ([] : List Nat)
        then cellValue rule (ch.value o) (ch.neighbours o) else ch.value o)
        = ch.value := funext fun o => by simp
    rw [hv]
    rfl
  | cons i idxs ih =>
    intro ch acc hok
    have hmem : i ∉ idxs := (List.nodup_cons.mp hnd).1
    have hnd' : idxs.Nodup := (List.nodup_cons.mp hnd).2
    have hoki : cellOk rule (ch.value i) (ch.neighbours i) = true := hok i (by simp)
    simp only [phaseAC, List.foldlM_cons]
    rw [cellStep_eq_ok, hoki]
    simp only [if_true, Option.map_some, Option.some_bind]
    have hih := ih hnd'
      { value := Function.update ch.value i (cellValue rule (ch.value i) (ch.neighbours i)),
        neighbours := ch.neighbours }
      (accF acc i (cellSpawnB rule (ch.value i) (ch.neighbours i))
        (cellDeathB rule (ch.value i) (ch.neighbours i)))
      (fun k hk => by
        have hne : ¬ k = i := by rintro rfl; exact hmem hk
        show cellOk rule (Function.update ch.value i _ k) (ch.neighbours k) = true
        rw [Function.update_apply, if_neg hne]
        exact hok k (by simp [hk]))
    show phaseAC rule accF idxs
        { value := Function.update ch.value i (cellValue rule (ch.value i) (ch.neighbours i)),
          neighbours := ch.neighbours }
        (accF acc i (cellSpawnB rule (ch.value i) (ch.neighbours i))
          (cellDeathB rule (ch.value i) (ch.neighbours i))) = _
    rw [hih]
    apply congrArg some
    have hupd : ∀ k ∈ idxs,
        Function.update ch.value i (cellValue rule (ch.value i) (ch.neighbours i)) k
          = ch.value k := fun k hk => by
      have hne : ¬ k = i := by rintro rfl; exact hmem hk
      rw [Function.update_apply, if_neg hne]
    refine Prod.ext ?_ ?_
    · show ({ value := fun o => _, neighbours := ch.neighbours } : ChunkM) = _
      have hv : (fun o => if o ∈ idxs
          then cellValue rule
            (Function.update ch.value i (cellValue rule (ch.value i) (ch.neighbours i)) o)
            (ch.neighbours o)
          else Function.update ch.value i (cellValue rule (ch.value i) (ch.neighbours i)) o)
          = (fun o => if o ∈ i :: idxs
              then cellValue rule (ch.value o) (ch.neighbours o) else ch.value o) := by
        funext j
        by_cases hj : j ∈ idxs
        · have hji : ¬ j = i := by rintro rfl; exact hmem hj
          simp only [hj, if_true, List.mem_cons, or_true, if_true]
          rw [hupd j hj]
        · by_cases hji : j = i
          · subst hji
            simp only [hj, if_false, List.mem_cons, true_or, if_true]
            rw [Function.update_apply, if_pos rfl]
          · simp only [hj, if_false, List.mem_cons, hji, false_or, if_false]
            rw [Function.update_apply, if_neg hji]
      rw [hv]
    · show List.foldl _ _ idxs = List.foldl _ _ idxs
      apply foldl_congr_mem
      intro k hk a
      show accF a k
          (cellSpawnB rule
            (Function.update ch.value i (cellValue rule (ch.value i) (ch.neighbours i)) k)
            (ch.neighbours k))
          (cellDeathB rule
            (Function.update ch.value i (cellValue rule (ch.value i) (ch.neighbours i)) k)
            (ch.neighbours k))
        = accF a k (cellSpawnB rule (ch.value k) (ch.neighbours k))
            (cellDeathB rule (ch.value k) (ch.neighbours k))
      rw [hupd k hk]

/-- Per-chunk Phase-A decomposition, failure case. -/
theorem phaseAC_fail {A : Type} (rule : Rule) (accF : A → Nat → Bool → Bool → A)
    (idxs : List Nat) (hnd : idxs.Nodup) :
    ∀ (ch : ChunkM) (acc : A),
      ¬ (∀ o ∈ idxs, cellOk rule (ch.value o) (ch.neighbours o) = true) →
      phaseAC rule accF idxs ch acc = none := by
  induction idxs with
  | nil =>
    intro ch acc hbad
    exact absurd (by simp) hbad
  | cons i idxs ih =>
    intro ch acc hbad
    have hmem : i ∉ idxs := (List.nodup_cons.mp hnd).1
    have hnd' : idxs.Nodup := (List.nodup_cons.mp hnd).2
    simp only [phaseAC, List.foldlM_cons]
    by_cases hoki : cellOk rule (ch.value i) (ch.neighbours i) = true
    · rw [cellStep_eq_ok, hoki]
      simp only [if_true, Option.map_some, Option.some_bind]
      apply ih hnd'
      intro hall
      apply hbad
      intro k hk
      rcases List.mem_cons.mp hk with he | hk'
      · rw [he]; exact hoki
      · have h2 := hall k hk'
        have hne : ¬ k = i := by rintro rfl; exact hmem hk'
        have h3 : Function.update ch.value i
            (cellValue rule (ch.value i) (ch.neighbours i)) k = ch.value k := by
          rw [Function.update_apply, if_neg hne]
        show cellOk rule (ch.value k) (ch.neighbours k) = true
        rw [← h3]
        exact h2
    · rw [cellStep_eq_ok]
      have hf : cellOk rule (ch.value i) (ch.neighbours i) = false := by
        rcases Bool.eq_false_or_eq_true (cellOk rule (ch.value i) (ch.neighbours i))
          with h | h
        · exact absurd h hoki
        · exact h
      rw [hf]
      simp

/-- The four-list push accumulator of the multi-threaded Phase A unfolds to
border-classified filters. -/
theorem foldl_push_four (q1 q2 brd : Nat → Bool) (g : Nat → Nat) (idxs : List Nat) :
    ∀ l1 l2 l3 l4 : List Nat,
      idxs.foldl (fun a o =>
        ((if q1 o ∧ ¬ brd o then a.1 ++ [o] else a.1),
         (if q1 o ∧ brd o then a.2.1 ++ [g o] else a.2.1),
         (if q2 o ∧ ¬ brd o then a.2.2.1 ++ [o] else a.2.2.1),
         (if q2 o ∧ brd o then a.2.2.2 ++ [g o] else a.2.2.2))) (l1, l2, l3, l4)
      = (l1 ++ idxs.filter (fun o => q1 o && !brd o),
         l2 ++ (idxs.filter (fun o => q1 o && brd o)).map g,
         l3 ++ idxs.filter (fun o => q2 o && !brd o),
         l4 ++ (idxs.filter (fun o => q2 o && brd o)).map g) := by
  induction idxs with
  | nil =>
    intro l1 l2 l3 l4
    simp
  | cons o idxs ih =>
    intro l1 l2 l3 l4
    rw [List.foldl_cons]
    by_cases h1 : q1 o = true <;> by_cases h2 : q2 o = true <;>
      by_cases hb : brd o = true <;>
      simp only [h1, h2, hb, List.filter_cons, Bool.and_true, Bool.and_false,
        Bool.true_and, Bool.false_and, Bool.not_true, Bool.not_false,
        if_true, if_false, true_and, false_and, and_true, and_false,
        not_true, not_false_iff, List.map_cons] <;>
      rw [ih] <;>
      simp [List.append_assoc]

/-! ## Multi-threaded engine: storage/global index correspondence -/

/-- The chunk-major storage index of a global flat index. -/
def mtStorageOf (r : Nat) (b : Int) (j : Nat) : Nat :=
  chunkOfIdx j r b * CHUNK_CELL_COUNT + offOfIdx j b

theorem pos_to_index_ex_eq (j : Nat) (r : Nat) (b : Int) :
    Chunks.pos_to_index_ex (utils.index_to_pos j b) r = mtStorageOf r b j := rfl

theorem index_to_pos_ex_eq {ci off : Nat} (hoff : off < CHUNK_CELL_COUNT) (r : Nat) :
    Chunks.index_to_pos_ex (ci * CHUNK_CELL_COUNT + off) r = chunkGlobalPos ci off r := by
  unfold Chunks.index_to_pos_ex chunkGlobalPos
  rw [(chunk_index_decomp ci off hoff).1, (chunk_index_decomp ci off hoff).2]
  rfl

theorem mtStorageOf_chunkGlobalIdx {r : Nat} (hr : 0 < r) {b : Int}
    (hb : b = ((r * CHUNK_SIZE : Nat) : Int))
    {ci off : Nat} (hci : ci < r * r * r) (hoff : off < CHUNK_CELL_COUNT) :
    mtStorageOf r b (chunkGlobalIdx ci off r b) = ci * CHUNK_CELL_COUNT + off := by
  unfold mtStorageOf
  rw [(chunkGlobalIdx_recover hr hb hci hoff).1, (chunkGlobalIdx_recover hr hb hci hoff).2]

/-- The serial cross-chunk neighbor patch hits exactly the storage images of
the canonical wrapped targets. -/
theorem storagePairs_eq (rule : Rule) {r : Nat} (hr : 0 < r) {b : Int}
    (hb : b = ((r * CHUNK_SIZE : Nat) : Int))
    {ci off : Nat} (hci : ci < r * r * r) (hoff : off < CHUNK_CELL_COUNT) (delta : Nat) :
    storagePairs rule r (ci * CHUNK_CELL_COUNT + off) delta
      = (wrapPairs rule b (chunkGlobalIdx ci off r b) delta).map
          (fun p => (mtStorageOf r b p.1, p.2)) := by
  have hb0 : 0 < b := by
    rw [hb]
    exact_mod_cast Nat.mul_pos hr (by norm_num [CHUNK_SIZE])
  unfold storagePairs wrapPairs
  rw [List.map_map]
  refine List.map_congr_left ?_
  intro d _
  show (Chunks.pos_to_index_ex
      (utils.wrap (Chunks.index_to_pos_ex (ci * CHUNK_CELL_COUNT + off) r + d)
        ((r * CHUNK_SIZE : Nat) : Int)) r, delta)
    = (mtStorageOf r b (nbrIdx b (chunkGlobalIdx ci off r b) d), delta)
  have hpos : Chunks.index_to_pos_ex (ci * CHUNK_CELL_COUNT + off) r
      = utils.index_to_pos (chunkGlobalIdx ci off r b) b := by
    rw [index_to_pos_ex_eq hoff, index_to_pos_chunkGlobalIdx hr hb hci hoff]
  have hwmem := utils.wrap_mem
    (p := utils.index_to_pos (chunkGlobalIdx ci off r b) b + d) hb0
  have hrt : utils.index_to_pos (nbrIdx b (chunkGlobalIdx ci off r b) d) b
      = utils.wrap (utils.index_to_pos (chunkGlobalIdx ci off r b) b + d) b := by
    unfold nbrIdx
    exact utils.index_to_pos_pos_to_index hwmem.1.1 hwmem.1.2 hwmem.2.1.1 hwmem.2.1.2
      hwmem.2.2.1 hwmem.2.2.2
  rw [hpos, ← hb, ← pos_to_index_ex_eq _ r b, hrt]

theorem axis_interior0 {a d b : Int} (hb32 : (32 : Int) ∣ b) (ha0 : 0 ≤ a) (ha1 : a < b)
    (hm1 : 1 ≤ a.emod 32) (hm30 : a.emod 32 ≤ 30) (hd : d.natAbs ≤ 1) :
    0 ≤ a + d ∧ a + d < b ∧ (a + d).ediv 32 = a.ediv 32
      ∧ (a + d).emod 32 = a.emod 32 + d := by
  have hm1' : 1 ≤ a % 32 := hm1
  have hm30' : a % 32 ≤ 30 := hm30
  have hgoal : 0 ≤ a + d ∧ a + d < b ∧ (a + d) / 32 = a / 32
      ∧ (a + d) % 32 = a % 32 + d := by omega
  exact hgoal

/-- Border classification at width `0`: the interior of a chunk is local
coordinates in `[1, 30]`. -/
theorem border0_interior {p : IVec3}
    (h : chunk_is_border_pos p 0 = false) :
    (1 ≤ p.x ∧ p.x ≤ 30) ∧ (1 ≤ p.y ∧ p.y ≤ 30) ∧ (1 ≤ p.z ∧ p.z ≤ 30) := by
  have hcast : ((CHUNK_SIZE : Nat) : Int) = 32 := by norm_num [CHUNK_SIZE]
  simp only [chunk_is_border_pos, hcast, Bool.or_eq_false_iff,
    decide_eq_false_iff_not, not_le] at h
  obtain ⟨⟨⟨⟨⟨h1, h2⟩, h3⟩, h4⟩, h5⟩, h6⟩ := h
  norm_num at h1 h2 h3 h4 h5 h6
  omega

/-- Interior-offset correspondence: for a chunk-interior source offset, the
chunk-local neighbor target is a valid offset and the storage image of the
canonical wrapped target is the same chunk with that offset. -/
theorem mt_interior_target (rule : Rule) {r : Nat} (hr : 0 < r) {b : Int}
    (hb : b = ((r * CHUNK_SIZE : Nat) : Int))
    {ci off : Nat} (hci : ci < r * r * r) (hoff : off < CHUNK_CELL_COUNT)
    (hint : ChunkM.is_border_pos (ChunkM.index_to_pos off) 0 = false)
    {d : IVec3} (hdx : d.x.natAbs ≤ 1) (hdy : d.y.natAbs ≤ 1) (hdz : d.z.natAbs ≤ 1) :
    ChunkM.pos_to_index (ChunkM.index_to_pos off + d) < CHUNK_CELL_COUNT
      ∧ mtStorageOf r b (nbrIdx b (chunkGlobalIdx ci off r b) d)
          = ci * CHUNK_CELL_COUNT + ChunkM.pos_to_index (ChunkM.index_to_pos off + d) := by
  have hb0 : 0 < b := by
    rw [hb]
    exact_mod_cast Nat.mul_pos hr (by norm_num [CHUNK_SIZE])
  have hb32 : (32 : Int) ∣ b := by
    refine ⟨(r : Int), ?_⟩
    rw [hb]
    push_cast [CHUNK_SIZE]
    ring
  have hcast : ((CHUNK_SIZE : Nat) : Int) = 32 := by norm_num [CHUNK_SIZE]
  have hspec := chunkGlobalPos_spec hr hb hci hoff
  have hgpos := index_to_pos_chunkGlobalIdx hr hb hci hoff
  have hloc := border0_interior hint
  -- local coordinates of the source, as Euclidean remainders of the global ones
  have hsm := hspec.2.2.2.2
  have hsd := hspec.2.2.2.1
  have hlx : (chunkGlobalPos ci off r).x.emod 32 = (chunk_offset_to_pos off).x := by
    have := congrArg IVec3.x hsm
    rwa [IVec3.smod_x, hcast] at this
  have hly : (chunkGlobalPos ci off r).y.emod 32 = (chunk_offset_to_pos off).y := by
    have := congrArg IVec3.y hsm
    rwa [IVec3.smod_y, hcast] at this
  have hlz : (chunkGlobalPos ci off r).z.emod 32 = (chunk_offset_to_pos off).z := by
    have := congrArg IVec3.z hsm
    rwa [IVec3.smod_z, hcast] at this
  have hdvx : (chunkGlobalPos ci off r).x.ediv 32 = (utils.index_to_pos ci (r : Int)).x := by
    have := congrArg IVec3.x hsd
    rwa [IVec3.sdiv_x, hcast] at this
  have hdvy : (chunkGlobalPos ci off r).y.ediv 32 = (utils.index_to_pos ci (r : Int)).y := by
    have := congrArg IVec3.y hsd
    rwa [IVec3.sdiv_y, hcast] at this
  have hdvz : (chunkGlobalPos ci off r).z.ediv 32 = (utils.index_to_pos ci (r : Int)).z := by
    have := congrArg IVec3.z hsd
    rwa [IVec3.sdiv_z, hcast] at this
  have hlocx : (ChunkM.index_to_pos off).x = (chunk_offset_to_pos off).x := rfl
  have hlocy : (ChunkM.index_to_pos off).y = (chunk_offset_to_pos off).y := rfl
  have hlocz : (ChunkM.index_to_pos off).z = (chunk_offset_to_pos off).z := rfl
  have hax := axis_interior0 hb32 hspec.1.1 hspec.1.2
    (by rw [hlx, ← hlocx]; exact hloc.1.1) (by rw [hlx, ← hlocx]; exact hloc.1.2) hdx
  have hay := axis_interior0 hb32 hspec.2.1.1 hspec.2.1.2
    (by rw [hly, ← hlocy]; exact hloc.2.1.1) (by rw [hly, ← hlocy]; exact hloc.2.1.2) hdy
  have haz := axis_interior0 hb32 hspec.2.2.1.1 hspec.2.2.1.2
    (by rw [hlz, ← hlocz]; exact hloc.2.2.1) (by rw [hlz, ← hlocz]; exact hloc.2.2.2) hdz
  -- the shifted local position and its bounds
  have hlpx : (ChunkM.index_to_pos off + d).x = (chunkGlobalPos ci off r + d).x.emod 32 := by
    rw [IVec3.add_x, IVec3.add_x, hax.2.2.2, hlx, hlocx]
  have hlpy : (ChunkM.index_to_pos off + d).y = (chunkGlobalPos ci off r + d).y.emod 32 := by
    rw [IVec3.add_y, IVec3.add_y, hay.2.2.2, hly, hlocy]
  have hlpz : (ChunkM.index_to_pos off + d).z = (chunkGlobalPos ci off r + d).z.emod 32 := by
    rw [IVec3.add_z, IVec3.add_z, haz.2.2.2, hlz, hlocz]
  have hlpb : (0 ≤ (ChunkM.index_to_pos off + d).x
        ∧ (ChunkM.index_to_pos off + d).x < 32)
      ∧ (0 ≤ (ChunkM.index_to_pos off + d).y ∧ (ChunkM.index_to_pos off + d).y < 32)
      ∧ (0 ≤ (ChunkM.index_to_pos off + d).z ∧ (ChunkM.index_to_pos off + d).z < 32) := by
    have hbx := border0_interior hint
    simp only [IVec3.add_x, IVec3.add_y, IVec3.add_z]
    have h1 := hbx.1.1
    have h2 := hbx.1.2
    have h3 := hbx.2.1.1
    have h4 := hbx.2.1.2
    have h5 := hbx.2.2.1
    have h6 := hbx.2.2.2
    omega
  have htlt : ChunkM.pos_to_index (ChunkM.index_to_pos off + d) < CHUNK_CELL_COUNT := by
    have h := utils.pos_to_index_lt (b := (CHUNK_SIZE : Int))
      hlpb.1.1 (by rw [hcast]; exact hlpb.1.2)
      hlpb.2.1.1 (by rw [hcast]; exact hlpb.2.1.2)
      hlpb.2.2.1 (by rw [hcast]; exact hlpb.2.2.2)
    have hc32 : ((CHUNK_SIZE : Nat) : Int).toNat = CHUNK_SIZE := rfl
    unfold ChunkM.pos_to_index
    calc utils.pos_to_index (ChunkM.index_to_pos off + d) (CHUNK_SIZE : Int)
        < ((CHUNK_SIZE : Nat) : Int).toNat * ((CHUNK_SIZE : Nat) : Int).toNat
          * ((CHUNK_SIZE : Nat) : Int).toNat := h
      _ = CHUNK_CELL_COUNT := by rw [hc32]; rfl
  refine ⟨htlt, ?_⟩
  -- the wrapped neighbor position is the unwrapped one
  have hwrap : utils.wrap (utils.index_to_pos (chunkGlobalIdx ci off r b) b + d) b
      = chunkGlobalPos ci off r + d := by
    rw [hgpos]
    exact utils.wrap_eq_self hax.1 hax.2.1 hay.1 hay.2.1 haz.1 haz.2.1
  have hnb : utils.index_to_pos (nbrIdx b (chunkGlobalIdx ci off r b) d) b
      = chunkGlobalPos ci off r + d := by
    unfold nbrIdx
    rw [hwrap]
    exact utils.index_to_pos_pos_to_index hax.1 hax.2.1 hay.1 hay.2.1 haz.1 haz.2.1
  unfold mtStorageOf chunkOfIdx offOfIdx
  rw [hnb]
  have hchunk : utils.pos_to_index ((chunkGlobalPos ci off r + d).sdiv
      ((CHUNK_SIZE : Nat) : Int)) (r : Int) = ci := by
    have hdivs : (chunkGlobalPos ci off r + d).sdiv ((CHUNK_SIZE : Nat) : Int)
        = utils.index_to_pos ci (r : Int) := by
      refine IVec3.ext_xyz ?_ ?_ ?_
      · rw [IVec3.sdiv_x, hcast, IVec3.add_x, hax.2.2.1, ← hdvx]
      · rw [IVec3.sdiv_y, hcast, IVec3.add_y, hay.2.2.1, ← hdvy]
      · rw [IVec3.sdiv_z, hcast, IVec3.add_z, haz.2.2.1, ← hdvz]
    rw [hdivs]
    exact utils.pos_to_index_index_to_pos ci (r : Int)
  have hoffp : utils.pos_to_index ((chunkGlobalPos ci off r + d).smod
      ((CHUNK_SIZE : Nat) : Int)) ((CHUNK_SIZE : Nat) : Int)
      = ChunkM.pos_to_index (ChunkM.index_to_pos off + d) := by
    have hsm2 : (chunkGlobalPos ci off r + d).smod ((CHUNK_SIZE : Nat) : Int)
        = ChunkM.index_to_pos off + d := by
      refine IVec3.ext_xyz ?_ ?_ ?_
      · rw [IVec3.smod_x, hcast, hlpx]
      · rw [IVec3.smod_y, hcast, hlpy]
      · rw [IVec3.smod_z, hcast, hlpz]
    rw [hsm2]
    rfl
  rw [hchunk, hoffp]

/-- The multi-threaded Phase-A task batch, sequentialized: every chunk's
task result lands in its slot and the four diff lists accumulate in chunk
order. -/
theorem mt_outer_fold_ok (rule : Rule) (ch0 : Nat → ChunkM)
    (newch : Nat → ChunkM) (ins : Nat → List Nat × List Nat) (bsp bdt : Nat → List Nat)
    (cis : List Nat)
    (hstep : ∀ ci ∈ cis, LeddooMultiThreaded.update_values_chunk (ch0 ci) ci rule
      = some (newch ci, (ins ci).1, bsp ci, (ins ci).2, bdt ci)) :
    ∀ (cf0 : Nat → ChunkM) (l2 : List (List Nat × List Nat)) (l3 l4 : List Nat),
      cis.foldlM
        (fun (st : (Nat → ChunkM) × List (List Nat × List Nat) × List Nat × List Nat)
            ci => do
          let rc ← LeddooMultiThreaded.update_values_chunk (ch0 ci) ci rule
          pure (Function.update st.1 ci rc.1,
                st.2.1 ++ [(rc.2.1, rc.2.2.2.1)],
                st.2.2.1 ++ rc.2.2.1,
                st.2.2.2 ++ rc.2.2.2.2))
        (cf0, l2, l3, l4)
      = some (fun ci => if ci ∈ cis then newch ci else cf0 ci,
              l2 ++ cis.map ins, l3 ++ cis.flatMap bsp, l4 ++ cis.flatMap bdt) := by
  induction cis with
  | nil =>
    intro cf0 l2 l3 l4
    simp only [List.foldlM_nil, List.map_nil, List.flatMap_nil, List.append_nil]
    have hf : (fun ci => if ci ∈ ([] : List Nat) then newch ci else cf0 ci) = cf0 :=
      funext fun ci => by simp
    rw [hf]
    rfl
  | cons ci cis ih =>
    intro cf0 l2 l3 l4
    rw [List.foldlM_cons, hstep ci (by simp)]
    have ih2 := ih (fun k hk => hstep k (by simp [hk]))
      (Function.update cf0 ci (newch ci)) (l2 ++ [ins ci]) (l3 ++ bsp ci) (l4 ++ bdt ci)
    show (cis.foldlM _ (Function.update cf0 ci (newch ci),
        l2 ++ [(((ins ci).1, (ins ci).2) : List Nat × List Nat)],
        l3 ++ bsp ci, l4 ++ bdt ci)) = _
    have hpair : (((ins ci).1, (ins ci).2) : List Nat × List Nat) = ins ci := rfl
    rw [hpair, ih2]
    apply congrArg some
    refine Prod.ext ?_ ?_
    · funext k
      by_cases hk : k ∈ cis
      · simp only [hk, if_true, List.mem_cons, or_true]
      · by_cases hke : k = ci
        · subst hke
          simp only [hk, if_false, List.mem_cons, true_or, if_true,
            Function.update_same]
        · simp only [hk, if_false, List.mem_cons, hke, false_or]
          rw [Function.update_apply, if_neg hke]
    · show (l2 ++ [ins ci] ++ cis.map ins, _, _)
        = (l2 ++ (ci :: cis).map ins, _, _)
      rw [List.map_cons, List.flatMap_cons, List.flatMap_cons,
        List.append_assoc, List.append_assoc, List.append_assoc]
      rfl

theorem mt_outer_fold_fail (rule : Rule) (ch0 : Nat → ChunkM) (cis : List Nat)
    (hbad : ∃ ci ∈ cis, LeddooMultiThreaded.update_values_chunk (ch0 ci) ci rule = none) :
    ∀ (cf0 : Nat → ChunkM) (l2 : List (List Nat × List Nat)) (l3 l4 : List Nat),
      cis.foldlM
        (fun (st : (Nat → ChunkM) × List (List Nat × List Nat) × List Nat × List Nat)
            ci => do
          let rc ← LeddooMultiThreaded.update_values_chunk (ch0 ci) ci rule
          pure (Function.update st.1 ci rc.1,
                st.2.1 ++ [(rc.2.1, rc.2.2.2.1)],
                st.2.2.1 ++ rc.2.2.1,
                st.2.2.2 ++ rc.2.2.2.2))
        (cf0, l2, l3, l4)
      = none := by
  induction cis with
  | nil =>
    obtain ⟨ci, hmem, _⟩ := hbad
    exact absurd hmem (by simp)
  | cons ci cis ih =>
    intro cf0 l2 l3 l4
    rw [List.foldlM_cons]
    rcases hc : LeddooMultiThreaded.update_values_chunk (ch0 ci) ci rule
      with _ | ⟨ch, a1, a2, a3, a4⟩
    · rfl
    · obtain ⟨k, hkmem, hk⟩ := hbad
      rcases List.mem_cons.mp hkmem with he | hk2
      · rw [he] at hk
        rw [hk] at hc
        exact absurd hc (by simp)
      · exact ih ⟨k, hk2, hk⟩ _ _ _ _

/-- One chunk's interior Phase-B task: both offset lists, as one in-chunk
bump list. -/
def chunkInnerPairs (rule : Rule) (F : Nat → List Nat × List Nat) (ci : Nat) :
    List (Nat × Nat) :=
  (F ci).1.flatMap (fun o => locPairs rule o 1)
    ++ (F ci).2.flatMap (fun o => locPairs rule o 255)

/-- The parallel interior Phase-B batch, sequentialized and flattened:
the shifted in-chunk bump lists in chunk order; values untouched. -/
theorem mt_afterPar_fold (rule : Rule) (F : Nat → List Nat × List Nat)
    (cis : List Nat)
    (htgt : ∀ ci ∈ cis, ∀ p ∈ chunkInnerPairs rule F ci, p.1 < CHUNK_CELL_COUNT) :
    ∀ cf : Nat → ChunkM,
      (flattenN (cis.foldl (fun cf ci =>
          Function.update cf ci
            ((F ci).2.foldl
              (fun ch o => LeddooMultiThreaded.update_neighbors_chunk ch rule o false)
              ((F ci).1.foldl
                (fun ch o => LeddooMultiThreaded.update_neighbors_chunk ch rule o true)
                (cf ci)))) cf)
        = bumpList (cis.flatMap (fun ci =>
            (chunkInnerPairs rule F ci).map (fun p => (ci * CHUNK_CELL_COUNT + p.1, p.2))))
            (flattenN cf))
      ∧ ∀ ci', ((cis.foldl (fun cf ci =>
          Function.update cf ci
            ((F ci).2.foldl
              (fun ch o => LeddooMultiThreaded.update_neighbors_chunk ch rule o false)
              ((F ci).1.foldl
                (fun ch o => LeddooMultiThreaded.update_neighbors_chunk ch rule o true)
                (cf ci)))) cf) ci').value = (cf ci').value := by
  induction cis with
  | nil =>
    intro cf
    exact ⟨rfl, fun ci' => rfl⟩
  | cons ci cis ih =>
    intro cf
    have hchunk : (F ci).2.foldl
        (fun ch o => LeddooMultiThreaded.update_neighbors_chunk ch rule o false)
        ((F ci).1.foldl
          (fun ch o => LeddooMultiThreaded.update_neighbors_chunk ch rule o true)
          (cf ci))
        = { cf ci with neighbours := (bumpList (chunkInnerPairs rule F ci)
            (cf ci).neighbours) } := by
      rw [mt_chunk_phaseB_fold, mt_chunk_phaseB_fold]
      show ({ cf ci with neighbours := _ } : ChunkM) = _
      unfold chunkInnerPairs
      rw [bumpList_append]
      rfl
    have hstep : (ci :: cis).foldl (fun cf ci =>
        Function.update cf ci
          ((F ci).2.foldl
            (fun ch o => LeddooMultiThreaded.update_neighbors_chunk ch rule o false)
            ((F ci).1.foldl
              (fun ch o => LeddooMultiThreaded.update_neighbors_chunk ch rule o true)
              (cf ci)))) cf
        = cis.foldl (fun cf ci =>
            Function.update cf ci
              ((F ci).2.foldl
                (fun ch o => LeddooMultiThreaded.update_neighbors_chunk ch rule o false)
                ((F ci).1.foldl
                  (fun ch o => LeddooMultiThreaded.update_neighbors_chunk ch rule o true)
                  (cf ci))))
            (Function.update cf ci
              { cf ci with neighbours := (bumpList (chunkInnerPairs rule F ci)
                  (cf ci).neighbours) }) := by
      rw [List.foldl_cons, hchunk]
    have ih2 := ih (fun k hk p hp => htgt k (by simp [hk]) p hp)
      (Function.update cf ci
        { cf ci with neighbours := (bumpList (chunkInnerPairs rule F ci)
            (cf ci).neighbours) })
    have hflat := flatten_bumpList_chunk (chunkInnerPairs rule F ci)
      (fun p hp => htgt ci (by simp) p hp) ci cf
    refine ⟨?_, ?_⟩
    · rw [hstep, ih2.1, hflat, List.flatMap_cons, bumpList_append]
    · intro ci'
      rw [hstep, ih2.2 ci']
      rw [Function.update_apply]
      by_cases hci : ci' = ci
      · rw [if_pos hci, hci]
      · rw [if_neg hci]

/-- The serial border Phase-B pass over a list of storage indices, flattened. -/
theorem mt_serial_fold (rule : Rule) (r : Nat) (inc : Bool) (L : List Nat) :
    ∀ cf : Nat → ChunkM,
      (flattenN (L.foldl (fun cf idx =>
          LeddooMultiThreaded.update_neighbors cf r rule idx inc) cf)
        = bumpList (L.flatMap (fun idx =>
            storagePairs rule r idx (if inc then 1 else 255))) (flattenN cf))
      ∧ ∀ ci, ((L.foldl (fun cf idx =>
          LeddooMultiThreaded.update_neighbors cf r rule idx inc) cf) ci).value
          = (cf ci).value := by
  induction L with
  | nil =>
    intro cf
    exact ⟨rfl, fun ci => rfl⟩
  | cons idx L ih =>
    intro cf
    have h1 := mt_update_neighbors_flatten cf r rule idx inc
    have ih2 := ih (LeddooMultiThreaded.update_neighbors cf r rule idx inc)
    refine ⟨?_, ?_⟩
    · rw [List.foldl_cons, ih2.1, h1.1, List.flatMap_cons, bumpList_append]
    · intro ci
      rw [List.foldl_cons, ih2.2 ci, h1.2 ci]

theorem flatMap_congr_mem {α β : Type} (l : List α) (f g : α → List β)
    (h : ∀ a ∈ l, f a = g a) : l.flatMap f = l.flatMap g := by
  induction l with
  | nil => rfl
  | cons a l ih =>
    rw [List.flatMap_cons, List.flatMap_cons, h a (by simp),
      ih (fun x hx => h x (by simp [hx]))]

/-- Splitting a filter along a second test, up to permutation. -/
theorem filter_partition_perm {α : Type} (l : List α) (p q : α → Bool) :
    (l.filter p).Perm
      (l.filter (fun a => p a && !q a) ++ l.filter (fun a => p a && q a)) := by
  induction l with
  | nil => simp
  | cons a l ih =>
    by_cases hp : p a = true <;> by_cases hq : q a = true
    · simp only [List.filter_cons, hp, hq]
      simp only [Bool.not_true, Bool.and_false, Bool.and_true, if_false, if_true]
      exact (ih.cons a).trans List.perm_middle.symm
    · have hq2 : q a = false := by simpa using hq
      simp only [List.filter_cons, hp, hq2]
      simp only [Bool.not_false, Bool.and_false, Bool.and_true, if_false, if_true,
        List.cons_append]
      exact ih.cons a
    · have hp2 : p a = false := by simpa using hp
      simp only [List.filter_cons, hp2]
      simp only [Bool.false_and, if_false]
      exact ih
    · have hp2 : p a = false := by simpa using hp
      simp only [List.filter_cons, hp2]
      simp only [Bool.false_and, if_false]
      exact ih

/-- One chunk's Phase-A task, under the flat-array correspondence. -/
theorem mt_update_values_chunk_ok (rule : Rule) (V C : Nat → Nat) {r : Nat}
    (hr : 0 < r) {b : Int} (hb : b = ((r * CHUNK_SIZE : Nat) : Int))
    (ch : ChunkM) {ci : Nat} (hci : ci < r * r * r)
    (hcv : ∀ off, off < CHUNK_CELL_COUNT → ch.value off = V (chunkGlobalIdx ci off r b))
    (hcn : ∀ off, off < CHUNK_CELL_COUNT → ch.neighbours off = C (chunkGlobalIdx ci off r b))
    (hok : ∀ off, off < CHUNK_CELL_COUNT →
      cellOk rule (V (chunkGlobalIdx ci off r b)) (C (chunkGlobalIdx ci off r b)) = true) :
    LeddooMultiThreaded.update_values_chunk ch ci rule
      = some
        ({ value := fun o => if o ∈ List.range CHUNK_CELL_COUNT
             then cellValue rule (ch.value o) (ch.neighbours o) else ch.value o,
           neighbours := ch.neighbours },
         (List.range CHUNK_CELL_COUNT).filter (fun o =>
           cellSpawnB rule (ch.value o) (ch.neighbours o)
             && !(ChunkM.is_border_pos (ChunkM.index_to_pos o) 0)),
         ((List.range CHUNK_CELL_COUNT).filter (fun o =>
           cellSpawnB rule (ch.value o) (ch.neighbours o)
             && ChunkM.is_border_pos (ChunkM.index_to_pos o) 0)).map
           (fun o => ci * CHUNK_CELL_COUNT + o),
         (List.range CHUNK_CELL_COUNT).filter (fun o =>
           cellDeathB rule (ch.value o) (ch.neighbours o)
             && !(ChunkM.is_border_pos (ChunkM.index_to_pos o) 0)),
         ((List.range CHUNK_CELL_COUNT).filter (fun o =>
           cellDeathB rule (ch.value o) (ch.neighbours o)
             && ChunkM.is_border_pos (ChunkM.index_to_pos o) 0)).map
           (fun o => ci * CHUNK_CELL_COUNT + o)) := by
  rw [update_values_chunk_eq_phaseAC,
    phaseAC_ok rule _ (List.range CHUNK_CELL_COUNT) (List.nodup_range _) ch ([], [], [], [])
      (fun o ho => by
        rw [hcv o (List.mem_range.mp ho), hcn o (List.mem_range.mp ho)]
        exact hok o (List.mem_range.mp ho))]
  apply congrArg some
  refine Prod.ext rfl ?_
  have hpush := foldl_push_four
    (fun o => cellSpawnB rule (ch.value o) (ch.neighbours o))
    (fun o => cellDeathB rule (ch.value o) (ch.neighbours o))
    (fun o => ChunkM.is_border_pos (ChunkM.index_to_pos o) 0)
    (fun o => ci * CHUNK_CELL_COUNT + o)
    (List.range CHUNK_CELL_COUNT) [] [] [] []
  rw [List.nil_append, List.nil_append, List.nil_append, List.nil_append] at hpush
  beta_reduce
  beta_reduce at hpush
  convert hpush using 2

theorem interior_locPairs_eq (rule : Rule) {r : Nat} (hr : 0 < r) {b : Int}
    (hb : b = ((r * CHUNK_SIZE : Nat) : Int))
    {ci off : Nat} (hci : ci < r * r * r) (hoff : off < CHUNK_CELL_COUNT)
    (hint : ChunkM.is_border_pos (ChunkM.index_to_pos off) 0 = false) (delta : Nat) :
    (locPairs rule off delta).map (fun p => (ci * CHUNK_CELL_COUNT + p.1, p.2))
      = (wrapPairs rule b (chunkGlobalIdx ci off r b) delta).map
          (fun p => (mtStorageOf r b p.1, p.2)) := by
  unfold locPairs wrapPairs
  rw [List.map_map, List.map_map]
  refine List.map_congr_left ?_
  intro d hd
  have hbd := dirs_bounded rule.neighbour_method d hd
  have h := mt_interior_target rule hr hb hci hoff hint hbd.1 hbd.2.1 hbd.2.2
  show (ci * CHUNK_CELL_COUNT + ChunkM.pos_to_index (ChunkM.index_to_pos off + d), delta)
    = (mtStorageOf r b (nbrIdx b (chunkGlobalIdx ci off r b) d), delta)
  rw [h.2]

/-- One side (spawn or death) of the multi-threaded Phase-B bump multiset is
a permutation of the storage image of the canonical side. -/
theorem mt_side_perm (rule : Rule) {r : Nat} (hr : 0 < r) {b : Int}
    (hb : b = ((r * CHUNK_SIZE : Nat) : Int)) (p : Nat → Bool) (delta : Nat) :
    ((List.range (r * r * r)).flatMap (fun ci =>
        (((List.range CHUNK_CELL_COUNT).filter (fun o =>
            p (chunkGlobalIdx ci o r b)
              && !(ChunkM.is_border_pos (ChunkM.index_to_pos o) 0))).flatMap
          (fun o => locPairs rule o delta)).map
            (fun q => (ci * CHUNK_CELL_COUNT + q.1, q.2)))
      ++ ((List.range (r * r * r)).flatMap (fun ci =>
          ((List.range CHUNK_CELL_COUNT).filter (fun o =>
            p (chunkGlobalIdx ci o r b)
              && ChunkM.is_border_pos (ChunkM.index_to_pos o) 0)).map
            (fun o => ci * CHUNK_CELL_COUNT + o))).flatMap
        (fun st => storagePairs rule r st delta)).Perm
      ((wrapPairsAll rule b delta
          ((List.range (b.toNat * b.toNat * b.toNat)).filter p)).map
        (fun q => (mtStorageOf r b q.1, q.2))) := by
  -- the canonical source list, re-enumerated chunk by chunk and split at the
  -- chunk border classification
  have hsrc : ((List.range (b.toNat * b.toNat * b.toNat)).filter p).Perm
      ((List.range (r * r * r)).flatMap (fun ci =>
          ((List.range CHUNK_CELL_COUNT).filter (fun o =>
            p (chunkGlobalIdx ci o r b)
              && !(ChunkM.is_border_pos (ChunkM.index_to_pos o) 0))).map
            (fun o => chunkGlobalIdx ci o r b))
        ++ (List.range (r * r * r)).flatMap (fun ci =>
          ((List.range CHUNK_CELL_COUNT).filter (fun o =>
            p (chunkGlobalIdx ci o r b)
              && ChunkM.is_border_pos (ChunkM.index_to_pos o) 0)).map
            (fun o => chunkGlobalIdx ci o r b))) := by
    have h1 : ((List.range (b.toNat * b.toNat * b.toNat)).filter p).Perm
        ((atomicEnum r b).filter p) := ((atomicEnum_perm hr hb).filter p).symm
    have h2 : (atomicEnum r b).filter p
        = (List.range (r * r * r)).flatMap (fun ci => (chunkCells ci r b).filter p) := by
      unfold atomicEnum
      exact filter_flatMap_list _ _ _
    have h3 : ∀ ci, (chunkCells ci r b).filter p
        = ((List.range CHUNK_CELL_COUNT).filter
            (fun o => p (chunkGlobalIdx ci o r b))).map (fun o => chunkGlobalIdx ci o r b) := by
      intro ci
      unfold chunkCells
      exact List.filter_map _ _
    have h4 : ∀ ci, (((List.range CHUNK_CELL_COUNT).filter
        (fun o => p (chunkGlobalIdx ci o r b))).map (fun o => chunkGlobalIdx ci o r b)).Perm
        ((((List.range CHUNK_CELL_COUNT).filter (fun o =>
            p (chunkGlobalIdx ci o r b)
              && !(ChunkM.is_border_pos (ChunkM.index_to_pos o) 0))).map
            (fun o => chunkGlobalIdx ci o r b))
          ++ (((List.range CHUNK_CELL_COUNT).filter (fun o =>
            p (chunkGlobalIdx ci o r b)
              && ChunkM.is_border_pos (ChunkM.index_to_pos o) 0)).map
            (fun o => chunkGlobalIdx ci o r b))) := by
      intro ci
      have h5 := filter_partition_perm (List.range CHUNK_CELL_COUNT)
        (fun o => p (chunkGlobalIdx ci o r b))
        (fun o => ChunkM.is_border_pos (ChunkM.index_to_pos o) 0)
      have h6 := h5.map (fun o => chunkGlobalIdx ci o r b)
      rw [List.map_append] at h6
      exact h6
    refine h1.trans ?_
    rw [h2, flatMap_congr_mem _ _ _ (fun ci _ => h3 ci)]
    refine (List.Perm.bind_left _ (fun ci _ => h4 ci)).trans ?_
    exact (List.flatMap_append_perm _ _ _).symm
  have hflfl : ∀ {α β γ : Type} (l : List α) (f : α → List β) (g : β → List γ),
      (l.flatMap f).flatMap g = l.flatMap (fun a => (f a).flatMap g) := by
    intro α β γ l f g
    induction l with
    | nil => rfl
    | cons a l ih => simp [List.flatMap_cons, List.flatMap_append, ih]
  have hRHS : ((wrapPairsAll rule b delta
        ((List.range (b.toNat * b.toNat * b.toNat)).filter p)).map
        (fun q => (mtStorageOf r b q.1, q.2))).Perm
      (((List.range (r * r * r)).flatMap (fun ci =>
          ((List.range CHUNK_CELL_COUNT).filter (fun o =>
            p (chunkGlobalIdx ci o r b)
              && !(ChunkM.is_border_pos (ChunkM.index_to_pos o) 0))).flatMap
            (fun o => (wrapPairs rule b (chunkGlobalIdx ci o r b) delta).map
              (fun q => (mtStorageOf r b q.1, q.2)))))
        ++ ((List.range (r * r * r)).flatMap (fun ci =>
          ((List.range CHUNK_CELL_COUNT).filter (fun o =>
            p (chunkGlobalIdx ci o r b)
              && ChunkM.is_border_pos (ChunkM.index_to_pos o) 0)).flatMap
            (fun o => (wrapPairs rule b (chunkGlobalIdx ci o r b) delta).map
              (fun q => (mtStorageOf r b q.1, q.2)))))) := by
    have hmp := (wrapPairsAll_perm rule b delta hsrc).map
      (fun q => (mtStorageOf r b q.1, q.2))
    refine hmp.trans ?_
    rw [wrapPairsAll_append, List.map_append]
    refine List.Perm.append ?_ ?_
    · rw [wrapPairsAll_flatMap, List.map_flatMap]
      refine List.Perm.of_eq (flatMap_congr_mem _ _ _ ?_)
      intro ci _
      show (wrapPairsAll rule b delta _).map _ = _
      unfold wrapPairsAll
      rw [List.flatMap_map, List.map_flatMap]
    · rw [wrapPairsAll_flatMap, List.map_flatMap]
      refine List.Perm.of_eq (flatMap_congr_mem _ _ _ ?_)
      intro ci _
      show (wrapPairsAll rule b delta _).map _ = _
      unfold wrapPairsAll
      rw [List.flatMap_map, List.map_flatMap]
  have hLint : (List.range (r * r * r)).flatMap (fun ci =>
      (((List.range CHUNK_CELL_COUNT).filter (fun o =>
          p (chunkGlobalIdx ci o r b)
            && !(ChunkM.is_border_pos (ChunkM.index_to_pos o) 0))).flatMap
        (fun o => locPairs rule o delta)).map
          (fun q => (ci * CHUNK_CELL_COUNT + q.1, q.2)))
      = (List.range (r * r * r)).flatMap (fun ci =>
          ((List.range CHUNK_CELL_COUNT).filter (fun o =>
            p (chunkGlobalIdx ci o r b)
              && !(ChunkM.is_border_pos (ChunkM.index_to_pos o) 0))).flatMap
            (fun o => (wrapPairs rule b (chunkGlobalIdx ci o r b) delta).map
              (fun q => (mtStorageOf r b q.1, q.2)))) := by
    refine flatMap_congr_mem _ _ _ ?_
    intro ci hcimem
    have hci : ci < r * r * r := List.mem_range.mp hcimem
    rw [List.map_flatMap]
    refine flatMap_congr_mem _ _ _ ?_
    intro o homem
    have hmf := List.mem_filter.mp homem
    have hoff : o < CHUNK_CELL_COUNT := List.mem_range.mp hmf.1
    have hflag := hmf.2
    have hbrd : ChunkM.is_border_pos (ChunkM.index_to_pos o) 0 = false := by
      have hflag2 := hflag
      simp only [Bool.and_eq_true, Bool.not_eq_true'] at hflag2
      exact hflag2.2
    exact interior_locPairs_eq rule hr hb hci hoff hbrd delta
  have hLbrd : ((List.range (r * r * r)).flatMap (fun ci =>
        ((List.range CHUNK_CELL_COUNT).filter (fun o =>
          p (chunkGlobalIdx ci o r b)
            && ChunkM.is_border_pos (ChunkM.index_to_pos o) 0)).map
          (fun o => ci * CHUNK_CELL_COUNT + o))).flatMap
        (fun st => storagePairs rule r st delta)
      = (List.range (r * r * r)).flatMap (fun ci =>
          ((List.range CHUNK_CELL_COUNT).filter (fun o =>
            p (chunkGlobalIdx ci o r b)
              && ChunkM.is_border_pos (ChunkM.index_to_pos o) 0)).flatMap
            (fun o => (wrapPairs rule b (chunkGlobalIdx ci o r b) delta).map
              (fun q => (mtStorageOf r b q.1, q.2)))) := by
    rw [hflfl]
    refine flatMap_congr_mem _ _ _ ?_
    intro ci hcimem
    have hci : ci < r * r * r := List.mem_range.mp hcimem
    rw [List.flatMap_map]
    refine flatMap_congr_mem _ _ _ ?_
    intro o homem
    have hmf := List.mem_filter.mp homem
    have hoff : o < CHUNK_CELL_COUNT := List.mem_range.mp hmf.1
    show storagePairs rule r (ci * CHUNK_CELL_COUNT + o) delta = _
    exact storagePairs_eq rule hr hb hci hoff delta
  rw [hLint, hLbrd]
  exact hRHS.symm

/-- Evaluating a conjugated bump list: pushing every target through an
index map that is bijective at the probed point gives the same count and
the same wrapped sum. -/
theorem bumpList_conj (G : List (Nat × Nat)) (σ : Nat → Nat) (A g0 : Nat → Nat)
    (st gidx : Nat) (hA : A st = g0 gidx)
    (hbij : ∀ p ∈ G, (σ p.1 = st ↔ p.1 = gidx)) :
    bumpList (G.map (fun p => (σ p.1, p.2))) A st = bumpList G g0 gidx := by
  rw [bumpList_apply, bumpList_apply]
  have hcnt : (G.map (fun p => (σ p.1, p.2))).countP (fun q => decide (q.1 = st))
      = G.countP (fun q => decide (q.1 = gidx)) := by
    rw [List.countP_map]
    refine List.countP_congr ?_
    intro q hq
    show decide (σ q.1 = st) = true ↔ decide (q.1 = gidx) = true
    rw [decide_eq_true_eq, decide_eq_true_eq]
    exact hbij q hq
  have hfil : ((G.map (fun p => (σ p.1, p.2))).filter
        (fun q => decide (q.1 = st))).map Prod.snd
      = (G.filter (fun q => decide (q.1 = gidx))).map Prod.snd := by
    rw [List.filter_map, List.map_map]
    have hfc : G.filter ((fun q => decide (q.1 = st)) ∘ (fun p => (σ p.1, p.2)))
        = G.filter (fun q => decide (q.1 = gidx)) := by
      refine List.filter_congr ?_
      intro q hq
      show decide (σ q.1 = st) = decide (q.1 = gidx)
      by_cases h : σ q.1 = st
      · rw [decide_eq_true h, decide_eq_true ((hbij q hq).mp h)]
      · rw [decide_eq_false h, decide_eq_false (fun h2 => h ((hbij q hq).mpr h2))]
    rw [hfc]
    rfl
  rw [hcnt, hfil, hA]

/-- Phase-A result chunk of the multi-threaded engine (proof
infrastructure). -/
def mtNewch (rule : Rule) (ch0 : Nat → ChunkM) (ci : Nat) : ChunkM :=
  { value := fun o => if o ∈ List.range CHUNK_CELL_COUNT
      then cellValue rule ((ch0 ci).value o) ((ch0 ci).neighbours o)
      else (ch0 ci).value o,
    neighbours := (ch0 ci).neighbours }

/-- Interior spawn offsets of one chunk. -/
def mtIS (rule : Rule) (ch0 : Nat → ChunkM) (ci : Nat) : List Nat :=
  (List.range CHUNK_CELL_COUNT).filter (fun o =>
    cellSpawnB rule ((ch0 ci).value o) ((ch0 ci).neighbours o)
      && !(ChunkM.is_border_pos (ChunkM.index_to_pos o) 0))

/-- Border spawn storage indices of one chunk. -/
def mtBS (rule : Rule) (ch0 : Nat → ChunkM) (ci : Nat) : List Nat :=
  ((List.range CHUNK_CELL_COUNT).filter (fun o =>
    cellSpawnB rule ((ch0 ci).value o) ((ch0 ci).neighbours o)
      && ChunkM.is_border_pos (ChunkM.index_to_pos o) 0)).map
    (fun o => ci * CHUNK_CELL_COUNT + o)

/-- Interior death offsets of one chunk. -/
def mtID (rule : Rule) (ch0 : Nat → ChunkM) (ci : Nat) : List Nat :=
  (List.range CHUNK_CELL_COUNT).filter (fun o =>
    cellDeathB rule ((ch0 ci).value o) ((ch0 ci).neighbours o)
      && !(ChunkM.is_border_pos (ChunkM.index_to_pos o) 0))

/-- Border death storage indices of one chunk. -/
def mtBD (rule : Rule) (ch0 : Nat → ChunkM) (ci : Nat) : List Nat :=
  ((List.range CHUNK_CELL_COUNT).filter (fun o =>
    cellDeathB rule ((ch0 ci).value o) ((ch0 ci).neighbours o)
      && ChunkM.is_border_pos (ChunkM.index_to_pos o) 0)).map
    (fun o => ci * CHUNK_CELL_COUNT + o)

theorem mt_update_values_chunk_ok2 (rule : Rule) (V C : Nat → Nat) {r : Nat}
    (hr : 0 < r) {b : Int} (hb : b = ((r * CHUNK_SIZE : Nat) : Int))
    (ch0 : Nat → ChunkM) {ci : Nat} (hci : ci < r * r * r)
    (hcv : ∀ off, off < CHUNK_CELL_COUNT →
      (ch0 ci).value off = V (chunkGlobalIdx ci off r b))
    (hcn : ∀ off, off < CHUNK_CELL_COUNT →
      (ch0 ci).neighbours off = C (chunkGlobalIdx ci off r b))
    (hok : ∀ off, off < CHUNK_CELL_COUNT →
      cellOk rule (V (chunkGlobalIdx ci off r b)) (C (chunkGlobalIdx ci off r b)) = true) :
    LeddooMultiThreaded.update_values_chunk (ch0 ci) ci rule
      = some (mtNewch rule ch0 ci, mtIS rule ch0 ci, mtBS rule ch0 ci,
          mtID rule ch0 ci, mtBD rule ch0 ci) :=
  mt_update_values_chunk_ok rule V C hr hb (ch0 ci) hci hcv hcn hok

attribute [irreducible] mtIS mtID mtBS mtBD mtNewch

/-- Storage-index injectivity at a decomposed probe point. -/
theorem mtStorageOf_eq_iff {r : Nat} (hr : 0 < r) {b : Int}
    (hb : b = ((r * CHUNK_SIZE : Nat) : Int))
    {j : Nat} (hj : j < b.toNat * b.toNat * b.toNat)
    {ci off : Nat} (hci : ci < r * r * r) (hoff : off < CHUNK_CELL_COUNT) :
    mtStorageOf r b j = ci * CHUNK_CELL_COUNT + off ↔ j = chunkGlobalIdx ci off r b := by
  obtain ⟨hc1, hc2, hc3⟩ := chunkGlobalIdx_surj hr hb hj
  constructor
  · intro h
    unfold mtStorageOf at h
    have hcc : CHUNK_CELL_COUNT = 32768 := by norm_num [CHUNK_CELL_COUNT, CHUNK_SIZE]
    have heq : chunkOfIdx j r b = ci ∧ offOfIdx j b = off := by
      rw [hcc] at h hc2 hoff
      omega
    rw [← hc3, heq.1, heq.2]
  · intro h
    subst h
    exact mtStorageOf_chunkGlobalIdx hr hb hci hoff

theorem mtIS_mem {rule : Rule} {ch0 : Nat → ChunkM} {ci o : Nat}
    (h : o ∈ mtIS rule ch0 ci) :
    o < CHUNK_CELL_COUNT ∧ ChunkM.is_border_pos (ChunkM.index_to_pos o) 0 = false := by
  unfold mtIS at h
  have h2 := List.mem_filter.mp h
  refine ⟨List.mem_range.mp h2.1, ?_⟩
  have h3 := h2.2
  simp only [Bool.and_eq_true, Bool.not_eq_true'] at h3
  exact h3.2

theorem mtID_mem {rule : Rule} {ch0 : Nat → ChunkM} {ci o : Nat}
    (h : o ∈ mtID rule ch0 ci) :
    o < CHUNK_CELL_COUNT ∧ ChunkM.is_border_pos (ChunkM.index_to_pos o) 0 = false := by
  unfold mtID at h
  have h2 := List.mem_filter.mp h
  refine ⟨List.mem_range.mp h2.1, ?_⟩
  have h3 := h2.2
  simp only [Bool.and_eq_true, Bool.not_eq_true'] at h3
  exact h3.2

theorem locPairs_fst_lt (rule : Rule) {r : Nat} (hr : 0 < r) {b : Int}
    (hb : b = ((r * CHUNK_SIZE : Nat) : Int)) {ci off : Nat} (hci : ci < r * r * r)
    (hoff : off < CHUNK_CELL_COUNT)
    (hint : ChunkM.is_border_pos (ChunkM.index_to_pos off) 0 = false) (delta : Nat) :
    ∀ p ∈ locPairs rule off delta, p.1 < CHUNK_CELL_COUNT := by
  intro p hp
  unfold locPairs at hp
  rcases List.mem_map.mp hp with ⟨d, hd, he⟩
  have hbd := dirs_bounded rule.neighbour_method d hd
  rw [← he]
  exact (mt_interior_target rule hr hb hci hoff hint hbd.1 hbd.2.1 hbd.2.2).1

theorem wrapPairsAll_fst_lt {b : Int} (hb0 : 0 < b) (rule : Rule) (delta : Nat)
    (L : List Nat) :
    ∀ p ∈ wrapPairsAll rule b delta L, p.1 < b.toNat * b.toNat * b.toNat := by
  intro p hp
  rcases List.mem_flatMap.mp hp with ⟨i, _, hpi⟩
  rcases List.mem_map.mp hpi with ⟨d, _, he⟩
  rw [← he]
  exact nbrIdx_lt hb0 i d

/-- Phase A leaves a chunk's neighbour array untouched. -/
theorem mtNewch_neighbours (rule : Rule) (ch0 : Nat → ChunkM) (ci : Nat) :
    (mtNewch rule ch0 ci).neighbours = (ch0 ci).neighbours := by
  unfold mtNewch
  rfl

/-- Value of the Phase-A chunk result at an in-range offset. -/
theorem mtNewch_value (rule : Rule) (ch0 : Nat → ChunkM) (ci o : Nat)
    (ho : o < CHUNK_CELL_COUNT) :
    (mtNewch rule ch0 ci).value o
      = cellValue rule ((ch0 ci).value o) ((ch0 ci).neighbours o) := by
  unfold mtNewch
  dsimp only
  rw [if_pos (List.mem_range.mpr ho)]

set_option maxRecDepth 2048 in
/-- `LeddooMultiThreaded::update`, success case: one tick of the canonical
flat description, seen through the chunk-major storage layout. -/
theorem multi_update_ok (s : LeddooMultiThreaded) (rule : Rule) (V C : Nat → Nat)
    {r : Nat} (hrad : s.chunks.chunk_radius = r) (hr : 0 < r)
    {b : Int} (hb : b = ((r * CHUNK_SIZE : Nat) : Int))
    (hlen : s.chunks.chunks_len = r * r * r)
    (hcv : ∀ ci off, ci < r * r * r → off < CHUNK_CELL_COUNT →
      (s.chunks.chunks ci).value off = V (chunkGlobalIdx ci off r b))
    (hcn : ∀ ci off, ci < r * r * r → off < CHUNK_CELL_COUNT →
      (s.chunks.chunks ci).neighbours off = C (chunkGlobalIdx ci off r b))
    (hok : tickOkAll rule V C (b.toNat * b.toNat * b.toNat)) :
    ∃ s2, s.update rule = some s2
      ∧ s2.chunks.chunk_radius = s.chunks.chunk_radius
      ∧ s2.chunks.chunks_len = s.chunks.chunks_len
      ∧ s2.chunks.chunk_count = s.chunks.chunk_count
      ∧ ∀ ci off, ci < r * r * r → off < CHUNK_CELL_COUNT →
          (s2.chunks.chunks ci).value off
              = tickValues rule V C (b.toNat * b.toNat * b.toNat)
                  (chunkGlobalIdx ci off r b)
            ∧ (s2.chunks.chunks ci).neighbours off
              = tickCounts rule V C b
                  (List.range (b.toNat * b.toNat * b.toNat))
                  (chunkGlobalIdx ci off r b) := by
  subst hrad
  have hb0 : 0 < b := by
    rw [hb]
    exact_mod_cast Nat.mul_pos hr (by norm_num [CHUNK_SIZE])
  have hcell : ∀ ci off, ci < s.chunks.chunk_radius * s.chunks.chunk_radius
      * s.chunks.chunk_radius → off < CHUNK_CELL_COUNT →
      cellOk rule (V (chunkGlobalIdx ci off s.chunks.chunk_radius b))
        (C (chunkGlobalIdx ci off s.chunks.chunk_radius b)) = true := by
    intro ci off hci hoff
    exact hok _ (chunkGlobalIdx_lt hr hb hci hoff)
  have hstep : ∀ ci ∈ List.range s.chunks.chunks_len,
      LeddooMultiThreaded.update_values_chunk (s.chunks.chunks ci) ci rule
        = some (mtNewch rule s.chunks.chunks ci, mtIS rule s.chunks.chunks ci,
            mtBS rule s.chunks.chunks ci, mtID rule s.chunks.chunks ci,
            mtBD rule s.chunks.chunks ci) := by
    intro ci hcimem
    have hci : ci < s.chunks.chunk_radius * s.chunks.chunk_radius
        * s.chunks.chunk_radius := by
      rw [← hlen]
      exact List.mem_range.mp hcimem
    exact mt_update_values_chunk_ok2 rule V C hr hb s.chunks.chunks hci
      (fun off hoff => hcv ci off hci hoff) (fun off hoff => hcn ci off hci hoff)
      (fun off hoff => hcell ci off hci hoff)
  have hfold := mt_outer_fold_ok rule s.chunks.chunks (mtNewch rule s.chunks.chunks)
    (fun ci => (mtIS rule s.chunks.chunks ci, mtID rule s.chunks.chunks ci))
    (mtBS rule s.chunks.chunks) (mtBD rule s.chunks.chunks)
    (List.range s.chunks.chunks_len) hstep s.chunks.chunks [] [] []
  rw [List.nil_append, List.nil_append, List.nil_append] at hfold
  refine ⟨{ chunks := { s.chunks with chunks := (((List.range s.chunks.chunks_len).flatMap (mtBD rule s.chunks.chunks)).foldl (fun cf index => LeddooMultiThreaded.update_neighbors cf s.chunks.chunk_radius rule index false) (((List.range s.chunks.chunks_len).flatMap (mtBS rule s.chunks.chunks)).foldl (fun cf index => LeddooMultiThreaded.update_neighbors cf s.chunks.chunk_radius rule index true) ((List.range s.chunks.chunks_len).foldl (fun cf ci => Function.update cf ci (((((List.range s.chunks.chunks_len).map (fun ci => (mtIS rule s.chunks.chunks ci, mtID rule s.chunks.chunks ci))).getD ci ([], [])).2.foldl (fun ch o => LeddooMultiThreaded.update_neighbors_chunk ch rule o false) ((((List.range s.chunks.chunks_len).map (fun ci => (mtIS rule s.chunks.chunks ci, mtID rule s.chunks.chunks ci))).getD ci ([], [])).1.foldl (fun ch o => LeddooMultiThreaded.update_neighbors_chunk ch rule o true) (cf ci))))) (fun ci => if ci ∈ List.range s.chunks.chunks_len then mtNewch rule s.chunks.chunks ci else s.chunks.chunks ci)))) } }, ?_, rfl, rfl, rfl, ?_⟩
  · show s.update rule = some _
    unfold LeddooMultiThreaded.update
    rw [hfold]
    rfl
  have hgetD : ∀ ci, ci < s.chunks.chunks_len →
      ((List.range s.chunks.chunks_len).map (fun ci => (mtIS rule s.chunks.chunks ci, mtID rule s.chunks.chunks ci))).getD ci ([], []) = (mtIS rule s.chunks.chunks ci, mtID rule s.chunks.chunks ci) := by
    intro ci hci
    unfold List.getD
    rw [List.get?_eq_getElem?, List.getElem?_map, List.getElem?_range hci]
    rfl
  have htgt : ∀ ci ∈ List.range s.chunks.chunks_len,
      ∀ p ∈ chunkInnerPairs rule (fun ci => ((List.range s.chunks.chunks_len).map (fun ci => (mtIS rule s.chunks.chunks ci, mtID rule s.chunks.chunks ci))).getD ci ([], [])) ci, p.1 < CHUNK_CELL_COUNT := by
    intro ci hcimem p hp
    have hciL : ci < s.chunks.chunks_len := List.mem_range.mp hcimem
    have hci : ci < s.chunks.chunk_radius * s.chunks.chunk_radius * s.chunks.chunk_radius := by
      rw [← hlen]
      exact hciL
    unfold chunkInnerPairs at hp
    beta_reduce at hp
    rw [hgetD ci hciL] at hp
    rcases List.mem_append.mp hp with hp1 | hp1
    · rcases List.mem_flatMap.mp hp1 with ⟨o, homem, hpo⟩
      have hm := mtIS_mem homem
      exact locPairs_fst_lt rule hr hb hci hm.1 hm.2 1 p hpo
    · rcases List.mem_flatMap.mp hp1 with ⟨o, homem, hpo⟩
      have hm := mtID_mem homem
      exact locPairs_fst_lt rule hr hb hci hm.1 hm.2 255 p hpo
  have hparF := mt_afterPar_fold rule (fun ci => ((List.range s.chunks.chunks_len).map (fun ci => (mtIS rule s.chunks.chunks ci, mtID rule s.chunks.chunks ci))).getD ci ([], [])) (List.range s.chunks.chunks_len) htgt (fun ci => if ci ∈ List.range s.chunks.chunks_len then mtNewch rule s.chunks.chunks ci else s.chunks.chunks ci)
  have hspF := mt_serial_fold rule s.chunks.chunk_radius true ((List.range s.chunks.chunks_len).flatMap (mtBS rule s.chunks.chunks)) ((List.range s.chunks.chunks_len).foldl (fun cf ci => Function.update cf ci (((((List.range s.chunks.chunks_len).map (fun ci => (mtIS rule s.chunks.chunks ci, mtID rule s.chunks.chunks ci))).getD ci ([], [])).2.foldl (fun ch o => LeddooMultiThreaded.update_neighbors_chunk ch rule o false) ((((List.range s.chunks.chunks_len).map (fun ci => (mtIS rule s.chunks.chunks ci, mtID rule s.chunks.chunks ci))).getD ci ([], [])).1.foldl (fun ch o => LeddooMultiThreaded.update_neighbors_chunk ch rule o true) (cf ci))))) (fun ci => if ci ∈ List.range s.chunks.chunks_len then mtNewch rule s.chunks.chunks ci else s.chunks.chunks ci))
  have hdtF := mt_serial_fold rule s.chunks.chunk_radius false ((List.range s.chunks.chunks_len).flatMap (mtBD rule s.chunks.chunks)) (((List.range s.chunks.chunks_len).flatMap (mtBS rule s.chunks.chunks)).foldl (fun cf index => LeddooMultiThreaded.update_neighbors cf s.chunks.chunk_radius rule index true) ((List.range s.chunks.chunks_len).foldl (fun cf ci => Function.update cf ci (((((List.range s.chunks.chunks_len).map (fun ci => (mtIS rule s.chunks.chunks ci, mtID rule s.chunks.chunks ci))).getD ci ([], [])).2.foldl (fun ch o => LeddooMultiThreaded.update_neighbors_chunk ch rule o false) ((((List.range s.chunks.chunks_len).map (fun ci => (mtIS rule s.chunks.chunks ci, mtID rule s.chunks.chunks ci))).getD ci ([], [])).1.foldl (fun ch o => LeddooMultiThreaded.update_neighbors_chunk ch rule o true) (cf ci))))) (fun ci => if ci ∈ List.range s.chunks.chunks_len then mtNewch rule s.chunks.chunks ci else s.chunks.chunks ci)))
  have hflatFA : flattenN (fun ci => if ci ∈ List.range s.chunks.chunks_len then mtNewch rule s.chunks.chunks ci else s.chunks.chunks ci) = flattenN s.chunks.chunks := by
    funext st
    show ((if index_to_chunk_index st ∈ List.range s.chunks.chunks_len
        then mtNewch rule s.chunks.chunks (index_to_chunk_index st)
        else s.chunks.chunks (index_to_chunk_index st))).neighbours (index_to_chunk_offset st)
      = (s.chunks.chunks (index_to_chunk_index st)).neighbours (index_to_chunk_offset st)
    by_cases hmem : index_to_chunk_index st ∈ List.range s.chunks.chunks_len
    · rw [if_pos hmem, mtNewch_neighbours]
    · rw [if_neg hmem]
  have hflatTotal : flattenN (((List.range s.chunks.chunks_len).flatMap (mtBD rule s.chunks.chunks)).foldl (fun cf index => LeddooMultiThreaded.update_neighbors cf s.chunks.chunk_radius rule index false) (((List.range s.chunks.chunks_len).flatMap (mtBS rule s.chunks.chunks)).foldl (fun cf index => LeddooMultiThreaded.update_neighbors cf s.chunks.chunk_radius rule index true) ((List.range s.chunks.chunks_len).foldl (fun cf ci => Function.update cf ci (((((List.range s.chunks.chunks_len).map (fun ci => (mtIS rule s.chunks.chunks ci, mtID rule s.chunks.chunks ci))).getD ci ([], [])).2.foldl (fun ch o => LeddooMultiThreaded.update_neighbors_chunk ch rule o false) ((((List.range s.chunks.chunks_len).map (fun ci => (mtIS rule s.chunks.chunks ci, mtID rule s.chunks.chunks ci))).getD ci ([], [])).1.foldl (fun ch o => LeddooMultiThreaded.update_neighbors_chunk ch rule o true) (cf ci))))) (fun ci => if ci ∈ List.range s.chunks.chunks_len then mtNewch rule s.chunks.chunks ci else s.chunks.chunks ci))))
      = bumpList ((((List.range s.chunks.chunks_len).flatMap (fun ci => (chunkInnerPairs rule (fun ci => ((List.range s.chunks.chunks_len).map (fun ci => (mtIS rule s.chunks.chunks ci, mtID rule s.chunks.chunks ci))).getD ci ([], [])) ci).map (fun p => (ci * CHUNK_CELL_COUNT + p.1, p.2)))) ++ (((List.range s.chunks.chunks_len).flatMap (mtBS rule s.chunks.chunks)).flatMap (fun idx => storagePairs rule s.chunks.chunk_radius idx 1))) ++ (((List.range s.chunks.chunks_len).flatMap (mtBD rule s.chunks.chunks)).flatMap (fun idx => storagePairs rule s.chunks.chunk_radius idx 255))) (flattenN s.chunks.chunks) := by
    have h1 : flattenN (((List.range s.chunks.chunks_len).flatMap (mtBD rule s.chunks.chunks)).foldl (fun cf index => LeddooMultiThreaded.update_neighbors cf s.chunks.chunk_radius rule index false) (((List.range s.chunks.chunks_len).flatMap (mtBS rule s.chunks.chunks)).foldl (fun cf index => LeddooMultiThreaded.update_neighbors cf s.chunks.chunk_radius rule index true) ((List.range s.chunks.chunks_len).foldl (fun cf ci => Function.update cf ci (((((List.range s.chunks.chunks_len).map (fun ci => (mtIS rule s.chunks.chunks ci, mtID rule s.chunks.chunks ci))).getD ci ([], [])).2.foldl (fun ch o => LeddooMultiThreaded.update_neighbors_chunk ch rule o false) ((((List.range s.chunks.chunks_len).map (fun ci => (mtIS rule s.chunks.chunks ci, mtID rule s.chunks.chunks ci))).getD ci ([], [])).1.foldl (fun ch o => LeddooMultiThreaded.update_neighbors_chunk ch rule o true) (cf ci))))) (fun ci => if ci ∈ List.range s.chunks.chunks_len then mtNewch rule s.chunks.chunks ci else s.chunks.chunks ci)))) = bumpList (((List.range s.chunks.chunks_len).flatMap (mtBD rule s.chunks.chunks)).flatMap (fun idx => storagePairs rule s.chunks.chunk_radius idx 255)) (flattenN (((List.range s.chunks.chunks_len).flatMap (mtBS rule s.chunks.chunks)).foldl (fun cf index => LeddooMultiThreaded.update_neighbors cf s.chunks.chunk_radius rule index true) ((List.range s.chunks.chunks_len).foldl (fun cf ci => Function.update cf ci (((((List.range s.chunks.chunks_len).map (fun ci => (mtIS rule s.chunks.chunks ci, mtID rule s.chunks.chunks ci))).getD ci ([], [])).2.foldl (fun ch o => LeddooMultiThreaded.update_neighbors_chunk ch rule o false) ((((List.range s.chunks.chunks_len).map (fun ci => (mtIS rule s.chunks.chunks ci, mtID rule s.chunks.chunks ci))).getD ci ([], [])).1.foldl (fun ch o => LeddooMultiThreaded.update_neighbors_chunk ch rule o true) (cf ci))))) (fun ci => if ci ∈ List.range s.chunks.chunks_len then mtNewch rule s.chunks.chunks ci else s.chunks.chunks ci)))) := hdtF.1
    have h2 : flattenN (((List.range s.chunks.chunks_len).flatMap (mtBS rule s.chunks.chunks)).foldl (fun cf index => LeddooMultiThreaded.update_neighbors cf s.chunks.chunk_radius rule index true) ((List.range s.chunks.chunks_len).foldl (fun cf ci => Function.update cf ci (((((List.range s.chunks.chunks_len).map (fun ci => (mtIS rule s.chunks.chunks ci, mtID rule s.chunks.chunks ci))).getD ci ([], [])).2.foldl (fun ch o => LeddooMultiThreaded.update_neighbors_chunk ch rule o false) ((((List.range s.chunks.chunks_len).map (fun ci => (mtIS rule s.chunks.chunks ci, mtID rule s.chunks.chunks ci))).getD ci ([], [])).1.foldl (fun ch o => LeddooMultiThreaded.update_neighbors_chunk ch rule o true) (cf ci))))) (fun ci => if ci ∈ List.range s.chunks.chunks_len then mtNewch rule s.chunks.chunks ci else s.chunks.chunks ci))) = bumpList (((List.range s.chunks.chunks_len).flatMap (mtBS rule s.chunks.chunks)).flatMap (fun idx => storagePairs rule s.chunks.chunk_radius idx 1)) (flattenN ((List.range s.chunks.chunks_len).foldl (fun cf ci => Function.update cf ci (((((List.range s.chunks.chunks_len).map (fun ci => (mtIS rule s.chunks.chunks ci, mtID rule s.chunks.chunks ci))).getD ci ([], [])).2.foldl (fun ch o => LeddooMultiThreaded.update_neighbors_chunk ch rule o false) ((((List.range s.chunks.chunks_len).map (fun ci => (mtIS rule s.chunks.chunks ci, mtID rule s.chunks.chunks ci))).getD ci ([], [])).1.foldl (fun ch o => LeddooMultiThreaded.update_neighbors_chunk ch rule o true) (cf ci))))) (fun ci => if ci ∈ List.range s.chunks.chunks_len then mtNewch rule s.chunks.chunks ci else s.chunks.chunks ci))) := hspF.1
    have h3 : flattenN ((List.range s.chunks.chunks_len).foldl (fun cf ci => Function.update cf ci (((((List.range s.chunks.chunks_len).map (fun ci => (mtIS rule s.chunks.chunks ci, mtID rule s.chunks.chunks ci))).getD ci ([], [])).2.foldl (fun ch o => LeddooMultiThreaded.update_neighbors_chunk ch rule o false) ((((List.range s.chunks.chunks_len).map (fun ci => (mtIS rule s.chunks.chunks ci, mtID rule s.chunks.chunks ci))).getD ci ([], [])).1.foldl (fun ch o => LeddooMultiThreaded.update_neighbors_chunk ch rule o true) (cf ci))))) (fun ci => if ci ∈ List.range s.chunks.chunks_len then mtNewch rule s.chunks.chunks ci else s.chunks.chunks ci)) = bumpList ((List.range s.chunks.chunks_len).flatMap (fun ci => (chunkInnerPairs rule (fun ci => ((List.range s.chunks.chunks_len).map (fun ci => (mtIS rule s.chunks.chunks ci, mtID rule s.chunks.chunks ci))).getD ci ([], [])) ci).map (fun p => (ci * CHUNK_CELL_COUNT + p.1, p.2)))) (flattenN (fun ci => if ci ∈ List.range s.chunks.chunks_len then mtNewch rule s.chunks.chunks ci else s.chunks.chunks ci)) := hparF.1
    rw [h1, h2, h3, hflatFA, ← bumpList_append, ← bumpList_append,
      List.append_assoc]
  have hISV : ∀ ci, ci < s.chunks.chunk_radius * s.chunks.chunk_radius * s.chunks.chunk_radius →
      mtIS rule s.chunks.chunks ci = ((List.range CHUNK_CELL_COUNT).filter (fun o => (fun g => cellSpawnB rule (V g) (C g)) (chunkGlobalIdx ci o s.chunks.chunk_radius b) && !(ChunkM.is_border_pos (ChunkM.index_to_pos o) 0))) := by
    intro ci hci
    unfold mtIS
    refine List.filter_congr ?_
    intro o ho
    have hoff := List.mem_range.mp ho
    rw [hcv ci o hci hoff, hcn ci o hci hoff]
  have hIDV : ∀ ci, ci < s.chunks.chunk_radius * s.chunks.chunk_radius * s.chunks.chunk_radius →
      mtID rule s.chunks.chunks ci = ((List.range CHUNK_CELL_COUNT).filter (fun o => (fun g => cellDeathB rule (V g) (C g)) (chunkGlobalIdx ci o s.chunks.chunk_radius b) && !(ChunkM.is_border_pos (ChunkM.index_to_pos o) 0))) := by
    intro ci hci
    unfold mtID
    refine List.filter_congr ?_
    intro o ho
    have hoff := List.mem_range.mp ho
    rw [hcv ci o hci hoff, hcn ci o hci hoff]
  have hBSV : ∀ ci, ci < s.chunks.chunk_radius * s.chunks.chunk_radius * s.chunks.chunk_radius →
      mtBS rule s.chunks.chunks ci = ((List.range CHUNK_CELL_COUNT).filter (fun o => (fun g => cellSpawnB rule (V g) (C g)) (chunkGlobalIdx ci o s.chunks.chunk_radius b) && ChunkM.is_border_pos (ChunkM.index_to_pos o) 0)).map (fun o => ci * CHUNK_CELL_COUNT + o) := by
    intro ci hci
    unfold mtBS
    refine congrArg _ (List.filter_congr ?_)
    intro o ho
    have hoff := List.mem_range.mp ho
    rw [hcv ci o hci hoff, hcn ci o hci hoff]
  have hBDV : ∀ ci, ci < s.chunks.chunk_radius * s.chunks.chunk_radius * s.chunks.chunk_radius →
      mtBD rule s.chunks.chunks ci = ((List.range CHUNK_CELL_COUNT).filter (fun o => (fun g => cellDeathB rule (V g) (C g)) (chunkGlobalIdx ci o s.chunks.chunk_radius b) && ChunkM.is_border_pos (ChunkM.index_to_pos o) 0)).map (fun o => ci * CHUNK_CELL_COUNT + o) := by
    intro ci hci
    unfold mtBD
    refine congrArg _ (List.filter_congr ?_)
    intro o ho
    have hoff := List.mem_range.mp ho
    rw [hcv ci o hci hoff, hcn ci o hci hoff]
  have hINsplit : ((List.range s.chunks.chunks_len).flatMap (fun ci => (chunkInnerPairs rule (fun ci => ((List.range s.chunks.chunks_len).map (fun ci => (mtIS rule s.chunks.chunks ci, mtID rule s.chunks.chunks ci))).getD ci ([], [])) ci).map (fun p => (ci * CHUNK_CELL_COUNT + p.1, p.2)))).Perm (((List.range (s.chunks.chunk_radius * s.chunks.chunk_radius * s.chunks.chunk_radius)).flatMap (fun ci => (((List.range CHUNK_CELL_COUNT).filter (fun o => (fun g => cellSpawnB rule (V g) (C g)) (chunkGlobalIdx ci o s.chunks.chunk_radius b) && !(ChunkM.is_border_pos (ChunkM.index_to_pos o) 0))).flatMap (fun o => locPairs rule o 1)).map (fun p => (ci * CHUNK_CELL_COUNT + p.1, p.2)))) ++ ((List.range (s.chunks.chunk_radius * s.chunks.chunk_radius * s.chunks.chunk_radius)).flatMap (fun ci => (((List.range CHUNK_CELL_COUNT).filter (fun o => (fun g => cellDeathB rule (V g) (C g)) (chunkGlobalIdx ci o s.chunks.chunk_radius b) && !(ChunkM.is_border_pos (ChunkM.index_to_pos o) 0))).flatMap (fun o => locPairs rule o 255)).map (fun p => (ci * CHUNK_CELL_COUNT + p.1, p.2))))) := by
    have he : ((List.range s.chunks.chunks_len).flatMap (fun ci => (chunkInnerPairs rule (fun ci => ((List.range s.chunks.chunks_len).map (fun ci => (mtIS rule s.chunks.chunks ci, mtID rule s.chunks.chunks ci))).getD ci ([], [])) ci).map (fun p => (ci * CHUNK_CELL_COUNT + p.1, p.2)))) = (List.range s.chunks.chunks_len).flatMap (fun ci =>
        ((((List.range CHUNK_CELL_COUNT).filter (fun o => (fun g => cellSpawnB rule (V g) (C g)) (chunkGlobalIdx ci o s.chunks.chunk_radius b) && !(ChunkM.is_border_pos (ChunkM.index_to_pos o) 0))).flatMap (fun o => locPairs rule o 1)).map (fun p => (ci * CHUNK_CELL_COUNT + p.1, p.2)))
          ++ ((((List.range CHUNK_CELL_COUNT).filter (fun o => (fun g => cellDeathB rule (V g) (C g)) (chunkGlobalIdx ci o s.chunks.chunk_radius b) && !(ChunkM.is_border_pos (ChunkM.index_to_pos o) 0))).flatMap (fun o => locPairs rule o 255)).map (fun p => (ci * CHUNK_CELL_COUNT + p.1, p.2)))) := by
      refine flatMap_congr_mem _ _ _ ?_
      intro ci hcimem
      have hciL : ci < s.chunks.chunks_len := List.mem_range.mp hcimem
      have hci : ci < s.chunks.chunk_radius * s.chunks.chunk_radius * s.chunks.chunk_radius := by
        rw [← hlen]
        exact hciL
      unfold chunkInnerPairs
      beta_reduce
      rw [hgetD ci hciL]
      show ((mtIS rule s.chunks.chunks ci).flatMap (fun o => locPairs rule o 1)
          ++ (mtID rule s.chunks.chunks ci).flatMap (fun o => locPairs rule o 255)).map (fun p => (ci * CHUNK_CELL_COUNT + p.1, p.2)) = _
      rw [List.map_append, hISV ci hci, hIDV ci hci]
    rw [he, hlen]
    exact (List.flatMap_append_perm _ _ _).symm
  have hSPe : (((List.range s.chunks.chunks_len).flatMap (mtBS rule s.chunks.chunks)).flatMap (fun idx => storagePairs rule s.chunks.chunk_radius idx 1)) = (((List.range (s.chunks.chunk_radius * s.chunks.chunk_radius * s.chunks.chunk_radius)).flatMap (fun ci => ((List.range CHUNK_CELL_COUNT).filter (fun o => (fun g => cellSpawnB rule (V g) (C g)) (chunkGlobalIdx ci o s.chunks.chunk_radius b) && ChunkM.is_border_pos (ChunkM.index_to_pos o) 0)).map (fun o => ci * CHUNK_CELL_COUNT + o))).flatMap (fun st => storagePairs rule s.chunks.chunk_radius st 1)) := by
    rw [hlen]
    refine congrArg (fun (L : List Nat) => L.flatMap (fun idx => storagePairs rule s.chunks.chunk_radius idx 1)) ?_
    refine flatMap_congr_mem _ _ _ ?_
    intro ci hcimem
    exact hBSV ci (List.mem_range.mp hcimem)
  have hDTe : (((List.range s.chunks.chunks_len).flatMap (mtBD rule s.chunks.chunks)).flatMap (fun idx => storagePairs rule s.chunks.chunk_radius idx 255)) = (((List.range (s.chunks.chunk_radius * s.chunks.chunk_radius * s.chunks.chunk_radius)).flatMap (fun ci => ((List.range CHUNK_CELL_COUNT).filter (fun o => (fun g => cellDeathB rule (V g) (C g)) (chunkGlobalIdx ci o s.chunks.chunk_radius b) && ChunkM.is_border_pos (ChunkM.index_to_pos o) 0)).map (fun o => ci * CHUNK_CELL_COUNT + o))).flatMap (fun st => storagePairs rule s.chunks.chunk_radius st 255)) := by
    rw [hlen]
    refine congrArg (fun (L : List Nat) => L.flatMap (fun idx => storagePairs rule s.chunks.chunk_radius idx 255)) ?_
    refine flatMap_congr_mem _ _ _ ?_
    intro ci hcimem
    exact hBDV ci (List.mem_range.mp hcimem)
  have hsp := mt_side_perm rule hr hb (fun g => cellSpawnB rule (V g) (C g)) 1
  have hdt := mt_side_perm rule hr hb (fun g => cellDeathB rule (V g) (C g)) 255
  have hperm : ((((List.range s.chunks.chunks_len).flatMap (fun ci => (chunkInnerPairs rule (fun ci => ((List.range s.chunks.chunks_len).map (fun ci => (mtIS rule s.chunks.chunks ci, mtID rule s.chunks.chunks ci))).getD ci ([], [])) ci).map (fun p => (ci * CHUNK_CELL_COUNT + p.1, p.2)))) ++ (((List.range s.chunks.chunks_len).flatMap (mtBS rule s.chunks.chunks)).flatMap (fun idx => storagePairs rule s.chunks.chunk_radius idx 1))) ++ (((List.range s.chunks.chunks_len).flatMap (mtBD rule s.chunks.chunks)).flatMap (fun idx => storagePairs rule s.chunks.chunk_radius idx 255))).Perm
      ((wrapPairsAll rule b 1 (tickSpawns rule V C (List.range (b.toNat * b.toNat * b.toNat))) ++ wrapPairsAll rule b 255 (tickDeaths rule V C (List.range (b.toNat * b.toNat * b.toNat)))).map (fun q => (mtStorageOf s.chunks.chunk_radius b q.1, q.2))) := by
    refine List.Perm.trans ((hINsplit.append_right (((List.range s.chunks.chunks_len).flatMap (mtBS rule s.chunks.chunks)).flatMap (fun idx => storagePairs rule s.chunks.chunk_radius idx 1))).append_right (((List.range s.chunks.chunks_len).flatMap (mtBD rule s.chunks.chunks)).flatMap (fun idx => storagePairs rule s.chunks.chunk_radius idx 255))) ?_
    rw [hSPe, hDTe]
    have hj1 : ((((List.range (s.chunks.chunk_radius * s.chunks.chunk_radius * s.chunks.chunk_radius)).flatMap (fun ci => (((List.range CHUNK_CELL_COUNT).filter (fun o => (fun g => cellSpawnB rule (V g) (C g)) (chunkGlobalIdx ci o s.chunks.chunk_radius b) && !(ChunkM.is_border_pos (ChunkM.index_to_pos o) 0))).flatMap (fun o => locPairs rule o 1)).map (fun p => (ci * CHUNK_CELL_COUNT + p.1, p.2)))) ++ ((List.range (s.chunks.chunk_radius * s.chunks.chunk_radius * s.chunks.chunk_radius)).flatMap (fun ci => (((List.range CHUNK_CELL_COUNT).filter (fun o => (fun g => cellDeathB rule (V g) (C g)) (chunkGlobalIdx ci o s.chunks.chunk_radius b) && !(ChunkM.is_border_pos (ChunkM.index_to_pos o) 0))).flatMap (fun o => locPairs rule o 255)).map (fun p => (ci * CHUNK_CELL_COUNT + p.1, p.2))))) ++ (((List.range (s.chunks.chunk_radius * s.chunks.chunk_radius * s.chunks.chunk_radius)).flatMap (fun ci => ((List.range CHUNK_CELL_COUNT).filter (fun o => (fun g => cellSpawnB rule (V g) (C g)) (chunkGlobalIdx ci o s.chunks.chunk_radius b) && ChunkM.is_border_pos (ChunkM.index_to_pos o) 0)).map (fun o => ci * CHUNK_CELL_COUNT + o))).flatMap (fun st => storagePairs rule s.chunks.chunk_radius st 1))).Perm ((((List.range (s.chunks.chunk_radius * s.chunks.chunk_radius * s.chunks.chunk_radius)).flatMap (fun ci => (((List.range CHUNK_CELL_COUNT).filter (fun o => (fun g => cellSpawnB rule (V g) (C g)) (chunkGlobalIdx ci o s.chunks.chunk_radius b) && !(ChunkM.is_border_pos (ChunkM.index_to_pos o) 0))).flatMap (fun o => locPairs rule o 1)).map (fun p => (ci * CHUNK_CELL_COUNT + p.1, p.2)))) ++ (((List.range (s.chunks.chunk_radius * s.chunks.chunk_radius * s.chunks.chunk_radius)).flatMap (fun ci => ((List.range CHUNK_CELL_COUNT).filter (fun o => (fun g => cellSpawnB rule (V g) (C g)) (chunkGlobalIdx ci o s.chunks.chunk_radius b) && ChunkM.is_border_pos (ChunkM.index_to_pos o) 0)).map (fun o => ci * CHUNK_CELL_COUNT + o))).flatMap (fun st => storagePairs rule s.chunks.chunk_radius st 1))) ++ ((List.range (s.chunks.chunk_radius * s.chunks.chunk_radius * s.chunks.chunk_radius)).flatMap (fun ci => (((List.range CHUNK_CELL_COUNT).filter (fun o => (fun g => cellDeathB rule (V g) (C g)) (chunkGlobalIdx ci o s.chunks.chunk_radius b) && !(ChunkM.is_border_pos (ChunkM.index_to_pos o) 0))).flatMap (fun o => locPairs rule o 255)).map (fun p => (ci * CHUNK_CELL_COUNT + p.1, p.2))))) := by
      rw [List.append_assoc, List.append_assoc]
      exact List.Perm.append_left _ List.perm_append_comm
    have hj2 : (((((List.range (s.chunks.chunk_radius * s.chunks.chunk_radius * s.chunks.chunk_radius)).flatMap (fun ci => (((List.range CHUNK_CELL_COUNT).filter (fun o => (fun g => cellSpawnB rule (V g) (C g)) (chunkGlobalIdx ci o s.chunks.chunk_radius b) && !(ChunkM.is_border_pos (ChunkM.index_to_pos o) 0))).flatMap (fun o => locPairs rule o 1)).map (fun p => (ci * CHUNK_CELL_COUNT + p.1, p.2)))) ++ (((List.range (s.chunks.chunk_radius * s.chunks.chunk_radius * s.chunks.chunk_radius)).flatMap (fun ci => ((List.range CHUNK_CELL_COUNT).filter (fun o => (fun g => cellSpawnB rule (V g) (C g)) (chunkGlobalIdx ci o s.chunks.chunk_radius b) && ChunkM.is_border_pos (ChunkM.index_to_pos o) 0)).map (fun o => ci * CHUNK_CELL_COUNT + o))).flatMap (fun st => storagePairs rule s.chunks.chunk_radius st 1))) ++ ((List.range (s.chunks.chunk_radius * s.chunks.chunk_radius * s.chunks.chunk_radius)).flatMap (fun ci => (((List.range CHUNK_CELL_COUNT).filter (fun o => (fun g => cellDeathB rule (V g) (C g)) (chunkGlobalIdx ci o s.chunks.chunk_radius b) && !(ChunkM.is_border_pos (ChunkM.index_to_pos o) 0))).flatMap (fun o => locPairs rule o 255)).map (fun p => (ci * CHUNK_CELL_COUNT + p.1, p.2))))) ++ (((List.range (s.chunks.chunk_radius * s.chunks.chunk_radius * s.chunks.chunk_radius)).flatMap (fun ci => ((List.range CHUNK_CELL_COUNT).filter (fun o => (fun g => cellDeathB rule (V g) (C g)) (chunkGlobalIdx ci o s.chunks.chunk_radius b) && ChunkM.is_border_pos (ChunkM.index_to_pos o) 0)).map (fun o => ci * CHUNK_CELL_COUNT + o))).flatMap (fun st => storagePairs rule s.chunks.chunk_radius st 255))).Perm
        ((((List.range (s.chunks.chunk_radius * s.chunks.chunk_radius * s.chunks.chunk_radius)).flatMap (fun ci => (((List.range CHUNK_CELL_COUNT).filter (fun o => (fun g => cellSpawnB rule (V g) (C g)) (chunkGlobalIdx ci o s.chunks.chunk_radius b) && !(ChunkM.is_border_pos (ChunkM.index_to_pos o) 0))).flatMap (fun o => locPairs rule o 1)).map (fun p => (ci * CHUNK_CELL_COUNT + p.1, p.2)))) ++ (((List.range (s.chunks.chunk_radius * s.chunks.chunk_radius * s.chunks.chunk_radius)).flatMap (fun ci => ((List.range CHUNK_CELL_COUNT).filter (fun o => (fun g => cellSpawnB rule (V g) (C g)) (chunkGlobalIdx ci o s.chunks.chunk_radius b) && ChunkM.is_border_pos (ChunkM.index_to_pos o) 0)).map (fun o => ci * CHUNK_CELL_COUNT + o))).flatMap (fun st => storagePairs rule s.chunks.chunk_radius st 1))) ++ (((List.range (s.chunks.chunk_radius * s.chunks.chunk_radius * s.chunks.chunk_radius)).flatMap (fun ci => (((List.range CHUNK_CELL_COUNT).filter (fun o => (fun g => cellDeathB rule (V g) (C g)) (chunkGlobalIdx ci o s.chunks.chunk_radius b) && !(ChunkM.is_border_pos (ChunkM.index_to_pos o) 0))).flatMap (fun o => locPairs rule o 255)).map (fun p => (ci * CHUNK_CELL_COUNT + p.1, p.2)))) ++ (((List.range (s.chunks.chunk_radius * s.chunks.chunk_radius * s.chunks.chunk_radius)).flatMap (fun ci => ((List.range CHUNK_CELL_COUNT).filter (fun o => (fun g => cellDeathB rule (V g) (C g)) (chunkGlobalIdx ci o s.chunks.chunk_radius b) && ChunkM.is_border_pos (ChunkM.index_to_pos o) 0)).map (fun o => ci * CHUNK_CELL_COUNT + o))).flatMap (fun st => storagePairs rule s.chunks.chunk_radius st 255)))) := by
      rw [List.append_assoc]
    refine (hj1.append_right (((List.range (s.chunks.chunk_radius * s.chunks.chunk_radius * s.chunks.chunk_radius)).flatMap (fun ci => ((List.range CHUNK_CELL_COUNT).filter (fun o => (fun g => cellDeathB rule (V g) (C g)) (chunkGlobalIdx ci o s.chunks.chunk_radius b) && ChunkM.is_border_pos (ChunkM.index_to_pos o) 0)).map (fun o => ci * CHUNK_CELL_COUNT + o))).flatMap (fun st => storagePairs rule s.chunks.chunk_radius st 255))).trans (hj2.trans ?_)
    rw [List.map_append]
    exact List.Perm.append hsp hdt
  intro ci off hci hoff
  have hciL : ci < s.chunks.chunks_len := by
    rw [hlen]
    exact hci
  constructor
  · show ((((List.range s.chunks.chunks_len).flatMap (mtBD rule s.chunks.chunks)).foldl (fun cf index => LeddooMultiThreaded.update_neighbors cf s.chunks.chunk_radius rule index false) (((List.range s.chunks.chunks_len).flatMap (mtBS rule s.chunks.chunks)).foldl (fun cf index => LeddooMultiThreaded.update_neighbors cf s.chunks.chunk_radius rule index true) ((List.range s.chunks.chunks_len).foldl (fun cf ci => Function.update cf ci (((((List.range s.chunks.chunks_len).map (fun ci => (mtIS rule s.chunks.chunks ci, mtID rule s.chunks.chunks ci))).getD ci ([], [])).2.foldl (fun ch o => LeddooMultiThreaded.update_neighbors_chunk ch rule o false) ((((List.range s.chunks.chunks_len).map (fun ci => (mtIS rule s.chunks.chunks ci, mtID rule s.chunks.chunks ci))).getD ci ([], [])).1.foldl (fun ch o => LeddooMultiThreaded.update_neighbors_chunk ch rule o true) (cf ci))))) (fun ci => if ci ∈ List.range s.chunks.chunks_len then mtNewch rule s.chunks.chunks ci else s.chunks.chunks ci)))) ci).value off = _
    rw [congrFun (hdtF.2 ci) off, congrFun (hspF.2 ci) off, congrFun (hparF.2 ci) off]
    show ((if ci ∈ List.range s.chunks.chunks_len then mtNewch rule s.chunks.chunks ci else s.chunks.chunks ci)).value off = _
    rw [if_pos (List.mem_range.mpr hciL), mtNewch_value rule s.chunks.chunks ci off hoff,
      hcv ci off hci hoff, hcn ci off hci hoff]
    unfold tickValues
    rw [if_pos (chunkGlobalIdx_lt hr hb hci hoff)]
  · have hst : ((((List.range s.chunks.chunks_len).flatMap (mtBD rule s.chunks.chunks)).foldl (fun cf index => LeddooMultiThreaded.update_neighbors cf s.chunks.chunk_radius rule index false) (((List.range s.chunks.chunks_len).flatMap (mtBS rule s.chunks.chunks)).foldl (fun cf index => LeddooMultiThreaded.update_neighbors cf s.chunks.chunk_radius rule index true) ((List.range s.chunks.chunks_len).foldl (fun cf ci => Function.update cf ci (((((List.range s.chunks.chunks_len).map (fun ci => (mtIS rule s.chunks.chunks ci, mtID rule s.chunks.chunks ci))).getD ci ([], [])).2.foldl (fun ch o => LeddooMultiThreaded.update_neighbors_chunk ch rule o false) ((((List.range s.chunks.chunks_len).map (fun ci => (mtIS rule s.chunks.chunks ci, mtID rule s.chunks.chunks ci))).getD ci ([], [])).1.foldl (fun ch o => LeddooMultiThreaded.update_neighbors_chunk ch rule o true) (cf ci))))) (fun ci => if ci ∈ List.range s.chunks.chunks_len then mtNewch rule s.chunks.chunks ci else s.chunks.chunks ci)))) ci).neighbours off
        = flattenN (((List.range s.chunks.chunks_len).flatMap (mtBD rule s.chunks.chunks)).foldl (fun cf index => LeddooMultiThreaded.update_neighbors cf s.chunks.chunk_radius rule index false) (((List.range s.chunks.chunks_len).flatMap (mtBS rule s.chunks.chunks)).foldl (fun cf index => LeddooMultiThreaded.update_neighbors cf s.chunks.chunk_radius rule index true) ((List.range s.chunks.chunks_len).foldl (fun cf ci => Function.update cf ci (((((List.range s.chunks.chunks_len).map (fun ci => (mtIS rule s.chunks.chunks ci, mtID rule s.chunks.chunks ci))).getD ci ([], [])).2.foldl (fun ch o => LeddooMultiThreaded.update_neighbors_chunk ch rule o false) ((((List.range s.chunks.chunks_len).map (fun ci => (mtIS rule s.chunks.chunks ci, mtID rule s.chunks.chunks ci))).getD ci ([], [])).1.foldl (fun ch o => LeddooMultiThreaded.update_neighbors_chunk ch rule o true) (cf ci))))) (fun ci => if ci ∈ List.range s.chunks.chunks_len then mtNewch rule s.chunks.chunks ci else s.chunks.chunks ci)))) (ci * CHUNK_CELL_COUNT + off) := by
      unfold flattenN
      rw [(chunk_index_decomp ci off hoff).1, (chunk_index_decomp ci off hoff).2]
    rw [hst, hflatTotal, bumpList_perm hperm]
    have hA : flattenN s.chunks.chunks (ci * CHUNK_CELL_COUNT + off)
        = C (chunkGlobalIdx ci off s.chunks.chunk_radius b) := by
      unfold flattenN
      rw [(chunk_index_decomp ci off hoff).1, (chunk_index_decomp ci off hoff).2]
      exact hcn ci off hci hoff
    have hbij : ∀ p ∈ (wrapPairsAll rule b 1 (tickSpawns rule V C (List.range (b.toNat * b.toNat * b.toNat))) ++ wrapPairsAll rule b 255 (tickDeaths rule V C (List.range (b.toNat * b.toNat * b.toNat)))),
        (mtStorageOf s.chunks.chunk_radius b p.1 = ci * CHUNK_CELL_COUNT + off
          ↔ p.1 = chunkGlobalIdx ci off s.chunks.chunk_radius b) := by
      intro p hp
      have hlt : p.1 < b.toNat * b.toNat * b.toNat := by
        rcases List.mem_append.mp hp with hp1 | hp1
        · exact wrapPairsAll_fst_lt hb0 rule 1 _ p hp1
        · exact wrapPairsAll_fst_lt hb0 rule 255 _ p hp1
      exact mtStorageOf_eq_iff hr hb hlt hci hoff
    exact bumpList_conj (wrapPairsAll rule b 1 (tickSpawns rule V C (List.range (b.toNat * b.toNat * b.toNat))) ++ wrapPairsAll rule b 255 (tickDeaths rule V C (List.range (b.toNat * b.toNat * b.toNat)))) (mtStorageOf s.chunks.chunk_radius b) (flattenN s.chunks.chunks) C
      (ci * CHUNK_CELL_COUNT + off) (chunkGlobalIdx ci off s.chunks.chunk_radius b) hA hbij

/-! ## N-step runs and the three-strategy equivalence -/

/-- One canonical tick on a global `(values, counts)` pair over side `b`. -/
def canonTick (rule : Rule) (b : Int) (p : (Nat → Nat) × (Nat → Nat)) :
    (Nat → Nat) × (Nat → Nat) :=
  (tickValues rule p.1 p.2 (b.toNat * b.toNat * b.toNat),
   tickCounts rule p.1 p.2 b (List.range (b.toNat * b.toNat * b.toNat)))

/-- `n`-fold canonical tick. -/
def canonIter (rule : Rule) (b : Int) :
    Nat → (Nat → Nat) × (Nat → Nat) → (Nat → Nat) × (Nat → Nat)
  | 0, p => p
  | n + 1, p => canonIter rule b n (canonTick rule b p)

/-- `n`-fold fallible stepping; `none` records a panic somewhere in the run. -/
def iterOpt {α : Type} (f : α → Option α) : Nat → α → Option α
  | 0, a => some a
  | n + 1, a => (f a).bind (iterOpt f n)

theorem canonTick_fst (rule : Rule) (b : Int) (p : (Nat → Nat) × (Nat → Nat)) :
    (canonTick rule b p).1 = tickValues rule p.1 p.2 (b.toNat * b.toNat * b.toNat) := rfl

theorem canonTick_snd (rule : Rule) (b : Int) (p : (Nat → Nat) × (Nat → Nat)) :
    (canonTick rule b p).2
      = tickCounts rule p.1 p.2 b (List.range (b.toNat * b.toNat * b.toNat)) := rfl

theorem canonIter_succ (rule : Rule) (b : Int) (n : Nat) (p : (Nat → Nat) × (Nat → Nat)) :
    canonIter rule b (n + 1) p = canonIter rule b n (canonTick rule b p) := rfl

theorem iterOpt_succ {α : Type} (f : α → Option α) (n : Nat) (a : α) :
    iterOpt f (n + 1) a = (f a).bind (iterOpt f n) := rfl

/-- The neighbor-count invariant pack on a canonical pair: values bounded by
`states`, stored counts equal to the brute-force recount. -/
def canonInv (rule : Rule) (b : Int) (p : (Nat → Nat) × (Nat → Nat)) : Prop :=
  (∀ j, j < b.toNat * b.toNat * b.toNat → p.1 j ≤ rule.states) ∧
  (∀ j, j < b.toNat * b.toNat * b.toNat → p.2 j = bruteCount rule p.1 b j)

theorem canonInv_ok (rule : Rule) (b : Int) (p : (Nat → Nat) × (Nat → Nat))
    (h : canonInv rule b p) :
    tickOkAll rule p.1 p.2 (b.toNat * b.toNat * b.toNat) :=
  tickOkAll_of_inv rule p.1 p.2 b h.2

theorem canonInv_tick (rule : Rule) (hst : 1 ≤ rule.states) {b : Int} (hb0 : 0 < b)
    {p : (Nat → Nat) × (Nat → Nat)} (h : canonInv rule b p) :
    canonInv rule b (canonTick rule b p) := by
  constructor
  · exact fun j hj => tickValues_le rule p.1 p.2 _ h.1 j hj
  · intro j hj
    exact tickCounts_brute rule p.1 p.2 hb0 hst h.1 h.2 hj

/-- `bruteCount` only looks at values of valid cells. -/
theorem bruteCount_congr {b : Int} (hb0 : 0 < b) (rule : Rule) {v1 v2 : Nat → Nat}
    (hv : ∀ j, j < b.toNat * b.toNat * b.toNat → v1 j = v2 j) (i : Nat) :
    bruteCount rule v1 b i = bruteCount rule v2 b i := by
  rw [bruteCount_eq_nbrIdx, bruteCount_eq_nbrIdx]
  refine List.countP_congr ?_
  intro d hd
  rw [hv _ (nbrIdx_lt hb0 i d)]

/-- A bump sequence reads its base function only at the probed index. -/
theorem bumpList_congr_at (L : List (Nat × Nat)) {g1 g2 : Nat → Nat} (j : Nat)
    (h : g1 j = g2 j) : bumpList L g1 j = bumpList L g2 j := by
  rw [bumpList_apply, bumpList_apply, h]

/-- The canonical tick depends only on the valid-cell portion of its input. -/
theorem canonTick_congr (rule : Rule) (b : Int) {v1 c1 v2 c2 : Nat → Nat}
    (hv : ∀ j, j < b.toNat * b.toNat * b.toNat → v1 j = v2 j)
    (hc : ∀ j, j < b.toNat * b.toNat * b.toNat → c1 j = c2 j) :
    (∀ j, j < b.toNat * b.toNat * b.toNat →
      tickValues rule v1 c1 (b.toNat * b.toNat * b.toNat) j
        = tickValues rule v2 c2 (b.toNat * b.toNat * b.toNat) j) ∧
    (∀ j, j < b.toNat * b.toNat * b.toNat →
      tickCounts rule v1 c1 b (List.range (b.toNat * b.toNat * b.toNat)) j
        = tickCounts rule v2 c2 b (List.range (b.toNat * b.toNat * b.toNat)) j) := by
  have hsp : tickSpawns rule v1 c1 (List.range (b.toNat * b.toNat * b.toNat))
      = tickSpawns rule v2 c2 (List.range (b.toNat * b.toNat * b.toNat)) := by
    unfold tickSpawns
    refine List.filter_congr ?_
    intro i hi
    rw [hv i (List.mem_range.mp hi), hc i (List.mem_range.mp hi)]
  have hdt : tickDeaths rule v1 c1 (List.range (b.toNat * b.toNat * b.toNat))
      = tickDeaths rule v2 c2 (List.range (b.toNat * b.toNat * b.toNat)) := by
    unfold tickDeaths
    refine List.filter_congr ?_
    intro i hi
    rw [hv i (List.mem_range.mp hi), hc i (List.mem_range.mp hi)]
  constructor
  · intro j hj
    unfold tickValues
    rw [if_pos hj, if_pos hj, hv j hj, hc j hj]
  · intro j hj
    unfold tickCounts
    rw [hsp, hdt]
    exact bumpList_congr_at _ j (hc j hj)

/-- N-step run of the atomic engine: under the invariant it never fails and
tracks the canonical iteration on every valid cell. -/
theorem atomic_run_ok (rule : Rule) (hst : 1 ≤ rule.states) {r : Nat} (hr : 0 < r)
    {b : Int} (hb : b = ((r * CHUNK_SIZE : Nat) : Int)) (n : Nat) :
    ∀ (p : (Nat → Nat) × (Nat → Nat)), canonInv rule b p →
    ∀ (s : LeddooAtomic), s.chunk_radius = r → s.chunk_count = r * r * r →
    (∀ j, j < b.toNat * b.toNat * b.toNat → s.values j = p.1 j) →
    (∀ j, j < b.toNat * b.toNat * b.toNat → s.neighbors j = p.2 j) →
    ∃ s2, iterOpt (fun t => t.update rule) n s = some s2
      ∧ s2.chunk_radius = r ∧ s2.chunk_count = r * r * r
      ∧ (∀ j, j < b.toNat * b.toNat * b.toNat →
          s2.values j = (canonIter rule b n p).1 j)
      ∧ (∀ j, j < b.toNat * b.toNat * b.toNat →
          s2.neighbors j = (canonIter rule b n p).2 j) := by
  have hb0 : 0 < b := by
    rw [hb]
    exact_mod_cast Nat.mul_pos hr (by norm_num [CHUNK_SIZE])
  induction n with
  | zero =>
    intro p hp s hrad hcc hv hc
    exact ⟨s, rfl, hrad, hcc, hv, hc⟩
  | succ n ih =>
    intro p hp s hrad hcc hv hc
    have hbnds : s.bounds = b := by
      unfold LeddooAtomic.bounds
      rw [hrad, hb]
    have hr2 : 0 < s.chunk_radius := by
      rw [hrad]
      exact hr
    have hcc2 : s.chunk_count = s.chunk_radius * s.chunk_radius * s.chunk_radius := by
      rw [hrad]
      exact hcc
    have hokV : tickOkAll rule s.values s.neighbors (b.toNat * b.toNat * b.toNat) := by
      intro i hi
      rw [hv i hi, hc i hi]
      exact canonInv_ok rule b p hp i hi
    have hokb : tickOkAll rule s.values s.neighbors
        (s.bounds.toNat * s.bounds.toNat * s.bounds.toNat) := by
      rw [hbnds]
      exact hokV
    have hupd := atomic_update_ok s rule hr2 hcc2 hokb
    rw [hbnds] at hupd
    have hcgr := canonTick_congr rule b hv hc
    have hstep := ih (canonTick rule b p) (canonInv_tick rule hst hb0 hp)
      { s with
        values := tickValues rule s.values s.neighbors (b.toNat * b.toNat * b.toNat),
        neighbors := tickCounts rule s.values s.neighbors b
          (List.range (b.toNat * b.toNat * b.toNat)) }
      hrad hcc
      (fun j hj => by
        rw [canonTick_fst]
        exact hcgr.1 j hj)
      (fun j hj => by
        rw [canonTick_snd]
        exact hcgr.2 j hj)
    rcases hstep with ⟨s2, hrun, h1, h2, h3, h4⟩
    refine ⟨s2, ?_, h1, h2, ?_, ?_⟩
    · rw [iterOpt_succ, hupd, Option.some_bind, hrun]
    · intro j hj
      rw [h3 j hj, canonIter_succ]
    · intro j hj
      rw [h4 j hj, canonIter_succ]

/-- N-step run of the single-threaded engine. -/
theorem single_run_ok (rule : Rule) (hst : 1 ≤ rule.states) {r : Nat} (hr : 0 < r)
    {b : Int} (hb : b = ((r * CHUNK_SIZE : Nat) : Int))
    (hbs : usizeOfI32 rule.bounding_size = b.toNat) (n : Nat) :
    ∀ (p : (Nat → Nat) × (Nat → Nat)), canonInv rule b p →
    ∀ (s : LeddooSingleThreaded), s.size = b.toNat →
    (∀ j, j < b.toNat * b.toNat * b.toNat → s.value j = p.1 j) →
    (∀ j, j < b.toNat * b.toNat * b.toNat → s.neighbors j = p.2 j) →
    ∃ s2, iterOpt (fun t => t.update rule) n s = some s2
      ∧ s2.size = b.toNat
      ∧ (∀ j, j < b.toNat * b.toNat * b.toNat →
          s2.value j = (canonIter rule b n p).1 j)
      ∧ (∀ j, j < b.toNat * b.toNat * b.toNat →
          s2.neighbors j = (canonIter rule b n p).2 j) := by
  have hb0 : 0 < b := by
    rw [hb]
    exact_mod_cast Nat.mul_pos hr (by norm_num [CHUNK_SIZE])
  have hbb : ((b.toNat : Nat) : Int) = b := Int.toNat_of_nonneg (le_of_lt hb0)
  induction n with
  | zero =>
    intro p hp s hsize hv hc
    exact ⟨s, rfl, hsize, hv, hc⟩
  | succ n ih =>
    intro p hp s hsize hv hc
    have hsz : usizeOfI32 rule.bounding_size = s.size := by
      rw [hsize]
      exact hbs
    have hokV : tickOkAll rule s.value s.neighbors (b.toNat * b.toNat * b.toNat) := by
      intro i hi
      rw [hv i hi, hc i hi]
      exact canonInv_ok rule b p hp i hi
    have hoks : tickOkAll rule s.value s.neighbors (s.size * s.size * s.size) := by
      rw [hsize]
      exact hokV
    have hupd := single_update_ok s rule hsz hoks
    rw [hsize, hbb] at hupd
    have hcgr := canonTick_congr rule b hv hc
    have hstep := ih (canonTick rule b p) (canonInv_tick rule hst hb0 hp)
      { value := tickValues rule s.value s.neighbors (b.toNat * b.toNat * b.toNat),
        neighbors := tickCounts rule s.value s.neighbors b
          (List.range (b.toNat * b.toNat * b.toNat)),
        size := b.toNat }
      rfl
      (fun j hj => by
        rw [canonTick_fst]
        exact hcgr.1 j hj)
      (fun j hj => by
        rw [canonTick_snd]
        exact hcgr.2 j hj)
    rcases hstep with ⟨s2, hrun, h1, h3, h4⟩
    refine ⟨s2, ?_, h1, ?_, ?_⟩
    · rw [iterOpt_succ, hupd, Option.some_bind, hrun]
    · intro j hj
      rw [h3 j hj, canonIter_succ]
    · intro j hj
      rw [h4 j hj, canonIter_succ]

/-- N-step run of the chunked parallel engine. -/
theorem multi_run_ok (rule : Rule) (hst : 1 ≤ rule.states) {r : Nat} (hr : 0 < r)
    {b : Int} (hb : b = ((r * CHUNK_SIZE : Nat) : Int)) (n : Nat) :
    ∀ (p : (Nat → Nat) × (Nat → Nat)), canonInv rule b p →
    ∀ (s : LeddooMultiThreaded), s.chunks.chunk_radius = r →
    s.chunks.chunks_len = r * r * r →
    (∀ ci off, ci < r * r * r → off < CHUNK_CELL_COUNT →
      (s.chunks.chunks ci).value off = p.1 (chunkGlobalIdx ci off r b)) →
    (∀ ci off, ci < r * r * r → off < CHUNK_CELL_COUNT →
      (s.chunks.chunks ci).neighbours off = p.2 (chunkGlobalIdx ci off r b)) →
    ∃ s2, iterOpt (fun t => t.update rule) n s = some s2
      ∧ s2.chunks.chunk_radius = r ∧ s2.chunks.chunks_len = r * r * r
      ∧ (∀ ci off, ci < r * r * r → off < CHUNK_CELL_COUNT →
          (s2.chunks.chunks ci).value off
            = (canonIter rule b n p).1 (chunkGlobalIdx ci off r b))
      ∧ (∀ ci off, ci < r * r * r → off < CHUNK_CELL_COUNT →
          (s2.chunks.chunks ci).neighbours off
            = (canonIter rule b n p).2 (chunkGlobalIdx ci off r b)) := by
  have hb0 : 0 < b := by
    rw [hb]
    exact_mod_cast Nat.mul_pos hr (by norm_num [CHUNK_SIZE])
  induction n with
  | zero =>
    intro p hp s hrad hlen hv hc
    exact ⟨s, rfl, hrad, hlen, hv, hc⟩
  | succ n ih =>
    intro p hp s hrad hlen hv hc
    have hupd := multi_update_ok s rule p.1 p.2 hrad hr hb hlen hv hc
      (canonInv_ok rule b p hp)
    rcases hupd with ⟨s1, hone, hrad1, hlen1, _, hcells⟩
    have hstep := ih (canonTick rule b p) (canonInv_tick rule hst hb0 hp) s1
      (by rw [hrad1]; exact hrad) (by rw [hlen1]; exact hlen)
      (fun ci off hci hoff => by
        rw [canonTick_fst]
        exact (hcells ci off hci hoff).1)
      (fun ci off hci hoff => by
        rw [canonTick_snd]
        exact (hcells ci off hci hoff).2)
    rcases hstep with ⟨s2, hrun, h1, h2, h3, h4⟩
    refine ⟨s2, ?_, h1, h2, ?_, ?_⟩
    · rw [iterOpt_succ, hone, Option.some_bind, hrun]
    · intro ci off hci hoff
      rw [h3 ci off hci hoff, canonIter_succ]
    · intro ci off hci hoff
      rw [h4 ci off hci hoff, canonIter_succ]

/-- C3 (refinement / equivalence): from one common starting grid of side
`b = 32 r` whose cell arrays are identical across engines and satisfy the
neighbor-count invariant, `n` update steps of the single-threaded, the
chunk-parallel serial-boundary and the atomic-boundary engines all succeed
and produce bit-identical value and neighbor-count arrays, for every `n`. -/
theorem strategy_equivalence_n_steps (rule : Rule) (hst : 1 ≤ rule.states)
    {r : Nat} (hr : 0 < r) {b : Int} (hb : b = ((r * CHUNK_SIZE : Nat) : Int))
    (hbs : usizeOfI32 rule.bounding_size = b.toNat)
    (V C : Nat → Nat) (hinv : canonInv rule b (V, C))
    (sA : LeddooAtomic) (sS : LeddooSingleThreaded) (sM : LeddooMultiThreaded)
    (hArad : sA.chunk_radius = r) (hAcc : sA.chunk_count = r * r * r)
    (hSsz : sS.size = b.toNat)
    (hMrad : sM.chunks.chunk_radius = r) (hMlen : sM.chunks.chunks_len = r * r * r)
    (hAv : ∀ j, j < b.toNat * b.toNat * b.toNat → sA.values j = V j)
    (hAc : ∀ j, j < b.toNat * b.toNat * b.toNat → sA.neighbors j = C j)
    (hSv : ∀ j, j < b.toNat * b.toNat * b.toNat → sS.value j = V j)
    (hSc : ∀ j, j < b.toNat * b.toNat * b.toNat → sS.neighbors j = C j)
    (hMv : ∀ ci off, ci < r * r * r → off < CHUNK_CELL_COUNT →
      (sM.chunks.chunks ci).value off = V (chunkGlobalIdx ci off r b))
    (hMc : ∀ ci off, ci < r * r * r → off < CHUNK_CELL_COUNT →
      (sM.chunks.chunks ci).neighbours off = C (chunkGlobalIdx ci off r b))
    (n : Nat) :
    ∃ sA2 sS2 sM2,
      iterOpt (fun t => t.update rule) n sA = some sA2
      ∧ iterOpt (fun t => t.update rule) n sS = some sS2
      ∧ iterOpt (fun t => t.update rule) n sM = some sM2
      ∧ (∀ j, j < b.toNat * b.toNat * b.toNat →
          sA2.values j = sS2.value j ∧ sA2.neighbors j = sS2.neighbors j)
      ∧ (∀ ci off, ci < r * r * r → off < CHUNK_CELL_COUNT →
          (sM2.chunks.chunks ci).value off = sA2.values (chunkGlobalIdx ci off r b)
          ∧ (sM2.chunks.chunks ci).neighbours off
            = sA2.neighbors (chunkGlobalIdx ci off r b)) := by
  rcases atomic_run_ok rule hst hr hb n (V, C) hinv sA hArad hAcc hAv hAc with
    ⟨sA2, hArun, _, _, hA3, hA4⟩
  rcases single_run_ok rule hst hr hb hbs n (V, C) hinv sS hSsz hSv hSc with
    ⟨sS2, hSrun, _, hS3, hS4⟩
  rcases multi_run_ok rule hst hr hb n (V, C) hinv sM hMrad hMlen hMv hMc with
    ⟨sM2, hMrun, _, _, hM3, hM4⟩
  refine ⟨sA2, sS2, sM2, hArun, hSrun, hMrun, ?_, ?_⟩
  · intro j hj
    exact ⟨(hA3 j hj).trans (hS3 j hj).symm, (hA4 j hj).trans (hS4 j hj).symm⟩
  · intro ci off hci hoff
    have hg := chunkGlobalIdx_lt hr hb hci hoff
    exact ⟨(hM3 ci off hci hoff).trans (hA3 _ hg).symm,
      (hM4 ci off hci hoff).trans (hA4 _ hg).symm⟩

/-! ## spawn_noise frame property -/

/-- Both direction tables list pairwise-distinct offsets. -/
theorem dirs_nodup (m : NeighbourMethod) : m.get_neighbour_iter.Nodup := by
  cases m <;> decide

/-- For side length above 2, distinct unit offsets from one source wrap to
distinct neighbor indices. -/
theorem nbrIdx_inj {b : Int} (hb2 : 2 < b) (i : Nat) {d1 d2 : IVec3}
    (hd1 : d1.x.natAbs ≤ 1 ∧ d1.y.natAbs ≤ 1 ∧ d1.z.natAbs ≤ 1)
    (hd2 : d2.x.natAbs ≤ 1 ∧ d2.y.natAbs ≤ 1 ∧ d2.z.natAbs ≤ 1)
    (he : nbrIdx b i d1 = nbrIdx b i d2) : d1 = d2 := by
  have hb0 : 0 < b := by omega
  have h1 := utils.wrap_mem (p := utils.index_to_pos i b + d1) hb0
  have h2 := utils.wrap_mem (p := utils.index_to_pos i b + d2) hb0
  have hw : utils.wrap (utils.index_to_pos i b + d1) b
      = utils.wrap (utils.index_to_pos i b + d2) b := by
    have e1 := utils.index_to_pos_pos_to_index h1.1.1 h1.1.2 h1.2.1.1 h1.2.1.2
      h1.2.2.1 h1.2.2.2
    have e2 := utils.index_to_pos_pos_to_index h2.1.1 h2.1.2 h2.2.1.1 h2.2.1.2
      h2.2.2.1 h2.2.2.2
    rw [← e1, ← e2]
    unfold nbrIdx at he
    rw [he]
  have haxis : ∀ (q e1 e2 : Int), e1.natAbs ≤ 1 → e2.natAbs ≤ 1 →
      (q + e1).emod b = (q + e2).emod b → e1 = e2 := by
    intro q e1 e2 hu1 hu2 hmod
    have hz : ((q + e1) - (q + e2)).emod b = 0 :=
      Int.emod_eq_emod_iff_emod_sub_eq_zero.mp hmod
    have hdvd : b ∣ (q + e1) - (q + e2) := Int.dvd_of_emod_eq_zero hz
    have hsub : (q + e1) - (q + e2) = e1 - e2 := by ring
    rw [hsub] at hdvd
    have hlt : (e1 - e2).natAbs < b.natAbs := by omega
    have := Int.eq_zero_of_dvd_of_natAbs_lt_natAbs hdvd hlt
    omega
  have hx := haxis (utils.index_to_pos i b).x d1.x d2.x hd1.1 hd2.1 (by
    have := congrArg IVec3.x hw
    rw [utils.wrap_x, utils.wrap_x, IVec3.add_x, IVec3.add_x] at this
    exact this)
  have hy := haxis (utils.index_to_pos i b).y d1.y d2.y hd1.2.1 hd2.2.1 (by
    have := congrArg IVec3.y hw
    rw [utils.wrap_y, utils.wrap_y, IVec3.add_y, IVec3.add_y] at this
    exact this)
  have hz := haxis (utils.index_to_pos i b).z d1.z d2.z hd1.2.2 hd2.2.2 (by
    have := congrArg IVec3.z hw
    rw [utils.wrap_z, utils.wrap_z, IVec3.add_z, IVec3.add_z] at this
    exact this)
  exact IVec3.ext_xyz hx hy hz

theorem countP_eq_one_of_nodup {α : Type} [DecidableEq α] (l : List α)
    (hnd : l.Nodup) {a : α} (ha : a ∈ l) :
    l.countP (fun d => decide (d = a)) = 1 := by
  induction l with
  | nil => cases ha
  | cons x xs ih =>
    rw [List.countP_cons]
    rcases List.mem_cons.mp ha with he | hmem
    · have hno : xs.countP (fun d => decide (d = a)) = 0 := by
        rw [List.countP_eq_zero]
        intro d hd
        simp only [decide_eq_true_eq]
        intro he2
        subst he2
        rw [he] at hd
        exact (List.nodup_cons.mp hnd).1 hd
      rw [hno]
      have hxa : (decide (x = a) : Bool) = true := by
        simp only [decide_eq_true_eq]
        exact he.symm
      rw [hxa]
      simp
    · have hx : (decide (x = a) : Bool) = false := by
        simp only [decide_eq_false_iff_not]
        intro he
        subst he
        exact (List.nodup_cons.mp hnd).1 hmem
      rw [ih (List.nodup_cons.mp hnd).2 hmem, hx]
      simp

/-- Exactly one direction hits a given neighbor index (side length above 2). -/
theorem countP_nbrIdx_target {b : Int} (hb2 : 2 < b) (m : NeighbourMethod) (i : Nat)
    {d0 : IVec3} (hd0 : d0 ∈ m.get_neighbour_iter) :
    m.get_neighbour_iter.countP (fun d => decide (nbrIdx b i d = nbrIdx b i d0)) = 1 := by
  have hcg : m.get_neighbour_iter.countP (fun d => decide (nbrIdx b i d = nbrIdx b i d0))
      = m.get_neighbour_iter.countP (fun d => decide (d = d0)) := by
    refine List.countP_congr ?_
    intro d hd
    simp only [decide_eq_true_eq]
    constructor
    · intro h
      exact nbrIdx_inj hb2 i (dirs_bounded m d hd) (dirs_bounded m d0 hd0) h
    · intro h
      rw [h]
  rw [hcg]
  exact countP_eq_one_of_nodup _ (dirs_nodup m) hd0

/-- `noiseVisit` never changes the stored bound. -/
theorem noiseVisit_bounds (rule : Rule) (b : Int) (t : LeddooAtomic) (pos : IVec3) :
    (noiseVisit rule b t pos).bounds = t.bounds := by
  by_cases h : cell_is_dead (t.values (utils.pos_to_index (utils.wrap pos b) t.bounds))
      = true
  · rw [noiseVisit_dead rule b t pos h]
    rfl
  · rw [noiseVisit_alive rule b t pos (by simpa using h)]

/-- Full effect of one dead-cell visit: the visited cell becomes full, each
wrapped topology neighbor's count is incremented by exactly 1, and nothing
else moves. -/
theorem noiseVisit_dead_effect {b : Int} (hb32 : (32 : Int) ∣ b) (hb2 : 2 < b)
    (rule : Rule) (t : LeddooAtomic) (htb : t.bounds = b) (pos : IVec3)
    (hdead : cell_is_dead (t.values (utils.pos_to_index (utils.wrap pos b) b)) = true) :
    ((noiseVisit rule b t pos).values (utils.pos_to_index (utils.wrap pos b) b)
        = rule.states)
    ∧ (∀ j, j ≠ utils.pos_to_index (utils.wrap pos b) b →
        (noiseVisit rule b t pos).values j = t.values j)
    ∧ (∀ d ∈ rule.neighbour_method.get_neighbour_iter,
        (noiseVisit rule b t pos).neighbors
            (nbrIdx b (utils.pos_to_index (utils.wrap pos b) b) d)
          = (t.neighbors (nbrIdx b (utils.pos_to_index (utils.wrap pos b) b) d) + 1) % 256)
    ∧ (∀ j, (∀ d ∈ rule.neighbour_method.get_neighbour_iter,
          nbrIdx b (utils.pos_to_index (utils.wrap pos b) b) d ≠ j) →
        (noiseVisit rule b t pos).neighbors j = t.neighbors j) := by
  have hb0 : 0 < b := by omega
  have hdead2 : cell_is_dead (t.values (utils.pos_to_index (utils.wrap pos b) t.bounds))
      = true := by
    rw [htb]
    exact hdead
  have hvd := noiseVisit_dead rule b t pos hdead2
  have hidx : utils.pos_to_index (utils.wrap pos b) b < b.toNat * b.toNat * b.toNat :=
    noise_index_lt hb0 pos
  have hbump : LeddooAtomic.update_neighbors t.neighbors
      (utils.pos_to_index (utils.wrap pos b) b) b rule true
      = bumpList (wrapPairs rule b (utils.pos_to_index (utils.wrap pos b) b) 1)
          t.neighbors :=
    update_neighbors_eq_bump hb32 hb0 hidx t.neighbors rule true
  refine ⟨?_, ?_, ?_, ?_⟩
  · rw [hvd]
    dsimp only
    rw [htb, Function.update_same]
  · intro j hj
    rw [hvd]
    dsimp only
    rw [htb, Function.update_noteq hj]
  · intro d hd
    rw [hvd]
    dsimp only
    rw [htb, hbump, bumpList_apply, countP_wrapPairs,
      countP_nbrIdx_target hb2 rule.neighbour_method _ hd]
    rw [if_neg (by omega)]
    have hsum := sum_snd_filter_const
      (wrapPairs rule b (utils.pos_to_index (utils.wrap pos b) b) 1) 1
      (fun q => decide (q.1 = nbrIdx b (utils.pos_to_index (utils.wrap pos b) b) d))
      (wrapPairs_snd rule b (utils.pos_to_index (utils.wrap pos b) b) 1)
    rw [hsum, countP_wrapPairs, countP_nbrIdx_target hb2 rule.neighbour_method _ hd]
  · intro j hj
    rw [hvd]
    dsimp only
    rw [htb, hbump, bumpList_apply, countP_wrapPairs]
    have hz : rule.neighbour_method.get_neighbour_iter.countP
        (fun d => decide (nbrIdx b (utils.pos_to_index (utils.wrap pos b) b) d = j))
        = 0 := by
      rw [List.countP_eq_zero]
      intro d hd
      simp only [decide_eq_true_eq]
      exact hj d hd
    rw [hz, if_pos rfl]

/-- Frame property of the whole noise fold on the value array: any cell whose
value changed was dead before and is full afterwards, and it is the wrapped
image of one of the visited positions. -/
theorem noise_fold_values (rule : Rule) (hst : 1 ≤ rule.states) (b : Int) :
    ∀ (ps : List IVec3) (t : LeddooAtomic), t.bounds = b →
      ((ps.foldl (noiseVisit rule b) t).bounds = b
      ∧ ∀ j, ((ps.foldl (noiseVisit rule b) t).values j = t.values j)
        ∨ (t.values j = 0
            ∧ (ps.foldl (noiseVisit rule b) t).values j = rule.states
            ∧ ∃ pos ∈ ps, j = utils.pos_to_index (utils.wrap pos b) b)) := by
  intro ps
  induction ps with
  | nil =>
    intro t htb
    exact ⟨htb, fun j => Or.inl rfl⟩
  | cons pos ps ih =>
    intro t htb
    rw [List.foldl_cons]
    rcases ih (noiseVisit rule b t pos)
      (by rw [noiseVisit_bounds]; exact htb) with ⟨hbnds, hvals⟩
    by_cases hd : cell_is_dead (t.values (utils.pos_to_index (utils.wrap pos b) t.bounds))
        = true
    · have hvd := noiseVisit_dead rule b t pos hd
      have hd0 : t.values (utils.pos_to_index (utils.wrap pos b) b) = 0 := by
        rw [htb] at hd
        simpa [cell_is_dead] using hd
      refine ⟨hbnds, ?_⟩
      intro j
      rcases hvals j with h | ⟨h0, hs, pos2, hmem, hje⟩
      · by_cases hj : j = utils.pos_to_index (utils.wrap pos b) b
        · right
          subst hj
          refine ⟨hd0, ?_, pos, by simp, rfl⟩
          rw [h, hvd]
          dsimp only
          rw [htb, Function.update_same]
        · left
          rw [h, hvd]
          dsimp only
          rw [htb, Function.update_noteq hj]
      · right
        by_cases hj : j = utils.pos_to_index (utils.wrap pos b) b
        · exfalso
          subst hj
          rw [hvd] at h0
          dsimp only at h0
          rw [htb, Function.update_same] at h0
          omega
        · have hsame : (noiseVisit rule b t pos).values j = t.values j := by
            rw [hvd]
            dsimp only
            rw [htb, Function.update_noteq hj]
          refine ⟨?_, hs, pos2, by simp [hmem], hje⟩
          rw [← hsame]
          exact h0
    · have hva : noiseVisit rule b t pos = t :=
        noiseVisit_alive rule b t pos (by simpa using hd)
      rw [hva] at hbnds hvals ⊢
      refine ⟨hbnds, ?_⟩
      intro j
      rcases hvals j with h | ⟨h0, hs, pos2, hmem, hje⟩
      · exact Or.inl h
      · exact Or.inr ⟨h0, hs, pos2, by simp [hmem], hje⟩

/-- C9: frame property of `LeddooAtomic::spawn_noise`.  A visit to an alive
position is a no-op; every value that changes flips dead → full and sits at
the wrapped image of `center + o` for one of the generated cube offsets; a
dead-cell visit sets the full value and bumps each wrapped topology
neighbor's count by exactly one, touching nothing else. -/
theorem spawn_noise_frame_property (rule : Rule) (hst : 1 ≤ rule.states)
    (s : LeddooAtomic) (hr : 0 < s.chunk_radius) (offsets : List IVec3)
    (hcube : ∀ o ∈ offsets, o.x.natAbs ≤ 6 ∧ o.y.natAbs ≤ 6 ∧ o.z.natAbs ≤ 6) :
    (∀ (t : LeddooAtomic) (pos : IVec3),
      cell_is_dead (t.values (utils.pos_to_index (utils.wrap pos s.bounds) t.bounds))
          = false →
      noiseVisit rule s.bounds t pos = t)
    ∧ (∀ j, (s.spawn_noise rule offsets).values j ≠ s.values j →
        s.values j = 0
        ∧ (s.spawn_noise rule offsets).values j = rule.states
        ∧ ∃ o, (o.x.natAbs ≤ 6 ∧ o.y.natAbs ≤ 6 ∧ o.z.natAbs ≤ 6) ∧ o ∈ offsets
            ∧ j = utils.pos_to_index (utils.wrap (s.center + o) s.bounds) s.bounds)
    ∧ (∀ (t : LeddooAtomic), t.bounds = s.bounds → ∀ pos : IVec3,
        cell_is_dead (t.values (utils.pos_to_index (utils.wrap pos s.bounds) s.bounds))
            = true →
        ((noiseVisit rule s.bounds t pos).values
            (utils.pos_to_index (utils.wrap pos s.bounds) s.bounds) = rule.states)
        ∧ (∀ j, j ≠ utils.pos_to_index (utils.wrap pos s.bounds) s.bounds →
            (noiseVisit rule s.bounds t pos).values j = t.values j)
        ∧ (∀ d ∈ rule.neighbour_method.get_neighbour_iter,
            (noiseVisit rule s.bounds t pos).neighbors
                (nbrIdx s.bounds
                  (utils.pos_to_index (utils.wrap pos s.bounds) s.bounds) d)
              = (t.neighbors (nbrIdx s.bounds
                  (utils.pos_to_index (utils.wrap pos s.bounds) s.bounds) d) + 1) % 256)
        ∧ (∀ j, (∀ d ∈ rule.neighbour_method.get_neighbour_iter,
              nbrIdx s.bounds
                (utils.pos_to_index (utils.wrap pos s.bounds) s.bounds) d ≠ j) →
            (noiseVisit rule s.bounds t pos).neighbors j = t.neighbors j)) := by
  have hb32 : (32 : Int) ∣ s.bounds := s.bounds_dvd
  have hb0 : 0 < s.bounds := s.bounds_pos hr
  have hb2 : 2 < s.bounds := by
    rcases hb32 with ⟨k, hk⟩
    omega
  refine ⟨?_, ?_, ?_⟩
  · intro t pos h
    exact noiseVisit_alive rule s.bounds t pos h
  · intro j hne
    rw [spawn_noise_eq_foldl s rule offsets] at hne ⊢
    rcases (noise_fold_values rule hst s.bounds
        (offsets.map (fun o => s.center + o)) s rfl).2 j with h | ⟨h0, hsval, pos2, hmem, hje⟩
    · exact absurd h hne
    · rcases List.mem_map.mp hmem with ⟨o, ho, rfl⟩
      exact ⟨h0, hsval, o, hcube o ho, ho, hje⟩
  · intro t htb pos hdead
    exact noiseVisit_dead_effect hb32 hb2 rule t htb pos hdead

/-- C1: the neighbor-count invariant (the condition of `validate`) holds again
after every completed tick and after every `spawn_noise` call, from any
well-formed validating state. -/
theorem neighbor_count_invariant (s : LeddooAtomic) (rule : Rule)
    (hr : 0 < s.chunk_radius)
    (hcc : s.chunk_count = s.chunk_radius * s.chunk_radius * s.chunk_radius)
    (hst : 1 ≤ rule.states)
    (hv : s.valuesWf rule) (hval : s.validateOk rule) (offsets : List IVec3) :
    (∃ s2, s.update rule = some s2 ∧ s2.validateOk rule ∧ s2.valuesWf rule
      ∧ s2.bounds = s.bounds ∧ s2.chunk_count = s.chunk_count
      ∧ s2.chunk_radius = s.chunk_radius)
    ∧ ((s.spawn_noise rule offsets).validateOk rule
      ∧ (s.spawn_noise rule offsets).valuesWf rule
      ∧ (s.spawn_noise rule offsets).chunk_radius = s.chunk_radius
      ∧ (s.spawn_noise rule offsets).chunk_count = s.chunk_count) :=
  ⟨atomic_update_preserves_inv s rule hr hcc hst hv hval,
   atomic_spawn_noise_preserves_inv s rule offsets hr hcc hst hv hval⟩

/-- C2: the Phase-A per-cell transition.  Dead cells spawn to `states` exactly
on a birth-set hit; full cells survive unchanged exactly on a survival-set
hit and otherwise start dying (recorded in `deaths`); a decaying cell with
`0 < value < states` always decrements by one, for every neighbor count, and
is never recorded in `deaths`. -/
theorem phase_a_cell_transition (rule : Rule) (value neighbors : Nat) :
    (value = 0 → neighbors < 27 →
      rule.birth_rule.in_range_incorrect neighbors = true →
      cellStep rule value neighbors = some (rule.states, true, false))
    ∧ (value = 0 → neighbors < 27 →
      rule.birth_rule.in_range_incorrect neighbors = false →
      cellStep rule value neighbors = some (0, false, false))
    ∧ (value = rule.states → value ≠ 0 → neighbors < 27 →
      rule.survival_rule.in_range_incorrect neighbors = true →
      cellStep rule value neighbors = some (value, false, false))
    ∧ (value = rule.states → value ≠ 0 → neighbors < 27 →
      rule.survival_rule.in_range_incorrect neighbors = false →
      cellStep rule value neighbors = some (value - 1, false, true))
    ∧ (value ≠ 0 → value < rule.states →
      cellStep rule value neighbors = some (value - 1, false, false)) := by
  refine ⟨?_, ?_, ?_, ?_, ?_⟩
  · intro h0 hn hb
    subst h0
    rw [cellStep_dead rule neighbors hn, hb]
    simp
  · intro h0 hn hb
    subst h0
    rw [cellStep_dead rule neighbors hn, hb]
    simp
  · intro hfull h0 hn hs
    have hge : ¬ value < rule.states := by omega
    rw [cellStep_full rule neighbors h0 hge hn, hs]
    simp
  · intro hfull h0 hn hs
    have hge : ¬ value < rule.states := by omega
    rw [cellStep_full rule neighbors h0 hge hn, hs]
    simp [hfull]
  · intro h0 hlt
    exact cellStep_decay rule neighbors h0 hlt

/-- C4: border-classification safety.  A source cell classified interior by
`chunk_is_border_pos(local, 1)` has every chunk-local coordinate in
`2..=29`; each unwrapped neighbor target stays inside the grid, coincides
with its wrapped version (same flat index, in bounds), and lies in the
source cell's own chunk. -/
theorem border_classification_safety {b : Int} (hb32 : (32 : Int) ∣ b) (hb : 0 < b)
    {index : Nat} (hidx : index < b.toNat * b.toNat * b.toNat)
    (hni : chunk_is_border_pos
      ((utils.index_to_pos index b).smod ((CHUNK_SIZE : Nat) : Int)) 1 = false)
    (m : NeighbourMethod) :
    ((2 ≤ (utils.index_to_pos index b).x.emod 32
        ∧ (utils.index_to_pos index b).x.emod 32 ≤ 29)
      ∧ (2 ≤ (utils.index_to_pos index b).y.emod 32
        ∧ (utils.index_to_pos index b).y.emod 32 ≤ 29)
      ∧ (2 ≤ (utils.index_to_pos index b).z.emod 32
        ∧ (utils.index_to_pos index b).z.emod 32 ≤ 29))
    ∧ ∀ d ∈ m.get_neighbour_iter,
        (0 ≤ (utils.index_to_pos index b + d).x
          ∧ (utils.index_to_pos index b + d).x < b)
        ∧ (0 ≤ (utils.index_to_pos index b + d).y
          ∧ (utils.index_to_pos index b + d).y < b)
        ∧ (0 ≤ (utils.index_to_pos index b + d).z
          ∧ (utils.index_to_pos index b + d).z < b)
        ∧ utils.wrap (utils.index_to_pos index b + d) b = utils.index_to_pos index b + d
        ∧ (utils.index_to_pos index b + d).sdiv ((CHUNK_SIZE : Nat) : Int)
            = (utils.index_to_pos index b).sdiv ((CHUNK_SIZE : Nat) : Int)
        ∧ utils.pos_to_index (utils.index_to_pos index b + d) b
            < b.toNat * b.toNat * b.toNat
        ∧ utils.pos_to_index (utils.index_to_pos index b + d) b
            = utils.pos_to_index (utils.wrap (utils.index_to_pos index b + d) b) b := by
  have hcast : ((CHUNK_SIZE : Nat) : Int) = 32 := by norm_num [CHUNK_SIZE]
  constructor
  · have hni2 := hni
    simp only [chunk_is_border_pos, hcast, IVec3.smod, Bool.or_eq_false_iff,
      decide_eq_false_iff_not, not_le] at hni2
    obtain ⟨⟨⟨⟨⟨h1, h2⟩, h3⟩, h4⟩, h5⟩, h6⟩ := hni2
    norm_num at h1 h2 h3 h4 h5 h6
    refine ⟨⟨by omega, by omega⟩, ⟨by omega, by omega⟩, by omega, by omega⟩
  · intro d hd
    have hdb := dirs_bounded m d hd
    have hio := interior_neighbor_ok hb32 hb hidx hni hdb.1 hdb.2.1 hdb.2.2
    obtain ⟨hx, hy, hz, hwid, hchunk⟩ := hio
    refine ⟨hx, hy, hz, hwid, hchunk, ?_, ?_⟩
    · exact utils.pos_to_index_lt hx.1 hx.2 hy.1 hy.2 hz.1 hz.2
    · rw [hwid]

/-- C5: the `x + y*size + z*size²` indexing of the single-threaded engine and
its inverse are mutual inverses on in-range positions and indices. -/
theorem index_roundtrip (s : LeddooSingleThreaded) (hsz : 0 < s.size) :
    (∀ p : IVec3, 0 ≤ p.x → p.x < ((s.size : Nat) : Int) →
      0 ≤ p.y → p.y < ((s.size : Nat) : Int) →
      0 ≤ p.z → p.z < ((s.size : Nat) : Int) →
      s.index_to_vec (s.vec_to_index p) = p)
    ∧ (∀ i : Nat, i < s.size * s.size * s.size →
      s.vec_to_index (s.index_to_vec i) = i) := by
  constructor
  · intro p hx0 hx1 hy0 hy1 hz0 hz1
    rw [single_vec_to_index_eq, single_index_to_vec_eq]
    exact utils.index_to_pos_pos_to_index hx0 hx1 hy0 hy1 hz0 hz1
  · intro i hi
    rw [single_index_to_vec_eq, single_vec_to_index_eq]
    exact utils.pos_to_index_index_to_pos i _

/-- C6: the toroidal wrap used by the engines keeps every coordinate in
`[0, bound)` and only moves coordinates by multiples of the bound. -/
theorem wrap_correctness {b : Int} (hb : 0 < b) (p : IVec3) :
    ((0 ≤ (utils.wrap p b).x ∧ (utils.wrap p b).x < b)
      ∧ (0 ≤ (utils.wrap p b).y ∧ (utils.wrap p b).y < b)
      ∧ (0 ≤ (utils.wrap p b).z ∧ (utils.wrap p b).z < b))
    ∧ (b ∣ p.x - (utils.wrap p b).x
      ∧ b ∣ p.y - (utils.wrap p b).y
      ∧ b ∣ p.z - (utils.wrap p b).z) := by
  have h := utils.wrap_mem (p := p) hb
  refine ⟨⟨h.1, h.2.1, h.2.2⟩, ?_, ?_, ?_⟩
  · rw [utils.wrap_x]
    exact Int.dvd_sub_of_emod_eq rfl
  · rw [utils.wrap_y]
    exact Int.dvd_sub_of_emod_eq rfl
  · rw [utils.wrap_z]
    exact Int.dvd_sub_of_emod_eq rfl

/-! ## set_bounds contracts -/

/-- A one-chunk container holding a single live cell: input of the C7
counterexample. -/
def chunksCx : Chunks :=
  { chunks := fun _ => { value := fun _ => 1, neighbours := fun _ => 0 },
    chunks_len := 1, chunk_radius := 1, chunk_count := 1 }

/-- C7 counterexample: growing the bound from 32 (radius 1) to 64 (radius 2)
changes the effective bound, yet `Chunks::set_bounds` (`resize_with`)
retains the old chunks below the new count — the stored live cell survives,
so the previous state is not discarded. -/
theorem chunks_set_bounds_retains_state :
    (chunksCx.set_bounds 33).2 ≠ chunksCx.bounds
    ∧ ((chunksCx.set_bounds 33).1.chunks 0).value 0 = 1 := by
  constructor
  · decide
  · rfl

/-- C7 (corrected): `Chunks::set_bounds` reports the smallest multiple of the
chunk side at or above the request; on a radius change it resizes, keeping
every chunk index below `min old_len new_count` and defaulting only the
rest; on an unchanged radius it changes nothing. -/
theorem chunks_set_bounds_contract (c : Chunks) (nb : Int) (hnb : 0 ≤ nb) :
    ((c.set_bounds nb).2
        = ((bounds_to_chunk_radius nb * CHUNK_SIZE : Nat) : Int))
    ∧ nb ≤ (c.set_bounds nb).2
    ∧ (32 : Int) ∣ (c.set_bounds nb).2
    ∧ (∀ m : Nat, nb ≤ ((m * CHUNK_SIZE : Nat) : Int) → bounds_to_chunk_radius nb ≤ m)
    ∧ (bounds_to_chunk_radius nb ≠ c.chunk_radius →
        (c.set_bounds nb).1.chunks_len
            = bounds_to_chunk_radius nb * bounds_to_chunk_radius nb
              * bounds_to_chunk_radius nb
        ∧ ∀ i, (c.set_bounds nb).1.chunks i
            = if i < min c.chunks_len (bounds_to_chunk_radius nb
                  * bounds_to_chunk_radius nb * bounds_to_chunk_radius nb)
              then c.chunks i else ChunkM.default)
    ∧ (bounds_to_chunk_radius nb = c.chunk_radius → (c.set_bounds nb).1 = c) := by
  have h2 : (c.set_bounds nb).2
      = ((bounds_to_chunk_radius nb * CHUNK_SIZE : Nat) : Int) := by
    unfold Chunks.set_bounds
    by_cases h : bounds_to_chunk_radius nb ≠ c.chunk_radius
    · rw [if_pos h]
    · rw [if_neg h]
      push_neg at h
      rw [h]
      rfl
  refine ⟨h2, ?_, ?_, ?_, ?_, ?_⟩
  · rw [h2]
    unfold bounds_to_chunk_radius CHUNK_SIZE
    omega
  · rw [h2]
    refine ⟨(bounds_to_chunk_radius nb : Int), ?_⟩
    unfold CHUNK_SIZE
    push_cast
    ring
  · intro m hm
    unfold bounds_to_chunk_radius CHUNK_SIZE
    unfold CHUNK_SIZE at hm
    omega
  · intro h
    unfold Chunks.set_bounds
    rw [if_pos h]
    exact ⟨rfl, fun i => rfl⟩
  · intro h
    unfold Chunks.set_bounds
    rw [if_neg (by omega)]

/-- C10: `LeddooAtomic::set_bounds` unconditionally installs fresh zeroed
arrays (even when the effective bound is unchanged), and the default
`Sim::reset` (`set_bounds 0` then `set_bounds old`) therefore keeps the
effective bound while leaving every cell dead and `cell_count` zero. -/
theorem atomic_set_bounds_discards (s : LeddooAtomic) (nb : Int) :
    ((s.set_bounds nb).2
        = ((bounds_to_chunk_radius nb * CHUNK_SIZE : Nat) : Int))
    ∧ (∀ j, (s.set_bounds nb).1.values j = 0 ∧ (s.set_bounds nb).1.neighbors j = 0)
    ∧ (s.set_bounds nb).1.cell_count = 0
    ∧ s.reset.bounds = s.bounds
    ∧ (∀ j, s.reset.values j = 0 ∧ s.reset.neighbors j = 0)
    ∧ s.reset.cell_count = 0 := by
  have hcount : ∀ t : LeddooAtomic, (∀ j, t.values j = 0) → t.cell_count = 0 := by
    intro t ht
    unfold LeddooAtomic.cell_count
    rw [List.countP_eq_zero]
    intro a _
    rw [ht a]
    decide
  have hrad : bounds_to_chunk_radius s.bounds = s.chunk_radius := by
    unfold bounds_to_chunk_radius LeddooAtomic.bounds CHUNK_SIZE
    omega
  refine ⟨rfl, fun j => ⟨rfl, rfl⟩, hcount _ (fun j => rfl), ?_, fun j => ⟨rfl, rfl⟩,
    hcount _ (fun j => rfl)⟩
  show ((bounds_to_chunk_radius s.bounds * CHUNK_SIZE : Nat) : Int) = s.bounds
  rw [hrad]
  rfl

/-! ## Totality of the membership tests -/

/-- A membership bitset with every bit set: input of the C8 counterexample. -/
def valueCx : Value := ⟨fun _ => true⟩

/-- C8 counterexample: `Value::in_range` is not total — probing the bitset at
27 is an out-of-bounds array index (modelled `none`), even though every
stored bit is `true`. -/
theorem in_range_panics_out_of_range : valueCx.in_range 27 = none := rfl

/-- C8 (corrected): `in_range_incorrect` is total and `false` out of range,
but `in_range` panics exactly on inputs at or above 27 and agrees with
`in_range_incorrect` below; the tick itself is total from any well-formed
validating state. -/
theorem totality_contract (rule : Rule) :
    (∀ (v : Value) (n : Nat), (v.in_range n).isSome = decide (n < 27))
    ∧ (∀ (v : Value) (n : Nat), n < 27 → v.in_range n = some (v.in_range_incorrect n))
    ∧ (∀ (v : Value) (n : Nat), ¬ n < 27 → v.in_range_incorrect n = false)
    ∧ (∀ s : LeddooAtomic, 0 < s.chunk_radius →
        s.chunk_count = s.chunk_radius * s.chunk_radius * s.chunk_radius →
        1 ≤ rule.states → s.valuesWf rule → s.validateOk rule →
        ∃ s2, s.update rule = some s2) := by
  refine ⟨?_, ?_, ?_, ?_⟩
  · intro v n
    exact Value.in_range_isSome v n
  · intro v n h
    exact Value.in_range_eq_some h
  · intro v n h
    simp [Value.in_range_incorrect, h]
  · intro s hr hcc hst hv hval
    rcases atomic_update_preserves_inv s rule hr hcc hst hv hval with ⟨s2, h, _⟩
    exact ⟨s2, h⟩

/-! ## Concrete instances exercising the contracts -/

def ruleW : Rule :=
  { survival_rule := ⟨fun _ => false⟩, birth_rule := ⟨fun _ => false⟩,
    states := 2, neighbour_method := NeighbourMethod.VonNeuman, bounding_size := 32 }

def atomicW : LeddooAtomic :=
  { values := fun _ => 0, neighbors := fun _ => 0, chunk_radius := 1, chunk_count := 1 }

def singleW : LeddooSingleThreaded :=
  { value := fun _ => 0, neighbors := fun _ => 0, size := 32 }

def multiW : LeddooMultiThreaded :=
  { chunks := { chunks := fun _ => ChunkM.default, chunks_len := 1,
                chunk_radius := 1, chunk_count := 1 } }

def aliveW : LeddooAtomic :=
  { values := fun _ => 1, neighbors := fun _ => 0, chunk_radius := 1, chunk_count := 1 }

theorem neighbor_count_invariant_witness :
    ∃ s2, atomicW.update ruleW = some s2 ∧ s2.validateOk ruleW ∧ s2.valuesWf ruleW
      ∧ s2.bounds = atomicW.bounds ∧ s2.chunk_count = atomicW.chunk_count
      ∧ s2.chunk_radius = atomicW.chunk_radius := by
  have hv : atomicW.valuesWf ruleW := by
    intro i hi
    show (0 : Nat) ≤ ruleW.states
    decide
  have hval : atomicW.validateOk ruleW := by
    intro index hidx
    show (0 : Nat) = _
    unfold LeddooAtomic.bruteNeighbors
    symm
    rw [List.countP_eq_zero]
    intro d hd
    show ¬ ((0 : Nat) == ruleW.states) = true
    decide
  exact (neighbor_count_invariant atomicW ruleW (by decide) (by decide) (by decide)
    hv hval []).1

theorem phase_a_cell_transition_witness :
    cellStep ruleW 1 0 = some (0, false, false) :=
  (phase_a_cell_transition ruleW 1 0).2.2.2.2 (by decide) (by decide)

theorem strategy_equivalence_witness :
    (iterOpt (fun t => LeddooAtomic.update t ruleW) 1 atomicW).isSome = true := by
  have hinv : canonInv ruleW ((1 * CHUNK_SIZE : Nat) : Int)
      ((fun _ => 0), (fun _ => 0)) := by
    constructor
    · intro j hj
      show (0 : Nat) ≤ ruleW.states
      decide
    · intro j hj
      show (0 : Nat) = _
      symm
      rw [bruteCount_eq_nbrIdx, List.countP_eq_zero]
      intro d hd
      show ¬ ((0 : Nat) == ruleW.states) = true
      decide
  have hbs : usizeOfI32 ruleW.bounding_size
      = ((1 * CHUNK_SIZE : Nat) : Int).toNat := by decide
  have hsz : singleW.size = ((1 * CHUNK_SIZE : Nat) : Int).toNat := by decide
  rcases @strategy_equivalence_n_steps ruleW (by decide) 1 (by decide)
      ((1 * CHUNK_SIZE : Nat) : Int) rfl hbs
      (fun _ => 0) (fun _ => 0) hinv
      atomicW singleW multiW rfl rfl hsz rfl rfl
      (fun j hj => rfl) (fun j hj => rfl) (fun j hj => rfl) (fun j hj => rfl)
      (fun ci off hci hoff => rfl) (fun ci off hci hoff => rfl) 1
    with ⟨sA2, sS2, sM2, hA, h2⟩
  rw [hA]
  rfl

theorem border_classification_witness :
    (2 ≤ (utils.index_to_pos 2114 32).x.emod 32
        ∧ (utils.index_to_pos 2114 32).x.emod 32 ≤ 29)
    ∧ (2 ≤ (utils.index_to_pos 2114 32).y.emod 32
        ∧ (utils.index_to_pos 2114 32).y.emod 32 ≤ 29)
    ∧ (2 ≤ (utils.index_to_pos 2114 32).z.emod 32
        ∧ (utils.index_to_pos 2114 32).z.emod 32 ≤ 29) :=
  (@border_classification_safety 32 ⟨1, rfl⟩ (by decide) 2114
    (by decide) (by decide) NeighbourMethod.VonNeuman).1

theorem index_roundtrip_witness :
    singleW.vec_to_index (singleW.index_to_vec 5) = 5 :=
  (index_roundtrip singleW (by decide)).2 5 (by decide)

theorem wrap_correctness_witness :
    (0 ≤ (utils.wrap (ivec3 (-1) 33 7) 32).x ∧ (utils.wrap (ivec3 (-1) 33 7) 32).x < 32)
    ∧ (0 ≤ (utils.wrap (ivec3 (-1) 33 7) 32).y ∧ (utils.wrap (ivec3 (-1) 33 7) 32).y < 32)
    ∧ (0 ≤ (utils.wrap (ivec3 (-1) 33 7) 32).z ∧ (utils.wrap (ivec3 (-1) 33 7) 32).z < 32) :=
  (wrap_correctness (by decide) (ivec3 (-1) 33 7)).1

theorem chunks_set_bounds_witness :
    (chunksCx.set_bounds 33).2
      = ((bounds_to_chunk_radius 33 * CHUNK_SIZE : Nat) : Int) :=
  (chunks_set_bounds_contract chunksCx 33 (by decide)).1

theorem totality_witness : valueCx.in_range 5 = some (valueCx.in_range_incorrect 5) :=
  (totality_contract ruleW).2.1 valueCx 5 (by decide)

theorem spawn_noise_frame_witness :
    noiseVisit ruleW atomicW.bounds aliveW (ivec3 0 0 0) = aliveW :=
  (spawn_noise_frame_property ruleW (by decide) atomicW (by decide) [ivec3 1 2 3]
    (by decide)).1 aliveW (ivec3 0 0 0) (by decide)
